import Mathlib

/-!
Vault-object helpers of the Centrify Go SDK (`platform/helper.go` and resources).

Shallow embedding of the helper functions and resource operations of the
`platform` package, followed by the properties established about them.

Conventions of the embedding

* A Go `string` is a Lean `String`; the code only ever inspects ASCII bytes
  (`,`, `%`, letters), so reading a string rune by rune agrees with the byte-wise
  reading of the Go library functions used.
* A Go `map[string]string` is an association list read with `mapIndex`, which
  gives `""` for an absent key exactly as indexing a Go map does.
* A Go `error` is the text of its message.  Calls to the `logger` package only
  write log lines and are left out.
-/

deriving instance DecidableEq for Except

namespace Platform

/-! ## Library functions used by the package -/

/-- Characters that `fmt` accepts as flags right after a `%`. -/
def isFlag (c : Char) : Bool :=
  c = '#' || c = '0' || c = '+' || c = '-' || c = ' '

/-- Go `fmt.parsenum`: reads decimal digits from the front of the text.  Returns
whether a number was read and the text after it; once the number read so far
exceeds 1e6 the scan gives up and jumps to the end of the text. -/
def parsenum : List Char → Nat → Bool → Bool × List Char
  | [], _, isnum => (isnum, [])
  | c :: cs, num, isnum =>
    if '0' ≤ c ∧ c ≤ '9' then
      if 1000000 < num then (false, [])
      else parsenum cs (num * 10 + (c.toNat - 48)) true
    else (isnum, c :: cs)

/-- Go `fmt.parseArgNumber` for a text starting with `[`: how many characters
the index takes and whether it is a well-formed `[n]`. -/
def parseArgNumber (format : List Char) : Nat × Bool :=
  if format.length < 3 then (1, false)
  else
    let inner := (format.drop 1).takeWhile (fun c => c ≠ ']')
    if inner.length + 1 < format.length then
      -- a closing bracket stands at position `inner.length + 1`
      let r := parsenum inner 0 false
      if r.1 = true ∧ r.2 = [] then (inner.length + 2, true) else (inner.length + 2, false)
    else (1, false)

/-- Go `(*pp).argNumber` when the call has no operand: the text after an
optional `[n]`, whether an index was found, and whether the directive is still
good (an index can never be in range without operands). -/
def argNumber (format : List Char) (good : Bool) : List Char × Bool × Bool :=
  match format with
  | '[' :: _ =>
    let r := parseArgNumber format
    (format.drop r.1, r.2, false)
  | _ => (format, false, good)

/-- Width of a directive of `fmt.doPrintf` when the call has no operand.  Gets
the text at the width, whether an index came just before, and whether the
directive is still good; gives what is written, then the same three. -/
def directiveWidth (s : List Char) (afterIndex good : Bool) :
    List Char × (List Char × Bool × Bool) :=
  match s with
  | '*' :: t => ("%!(BADWIDTH)".data, (t, false, good))
  | _ =>
    let n := parsenum s 0 false
    ([], (n.2, afterIndex, if afterIndex && n.1 then false else good))

/-- Precision of a directive of `fmt.doPrintf` when the call has no operand,
with the same arguments and results as `directiveWidth`.  A `.` starts a
precision only if a character follows it (`i+1 < end` in the Go code); a `.`
that ends the format is left to be read as the verb. -/
def directivePrecision (s : List Char) (afterIndex good : Bool) :
    List Char × (List Char × Bool × Bool) :=
  match s with
  | '.' :: c :: rest =>
    let a := argNumber (c :: rest) (if afterIndex then false else good)
    match a.1 with
    | '*' :: t2 => ("%!(BADPREC)".data, (t2, false, a.2.2))
    | _ => ([], ((parsenum a.1 0 false).2, a.2.1, a.2.2))
  | _ => ([], (s, afterIndex, good))

/-- The verb that ends a directive of `fmt.doPrintf` when the call has no
operand: what is written for it and the text left. -/
def directiveVerb (s : List Char) (good : Bool) : List Char × List Char :=
  match s with
  | [] => ("%!(NOVERB)".data, [])
  | verb :: rest =>
    if verb = '%' then (['%'], rest)
    else if good = false then ("%!".data ++ [verb] ++ "(BADINDEX)".data, rest)
    else ("%!".data ++ [verb] ++ "(MISSING)".data, rest)

/-- One directive of `fmt.doPrintf` when the call has no operand.  The argument
is the text after the `%`; the result is what is written and the text left. -/
def directive (format : List Char) : List Char × List Char :=
  -- flags, then an explicit argument index
  let a1 := argNumber (format.dropWhile isFlag) true
  let w := directiveWidth a1.1 a1.2.1 a1.2.2
  let p := directivePrecision w.2.1 w.2.2.1 w.2.2.2
  let a3 := if p.2.2.1 then p.2 else argNumber p.2.1 p.2.2.2
  let v := directiveVerb a3.1 a3.2.2
  (w.1 ++ p.1 ++ v.1, v.2)

/-- Go `fmt.doPrintf` when the call has no operand: plain text is copied, every
`%` starts a directive.  The fuel bounds the number of steps; the length of the
format is enough, since every step consumes at least one character
(`doPrintf_fuel`). -/
def doPrintf : Nat → List Char → List Char
  | 0, _ => []
  | _ + 1, [] => []
  | fuel + 1, c :: cs =>
    if c = '%' then
      let d := directive cs
      d.1 ++ doPrintf fuel d.2
    else c :: doPrintf fuel cs

/-- Go `fmt.Sprintf(format)` called with a format and no operand. -/
def Sprintf (format : String) : String :=
  String.mk (doPrintf format.length format.data)

/-- Go `fmt.Errorf(format)` called with a format and no operand, as the package
does with messages it has already built: the message of the error returned. -/
def Errorf (format : String) : String :=
  Sprintf format

/-- Go `strings.TrimSuffix`. -/
def TrimSuffix (s suffix : String) : String :=
  if suffix.data.isSuffixOf s.data then
    String.mk (s.data.take (s.data.length - suffix.data.length))
  else s

/-- Go `unicode.ToLower` as far as ASCII is concerned: the letters `A`-`Z`, and the
two other runes whose lower case is an ASCII letter (U+0130 and the Kelvin sign
U+212A). Other runes outside ASCII are kept; Go maps them to runes outside ASCII
as well, so comparing the result with an ASCII word is not affected. -/
def toLowerRune (c : Char) : Char :=
  if c = Char.ofNat 0x130 then 'i'
  else if c = Char.ofNat 0x212A then 'k'
  else c.toLower

/-- Go `strings.ToLower`. -/
def ToLower (s : String) : String :=
  String.mk (s.data.map toLowerRune)

/-- Loop of `strings.Split` for a one-character separator: `cur` is the piece
being read. -/
def splitAux (sep : Char) : List Char → List Char → List String
  | [], cur => [String.mk cur]
  | c :: cs, cur =>
    if c = sep then String.mk cur :: splitAux sep cs []
    else splitAux sep cs (cur ++ [c])

/-- Go `strings.Split(s, sep)` for a separator of one ASCII character: the pieces
between the separators, so `Split "" ','` is `[""]`. -/
def Split (s : String) (sep : Char) : List String :=
  splitAux sep s.data []

/-- Indexing of a Go `map[string]string`: the value of the key, `""` when the key
is absent. -/
def mapIndex (m : List (String × String)) (k : String) : String :=
  (m.lookup k).getD ""

/-! ## `helper.go` -/

/-- Loop of `FlattenSliceToString`: `i` is the index of the next element, `n` the
length of the whole input, `str` the text built so far. -/
def FlattenSliceToString.loop (n : Nat) : Nat → List String → String → String
  | _, [], str => str
  | i, v :: rest, str =>
    let str := str ++ v
    -- Append "," if it is not the last element
    FlattenSliceToString.loop n (i + 1) rest (if i < n - 1 then str ++ "," else str)

/-- Function `FlattenSliceToString` converts ["value1", "value2"] to "value1,value2". -/
def FlattenSliceToString (input : List String) : String :=
  FlattenSliceToString.loop input.length 0 input ""

/-- Loop of `ConvertToValidList`: `converted` is the slice built so far. -/
def ConvertToValidList.loop (validMap : List (String × String)) :
    List String → List String → Except String (List String)
  | [], converted => .ok converted
  | k :: rest, converted =>
    let v := mapIndex validMap k
    if v ≠ "" then ConvertToValidList.loop validMap rest (converted ++ [v])
    else .error (Errorf ("Invalid right " ++ k))

/-- Function `ConvertToValidList` converts the given rights to the values used for the API
call; `.error` carries the message of the error returned with a nil slice. -/
def ConvertToValidList (input : List String) (validMap : List (String × String)) :
    Except String (List String) :=
  ConvertToValidList.loop validMap input []

/-- Modelled from the spec: the declaration of the type `Permission` is missing
from the files at hand.  One access-control entry pending resolution, with the
fields that the specification lists and that `ResolvePermissions` and the
examples use: principal name, principal type, principal ID, and the rights as a
comma-joined string or as a list of names.  A nil `RightList` is the empty list:
`ConvertToValidList` returns a nil slice for both. -/
structure Permission where
  PrincipalName : String
  PrincipalType : String
  PrincipalID : String
  Rights : String
  RightList : List String
deriving DecidableEq, Repr

/-- The name lookups `NewUser(c).GetIDByName()` and `NewRole(c).GetIDByName()`,
whose code is outside the files at hand, taken as parameters.  A lookup gets the
principal name and the state `σ` of everything it can reach through the client;
it gives the `(string, error)` pair of the Go method and the state afterwards. -/
structure PrincipalLookup (σ : Type) where
  userGetIDByName : String → σ → (String × Option String) × σ
  roleGetIDByName : String → σ → (String × Option String) × σ

/-- Second half of the body of the loop of `ResolvePermissions` ("Convert
rights"): `p` is the copy of the entry taken by `range`, `q` is `perms[i]` as it
stands after the principal lookup.  Gives the error returned if any, and
`perms[i]` afterwards. -/
def ResolvePermissions.convert (validPerms : List (String × String)) (p q : Permission) :
    Option String × Permission :=
  let r : Except String (List String) :=
    if p.Rights ≠ "" then ConvertToValidList (Split p.Rights ',') validPerms
    else if p.RightList ≠ [] then ConvertToValidList p.RightList validPerms
    else .ok []
  match r with
  | .error err => (some err, q)
  | .ok rights => (none, { q with Rights := FlattenSliceToString rights })

/-- Body of the loop of `ResolvePermissions` for the entry `p = perms[i]` in the
state `w`: the error with which the function returns from inside the loop, if
any, then `perms[i]` and the state afterwards. -/
def ResolvePermissions.body {σ : Type} (c : PrincipalLookup σ)
    (validPerms : List (String × String)) (p : Permission) (w : σ) :
    Option String × Permission × σ :=
  -- Resolve PrincipalID
  if ToLower p.PrincipalType = "user" then
    let r := c.userGetIDByName p.PrincipalName w
    let q := { p with PrincipalID := r.1.1 }
    match r.1.2 with
    | some err => (some err, q, r.2)
    | none =>
      let cv := ResolvePermissions.convert validPerms p q
      (cv.1, cv.2, r.2)
  else if ToLower p.PrincipalType = "role" then
    let r := c.roleGetIDByName p.PrincipalName w
    let q := { p with PrincipalID := r.1.1 }
    match r.1.2 with
    | some err => (some err, q, r.2)
    | none =>
      let cv := ResolvePermissions.convert validPerms p q
      (cv.1, cv.2, r.2)
  else (some (Errorf ("Invalid PrincipalType " ++ p.PrincipalType)), p, w)

/-- Function `ResolvePermissions`: given a list of permissions, resolve `PrincipalID` and
convert the given rights to actual rights, entry by entry in input order.  The
Go function writes into the caller's slice; the result is the error returned
(`none` for nil), the slice as the caller finds it afterwards, and the state
after the lookups made. -/
def ResolvePermissions {σ : Type} (c : PrincipalLookup σ) (validPerms : List (String × String)) :
    List Permission → σ → Option String × List Permission × σ
  | [], w => (none, [], w)
  | p :: rest, w =>
    match ResolvePermissions.body c validPerms p w with
    | (some err, q, w1) => (some err, q :: rest, w1)
    | (none, q, w1) =>
      let r := ResolvePermissions c validPerms rest w1
      (r.1, q :: r.2.1, r.2.2)

/-! ### `Right` and `ValidPermissionMap` -/

/-- The name `Right.Grant`. -/
def Right.Grant : String := "Grant"

/-- The name `Right.View`. -/
def Right.View : String := "View"

/-- The name `Right.Edit`. -/
def Right.Edit : String := "Edit"

/-- The name `Right.Delete`. -/
def Right.Delete : String := "Delete"

/-- The name `Right.Add`. -/
def Right.Add : String := "Add"

/-- The name `Right.Run`. -/
def Right.Run : String := "Run"

/-- The name `Right.Login`. -/
def Right.Login : String := "Login"

/-- The name `Right.Checkout`. -/
def Right.Checkout : String := "Checkout"

/-- The name `Right.Retrieve`. -/
def Right.Retrieve : String := "Retrieve"

/-- The name `Right.ManageSession`. -/
def Right.ManageSession : String := "ManageSession"

/-- The name `Right.AgentAuth`. -/
def Right.AgentAuth : String := "AgentAuth"

/-- The name `Right.OfflineRescue`. -/
def Right.OfflineRescue : String := "OfflineRescue"

/-- The name `Right.AddAccount`. -/
def Right.AddAccount : String := "AddAccount"

/-- The name `Right.UnlockAccount`. -/
def Right.UnlockAccount : String := "UnlockAccount"

/-- The name `Right.RequestZoneRole`. -/
def Right.RequestZoneRole : String := "RequestZoneRole"

/-- The name `Right.FileTransfer`. -/
def Right.FileTransfer : String := "FileTransfer"

/-- The name `Right.UpdatePassword`. -/
def Right.UpdatePassword : String := "UpdatePassword"

/-- The name `Right.WorkspaceLogin`. -/
def Right.WorkspaceLogin : String := "WorkspaceLogin"

/-- The name `Right.RotatePassword`. -/
def Right.RotatePassword : String := "RotatePassword"

/-- The name `Right.RetrieveSecret`. -/
def Right.RetrieveSecret : String := "RetrieveSecret"

/-- The name `Right.ManagementAssignment`. -/
def Right.ManagementAssignment : String := "ManagementAssignment"

/-- Table `ValidPermissionMap.Generic`: valid permissions for generic resources. -/
def ValidPermissionMap.Generic : List (String × String) :=
  [(Right.Grant, Right.Grant), (Right.View, Right.View), (Right.Edit, Right.Edit),
   (Right.Delete, Right.Delete)]

/-- Table `ValidPermissionMap.Set`: valid permissions for Set. -/
def ValidPermissionMap.Set : List (String × String) :=
  [(Right.Grant, Right.Grant), (Right.View, Right.View), (Right.Edit, Right.Edit),
   (Right.Delete, Right.Delete)]

/-- Table `ValidPermissionMap.WinNix`: valid permissions for Windows and Unix. -/
def ValidPermissionMap.WinNix : List (String × String) :=
  [(Right.Grant, Right.Grant), (Right.View, Right.View),
   (Right.ManageSession, Right.ManageSession), (Right.Edit, Right.Edit),
   (Right.Delete, Right.Delete), (Right.AgentAuth, Right.AgentAuth),
   (Right.OfflineRescue, Right.OfflineRescue), (Right.AddAccount, Right.AddAccount),
   (Right.UnlockAccount, Right.UnlockAccount),
   (Right.ManagementAssignment, "ManagePrivilegeElevationAssignment"),
   (Right.RequestZoneRole, Right.RequestZoneRole)]

/-- Table `ValidPermissionMap.System`: valid permissions for other system types other than
Windows and Unix. -/
def ValidPermissionMap.System : List (String × String) :=
  [(Right.Grant, Right.Grant), (Right.View, Right.View),
   (Right.ManageSession, Right.ManageSession), (Right.Edit, Right.Edit),
   (Right.Delete, Right.Delete), (Right.AgentAuth, Right.AgentAuth),
   (Right.OfflineRescue, Right.OfflineRescue), (Right.AddAccount, Right.AddAccount),
   (Right.UnlockAccount, Right.UnlockAccount)]

/-- Table `ValidPermissionMap.Database`: valid permissions for database. -/
def ValidPermissionMap.Database : List (String × String) :=
  [(Right.Grant, Right.Grant), (Right.View, Right.View), (Right.Edit, Right.Edit),
   (Right.Delete, Right.Delete)]

/-- Table `ValidPermissionMap.Domain`: valid permissions for domain. -/
def ValidPermissionMap.Domain : List (String × String) :=
  [(Right.Grant, Right.Grant), (Right.View, Right.View), (Right.Edit, Right.Edit),
   (Right.Delete, Right.Delete), (Right.UnlockAccount, Right.UnlockAccount),
   (Right.AddAccount, Right.AddAccount)]

/-- Table `ValidPermissionMap.Account`: valid permissions for account in general. -/
def ValidPermissionMap.Account : List (String × String) :=
  [(Right.Grant, "Owner"), (Right.View, Right.View), (Right.Checkout, "Naked"),
   (Right.Login, Right.Login), (Right.FileTransfer, Right.FileTransfer), (Right.Edit, "Manage"),
   (Right.Delete, Right.Delete), (Right.UpdatePassword, Right.UpdatePassword),
   (Right.WorkspaceLogin, "UserPortalLogin"), (Right.RotatePassword, Right.RotatePassword)]

/-- Table `ValidPermissionMap.DBAccount`: valid permissions for database account. -/
def ValidPermissionMap.DBAccount : List (String × String) :=
  [(Right.Grant, "Owner"), (Right.View, Right.View), (Right.Checkout, "Naked"),
   (Right.Edit, "Manage"), (Right.Delete, Right.Delete),
   (Right.UpdatePassword, Right.UpdatePassword), (Right.RotatePassword, Right.RotatePassword)]

/-- Table `ValidPermissionMap.DomainAccount`: valid permissions for domain account. -/
def ValidPermissionMap.DomainAccount : List (String × String) :=
  [(Right.Grant, "Owner"), (Right.View, Right.View), (Right.Checkout, "Naked"),
   (Right.Login, Right.Login), (Right.FileTransfer, Right.FileTransfer), (Right.Edit, "Manage"),
   (Right.Delete, Right.Delete), (Right.UpdatePassword, Right.UpdatePassword),
   (Right.RotatePassword, Right.RotatePassword)]

/-- Table `ValidPermissionMap.CloudAccount`: valid permissions for cloud provider account. -/
def ValidPermissionMap.CloudAccount : List (String × String) :=
  [(Right.Grant, "Owner"), (Right.View, Right.View), (Right.Checkout, "Naked"),
   (Right.Login, Right.Login), (Right.Edit, "Manage"), (Right.Delete, Right.Delete),
   (Right.UpdatePassword, Right.UpdatePassword), (Right.RotatePassword, Right.RotatePassword)]

/-- Table `ValidPermissionMap.MultiplexAccount`: valid permissions for multiplex account. -/
def ValidPermissionMap.MultiplexAccount : List (String × String) :=
  [(Right.Grant, Right.Grant), (Right.Edit, Right.Edit), (Right.Delete, Right.Delete)]

/-- Table `ValidPermissionMap.Secret`: valid permissions for secret. -/
def ValidPermissionMap.Secret : List (String × String) :=
  [(Right.Grant, Right.Grant), (Right.View, Right.View), (Right.Edit, Right.Edit),
   (Right.Delete, Right.Delete), (Right.RetrieveSecret, "Retrieve")]

/-- Table `ValidPermissionMap.SSHKey`: valid permissions for ssh key. -/
def ValidPermissionMap.SSHKey : List (String × String) :=
  [(Right.Grant, "Owner"), (Right.View, Right.View), (Right.Retrieve, "Checkout"),
   (Right.Edit, "Manage"), (Right.Delete, Right.Delete)]

/-- Table `ValidPermissionMap.Service`: valid permissions for service. -/
def ValidPermissionMap.Service : List (String × String) :=
  [(Right.Grant, Right.Grant), (Right.Edit, Right.Edit), (Right.Delete, Right.Delete)]

/-- Table `ValidPermissionMap.Application`: valid permissions for application. -/
def ValidPermissionMap.Application : List (String × String) :=
  [(Right.Grant, Right.Grant), (Right.View, Right.View), (Right.Run, "Execute")]

/-- Table `ValidPermissionMap.Folder`: valid permissions for secret folder. -/
def ValidPermissionMap.Folder : List (String × String) :=
  [(Right.Grant, Right.Grant), (Right.View, Right.View), (Right.Edit, Right.Edit),
   (Right.Delete, Right.Delete), (Right.Add, Right.Add)]

/-- The permissions assigned in `examples/secret/main.go`. -/
def secretExamplePermissions : List Permission :=
  [{ PrincipalName := "System Administrator", PrincipalType := "Role", PrincipalID := "",
     Rights := "",
     RightList := [Right.Grant, Right.View, Right.RetrieveSecret, Right.Edit, Right.Delete] }]

/-- A lookup service for the examples: the state is the list of the lookups made
so far, every user is known as "U-" ++ name and every role as "R-" ++ name. -/
def loggingLookup : PrincipalLookup (List String) where
  userGetIDByName := fun name w => (("U-" ++ name, none), w ++ ["user " ++ name])
  roleGetIDByName := fun name w => (("R-" ++ name, none), w ++ ["role " ++ name])

/-! ## The transport and the query helpers -/

/-- A value decoded by `encoding/json` into an `interface{}`: nil, a bool, a
number (kept as its JSON text), a string, a `[]interface{}` or a
`map[string]interface{}`. -/
inductive Value where
  | null
  | bool (b : Bool)
  | number (text : String)
  | str (s : String)
  | array (items : List Value)
  | object (fields : List (String × Value))

/-- Indexing of a `map[string]interface{}`: nil for an absent key. -/
def Value.index (m : List (String × Value)) (k : String) : Value :=
  (m.lookup k).getD Value.null

/-- How a call ends: it returns with a nil error, it returns an error with the
given message, or a type assertion fails and the program panics. -/
inductive Ret (α : Type) where
  | ok (v : α)
  | error (msg : String)
  | panic

/-- Type `restapi.GenericMapResponse`: the response envelope with a mapping as result. -/
structure GenericMapResponse where
  Success : Bool
  Result : List (String × Value)
  Message : String
  Exception : String

/-- Type `restapi.StringResponse`. -/
structure StringResponse where
  Success : Bool
  Result : String
  Message : String
  Exception : String

/-- Type `restapi.BoolResponse`. -/
structure BoolResponse where
  Success : Bool
  Result : Bool
  Message : String
  Exception : String

/-- One call handed to the transport: the method path and the request body. -/
structure Call where
  method : String
  args : List (String × Value)

/-- Type `restapi.RestClient` as the package sees it: each `Call...API` method gives,
for the calls issued before and the call at hand, the decoded envelope or the
error of the transport.  The HTTP exchange behind it is outside the package. -/
structure RestClient where
  CallGenericMapAPI : List Call → Call → Except String GenericMapResponse
  CallStringAPI : List Call → Call → Except String StringResponse
  CallBoolAPI : List Call → Call → Except String BoolResponse

/-- Variable `subArgs` after `init`: the default query arguments. -/
def subArgs : List (String × Value) := [("Caching", Value.number "-1")]

/-- Function `RedRockQuery` issues a RedRock API query.  `log` holds the calls issued so
far; the result comes with the log afterwards. -/
def RedRockQuery (client : RestClient) (query : String) (args : Option (List (String × Value)))
    (log : List Call) : Ret (List Value) × List Call :=
  let queryArg : List (String × Value) :=
    [("Script", Value.str query),
     ("Args", Value.object (match args with | none => subArgs | some a => a))]
  let call : Call := ⟨"/RedRock/query", queryArg⟩
  match client.CallGenericMapAPI log call with
  | .error err => (.error err, log ++ [call])
  | .ok resp =>
    if !resp.Success then (.error (Errorf resp.Message), log ++ [call])
    else
      match Value.index resp.Result "Results" with
      | .array results => (.ok results, log ++ [call])
      | _ => (.panic, log ++ [call])

/-- The part of `queryVaultObject` after `RedRockQuery` has returned `results`
without error. -/
def queryVaultObject.single (results : List Value) : Ret (List (String × Value)) :=
  if results.length = 0 then
    .error (Errorf "Query returns 0 object")
  else if results.length > 1 then
    .error (Errorf ("Query returns too many objects (found " ++ toString results.length
      ++ ", expected 1)"))
  else
    match results with
    | .object result :: _ =>
      match Value.index result "Row" with
      | .object row => .ok row
      | _ => .panic
    | _ => .panic

/-- Function `queryVaultObject`: runs the query and requires exactly one result. -/
def queryVaultObject (client : RestClient) (query : String) (log : List Call) :
    Ret (List (String × Value)) × List Call :=
  match RedRockQuery client query none log with
  | (.ok results, log1) => (queryVaultObject.single results, log1)
  | (.error err, log1) => (.error err, log1)
  | (.panic, log1) => (.panic, log1)

/-! ## Resources: `centrify_vaultsecret.go`, `centrify_connector.go` -/

/-- Function `GetVarType` returns the name of the type of its argument, here given as
that name; the name goes through `fmt.Sprintf` as a format. -/
def GetVarType (typeName : String) : String :=
  Sprintf typeName

/-- Function `mapToStruct` takes a map and populates the struct accordingly.  The work is
done by `json.Unmarshal` on the JSON text of the map, taken as the parameter
`unmarshal`: it gives the struct afterwards and the decoding error if any. -/
def mapToStruct {α : Type} (unmarshal : α → List (String × Value) → α × Option String)
    (i : α) (m : List (String × Value)) : α × Option String :=
  let r := unmarshal i m
  match r.2 with
  | some err => (r.1, some ("Failed to unmarshal map: " ++ err))
  | none => (r.1, none)

/-- Function `generateRequestMap` takes a struct and converts it to a map: `marshal` is the
mapping that `json.Marshal` followed by `json.Unmarshal` gives for the struct,
which cannot fail for the structs of the package. -/
def generateRequestMap {α : Type} (marshal : α → List (String × Value)) (i : α) :
    Except String (List (String × Value)) :=
  .ok (marshal i)

/-- Modelled from the spec: the declaration of the embedded type `vaultObject` is
missing from the files at hand.  The resource object of the specification, with
the fields that the files at hand read or write: the client it is bound to, the
API paths, `ID`, `Name`, `Description`, the valid-permissions table, the set type
and the permissions. -/
structure vaultObject where
  client : RestClient
  apiRead : String
  apiCreate : String
  apiDelete : String
  apiUpdate : String
  apiPermissions : String
  ID : String
  Name : String
  Description : String
  ValidPermissions : List (String × String)
  SetType : String
  Permissions : List Permission

/-- Modelled from the spec: the declaration of the type `ChallengeRules` is missing
from the files at hand.  The supplementary challenge data of a secret, kept as
the JSON value it is exchanged as. -/
structure ChallengeRules where
  wire : Value

/-- Type `Secret` encapsulates a single generic secret. -/
structure Secret extends vaultObject where
  apiRetrieveSecret : String
  apiMoveSecret : String
  apiGetChallenge : String
  SecretName : String
  SecretText : String
  Type_ : String
  FolderID : String
  ParentPath : String
  DataVaultDefaultProfile : String
  ChallengeRules : Option ChallengeRules
  Sets : List String
  NewParentPath : String

/-- What `Secret` uses of the package and of `encoding/json` beyond the files at
hand, taken as parameters: the decoding of a mapping into a `Secret` and into
a `ChallengeRules`, the value of `&ChallengeRules{}`, the wire fields that the
embedded `vaultObject` adds to a marshalled struct, and `GetIDByName` of the
secret folder with the given `Name` and `ParentPath`. -/
structure SecretEnv where
  unmarshalSecret : Secret → List (String × Value) → Secret × Option String
  unmarshalRules : ChallengeRules → List (String × Value) → ChallengeRules × Option String
  zeroRules : ChallengeRules
  marshalVaultObject : vaultObject → List (String × Value)
  folderGetIDByName : String → String → List Call → (String × Option String) × List Call

/-- A string field tagged `omitempty`. -/
def omitempty (key value : String) : List (String × Value) :=
  if value = "" then [] else [(key, Value.str value)]

/-- The wire mapping of a `Secret` by its `json` tags: `NewParentPath` and the
unexported fields are left out, the fields tagged `omitempty` when empty. -/
def Secret.marshal (env : SecretEnv) (o : Secret) : List (String × Value) :=
  omitempty "SecretName" o.SecretName
  ++ omitempty "SecretText" o.SecretText
  ++ omitempty "Type" o.Type_
  ++ omitempty "FolderId" o.FolderID
  ++ omitempty "ParentPath" o.ParentPath
  ++ [("DataVaultDefaultProfile", Value.str o.DataVaultDefaultProfile)]
  ++ (match o.ChallengeRules with
      | none => []
      | some rules => [("DataVaultRules", rules.wire)])
  ++ (if o.Sets = [] then [] else [("Sets", Value.array (o.Sets.map Value.str))])
  ++ env.marshalVaultObject o.tovaultObject

/-- The end of `Secret.Read`: fills the challenge profile and rules from the
result of the second call.  `none` stands for a failed type assertion. -/
def Secret.fillChallenges (env : SecretEnv) (o : Secret) (result : List (String × Value)) :
    Option Secret := do
  let o1 ← match result.lookup "DataVaultDefaultProfile" with
    | none => some o
    | some (Value.str v) => some { o with DataVaultDefaultProfile := v }
    | some _ => none
  -- Fill challenge rules
  match result.lookup "Challenges" with
  | none => some o1
  | some (Value.object challenges) =>
    let o2 ← match Value.index challenges "DataVaultDefaultProfile" with
      | Value.null => some o1
      | Value.str v => some { o1 with DataVaultDefaultProfile := v }
      | _ => none
    match challenges.lookup "DataVaultRules" with
    | none => some o2
    | some (Value.object r) =>
      some { o2 with ChallengeRules := some (mapToStruct env.unmarshalRules env.zeroRules r).1 }
    | some _ => none
  | some _ => none

/-- Function `Secret.Read` fetches a Secret from source, including attribute values.  The
result is how the call ends, the object afterwards and the log of the calls
issued; after a panic the object is given as it stood before the last step. -/
def Secret.Read (env : SecretEnv) (o : Secret) (log : List Call) :
    Ret Unit × Secret × List Call :=
  if o.ID = "" then
    (.error (Errorf ("Missing ID for " ++ GetVarType "int")), o, log)
  else
    let queryArg : List (String × Value) := [("ID", Value.str o.ID)]
    -- Attempt to read from an upstream API
    let call1 : Call := ⟨o.apiRead, queryArg⟩
    match o.client.CallGenericMapAPI log call1 with
    | .error err => (.error err, o, log ++ [call1])
    | .ok resp =>
      if !resp.Success then
        (.error (Errorf (resp.Message ++ " " ++ resp.Exception)), o, log ++ [call1])
      else
        let o1 := (mapToStruct env.unmarshalSecret o resp.Result).1
        -- Get challenge profile information
        let call2 : Call := ⟨o1.apiGetChallenge, queryArg⟩
        match o1.client.CallGenericMapAPI (log ++ [call1]) call2 with
        | .error err => (.error err, o1, log ++ [call1, call2])
        | .ok resp2 =>
          if !resp2.Success then
            (.error (Errorf (resp2.Message ++ " " ++ resp2.Exception)), o1, log ++ [call1, call2])
          else
            match Secret.fillChallenges env o1 resp2.Result with
            | none => (.panic, o1, log ++ [call1, call2])
            | some o2 => (.ok (), o2, log ++ [call1, call2])

/-- Function `resolveFolderdID` of `Secret`: the error returned if any, the object and the
log afterwards. -/
def Secret.resolveFolderdID (env : SecretEnv) (o : Secret) (log : List Call) :
    Option String × Secret × List Call :=
  -- If NewParentPath is set we want to change folder so need to recaculate FolderID
  let o1 : Secret :=
    if o.NewParentPath ≠ "" then { o with ParentPath := o.NewParentPath, FolderID := "" } else o
  if o1.FolderID = "" ∧ o1.ParentPath ≠ "" then
    let path := Split o1.ParentPath '\\'
    -- folder name is the last in split slice
    let folderName := path.getLast?.getD ""
    let folderParentPath :=
      if path.length > 1 then TrimSuffix o1.ParentPath ("\\" ++ folderName) else ""
    let r := env.folderGetIDByName folderName folderParentPath log
    let o2 : Secret := { o1 with FolderID := r.1.1 }
    match r.1.2 with
    | some err => (some err, o2, r.2)
    | none => (none, o2, r.2)
  else (none, o1, log)

/-- Function `Secret.Update` updates an existing Secret and returns the update result. -/
def Secret.Update (env : SecretEnv) (o : Secret) (log : List Call) :
    Ret GenericMapResponse × Secret × List Call :=
  if o.ID = "" then
    (.error (Errorf ("Missing ID for " ++ GetVarType "int")), o, log)
  else
    -- Resolve FolderID if only ParentPath is provided or NewParentPath is provided
    match Secret.resolveFolderdID env o log with
    | (some err, o1, log1) => (.error err, o1, log1)
    | (none, o1, log1) =>
      match generateRequestMap (Secret.marshal env) o1 with
      | .error err => (.error err, o1, log1)
      | .ok queryArg0 =>
        let queryArg := ("updateChallenges", Value.bool true)
          :: queryArg0.filter (fun e => e.1 ≠ "updateChallenges")
        let call : Call := ⟨o1.apiUpdate, queryArg⟩
        match o1.client.CallGenericMapAPI log1 call with
        | .error err => (.error err, o1, log1 ++ [call])
        | .ok resp =>
          if !resp.Success then
            (.error (Errorf (resp.Message ++ " " ++ resp.Exception)), o1, log1 ++ [call])
          else (.ok resp, o1, log1 ++ [call])

/-- Type `Connector` encapsulates a single Connector. -/
structure Connector extends vaultObject where
  MachineName : String
  SSHService : String
  RDPService : String
  ADProxy : String
  AppGateway : String
  HttpAPIService : String
  LDAPProxy : String
  RadiusService : String
  RadiusExternalService : String
  Online : Bool
  Version : String
  VpcIdentifier : String
  VmIdentifier : String
  Status : String

/-- Function `Connector.Read`: the body is `return nil`. -/
def Connector.Read (o : Connector) (log : List Call) : Ret Unit × Connector × List Call :=
  (.ok (), o, log)

/-- Function `Connector.Update`: the body is `return nil, nil`; `none` is the nil response. -/
def Connector.Update (o : Connector) (log : List Call) :
    Ret (Option GenericMapResponse) × Connector × List Call :=
  (.ok none, o, log)

/-- A `vaultObject` for the examples, bound to the given client, with the API
paths that `NewSecret` sets. -/
def exampleVaultObject (c : RestClient) (id : String) : vaultObject where
  client := c
  apiRead := "/ServerManage/GetSecret"
  apiCreate := "/ServerManage/AddSecret"
  apiDelete := "/ServerManage/DeleteSecret"
  apiUpdate := "/ServerManage/UpdateSecret"
  apiPermissions := "/ServerManage/SetSecretPermissions"
  ID := id
  Name := ""
  Description := ""
  ValidPermissions := ValidPermissionMap.Secret
  SetType := ""
  Permissions := []

/-- The secret of `examples/secret/main.go` before it is created, with the given
`ID`. -/
def exampleSecret (c : RestClient) (id : String) : Secret where
  tovaultObject := exampleVaultObject c id
  apiRetrieveSecret := "/ServerManage/RetrieveSecretContents"
  apiMoveSecret := "/ServerManage/MoveSecret"
  apiGetChallenge := "/ServerManage/GetSecretRightsAndChallenges"
  SecretName := "Test secret"
  SecretText := "kjfljakljklajsdlkfjklasjfdlkj"
  Type_ := "Text"
  FolderID := ""
  ParentPath := "folder1\\folder2"
  DataVaultDefaultProfile := ""
  ChallengeRules := none
  Sets := []
  NewParentPath := ""

/-- A connector for the examples, with the given `ID`. -/
def exampleConnector (c : RestClient) (id : String) : Connector where
  tovaultObject := { exampleVaultObject c id with Name := "connector1" }
  MachineName := ""
  SSHService := ""
  RDPService := ""
  ADProxy := ""
  AppGateway := ""
  HttpAPIService := ""
  LDAPProxy := ""
  RadiusService := ""
  RadiusExternalService := ""
  Online := false
  Version := ""
  VpcIdentifier := ""
  VmIdentifier := ""
  Status := ""

/-- An environment for the examples: decoding leaves the struct as it is, the
embedded object adds its `ID`, every folder is known as "F-" ++ name. -/
def exampleEnv : SecretEnv where
  unmarshalSecret := fun o _ => (o, none)
  unmarshalRules := fun r _ => (r, none)
  zeroRules := ⟨Value.object []⟩
  marshalVaultObject := fun v => omitempty "ID" v.ID
  folderGetIDByName := fun name parent log =>
    (("F-" ++ name, none), log ++ [⟨"folder", [("Name", Value.str name),
      ("ParentPath", Value.str parent)]⟩])

/-- A transport for the examples: every query succeeds with the given list under
"Results"; the other kinds of call fail. -/
def resultsClient (results : List Value) : RestClient where
  CallGenericMapAPI := fun _ _ =>
    .ok { Success := true, Result := [("Results", Value.array results)], Message := "",
          Exception := "" }
  CallStringAPI := fun _ _ => .error "no such method"
  CallBoolAPI := fun _ _ => .error "no such method"

/-! ### Queries -/

/-- The query text that `Connector.Query` builds. -/
def Connector.queryString (o : Connector) : String :=
  let query := "SELECT * FROM Proxy WHERE 1=1"
  let query := if o.Name ≠ "" then query ++ (" AND Name='" ++ o.Name ++ "'") else query
  let query :=
    if o.Status ≠ "" then
      if o.Status = "Active" then query ++ " AND Online=true" else query ++ " AND Online=false"
    else query
  let query := if o.Version ≠ "" then query ++ (" AND Version='" ++ o.Version ++ "'") else query
  let query :=
    if o.VpcIdentifier ≠ "" then query ++ (" AND VpcIdentifier='" ++ o.VpcIdentifier ++ "'")
    else query
  let query :=
    if o.VpcIdentifier ≠ "" then query ++ (" AND VmIdentifier='" ++ o.VmIdentifier ++ "'")
    else query
  query

/-- Function `Connector.Query` returns a single Connector object in map format. -/
def Connector.Query (o : Connector) (log : List Call) :
    Ret (List (String × Value)) × List Call :=
  queryVaultObject o.client (Connector.queryString o) log

/-- The query text that `Secret.Query` builds. -/
def Secret.queryString (o : Secret) : String :=
  let query := "SELECT * FROM DataVault WHERE 1=1"
  let query :=
    if o.SecretName ≠ "" then query ++ (" AND SecretName='" ++ o.SecretName ++ "'") else query
  -- ParentPath should always be added
  query ++ (" AND ParentPath='" ++ o.ParentPath ++ "'")

/-- Function `Secret.Query` returns a single Secret object in map format. -/
def Secret.Query (o : Secret) (log : List Call) : Ret (List (String × Value)) × List Call :=
  queryVaultObject o.client (Secret.queryString o) log

/-! ### `Secret.Create`, `Secret.MoveSecret` -/

/-- Assignment `m[key] = value` on a `map[string]interface{}`. -/
def Value.assign (m : List (String × Value)) (key : String) (value : Value) :
    List (String × Value) :=
  (key, value) :: m.filter (fun e => e.1 ≠ key)

/-- Function `Secret.Create` creates a new Secret and returns the creation result. -/
def Secret.Create (env : SecretEnv) (o : Secret) (log : List Call) :
    Ret StringResponse × Secret × List Call :=
  -- Resolve FolderID if only ParentPath is provided
  match Secret.resolveFolderdID env o log with
  | (some err, o1, log1) => (.error err, o1, log1)
  | (none, o1, log1) =>
    match generateRequestMap (Secret.marshal env) o1 with
    | .error err => (.error err, o1, log1)
    | .ok queryArg0 =>
      let queryArg := Value.assign queryArg0 "updateChallenges" (Value.bool false)
      let call : Call := ⟨o1.apiCreate, queryArg⟩
      match o1.client.CallStringAPI log1 call with
      | .error err => (.error err, o1, log1 ++ [call])
      | .ok resp =>
        if !resp.Success then
          (.error (Errorf (resp.Message ++ " " ++ resp.Exception)), o1, log1 ++ [call])
        else
          -- Assign ID after successful creation
          (.ok resp, { o1 with ID := resp.Result }, log1 ++ [call])

/-- Function `Secret.MoveSecret` moves an existing Secret to another folder. -/
def Secret.MoveSecret (o : Secret) (log : List Call) : Ret BoolResponse × Secret × List Call :=
  if o.ID = "" then
    (.error (Errorf ("Missing ID for " ++ GetVarType "int")), o, log)
  else
    let queryArg : List (String × Value) :=
      [("ID", Value.str o.ID), ("targetFolderId", Value.str o.FolderID)]
    let call : Call := ⟨o.apiMoveSecret, queryArg⟩
    match o.client.CallBoolAPI log call with
    | .error err => (.error err, o, log ++ [call])
    | .ok resp =>
      if !resp.Success then
        (.error (Errorf (resp.Message ++ " " ++ resp.Exception)), o, log ++ [call])
      else (.ok resp, o, log ++ [call])

/-- A transport for the examples: every call is answered by a success envelope;
a call of the string kind returns the given identifier. -/
def successClient (id : String) : RestClient where
  CallGenericMapAPI := fun _ _ => .ok { Success := true, Result := [], Message := "",
                                        Exception := "" }
  CallStringAPI := fun _ _ => .ok { Success := true, Result := id, Message := "",
                                    Exception := "" }
  CallBoolAPI := fun _ _ => .ok { Success := true, Result := true, Message := "",
                                  Exception := "" }

/-- A transport for the examples: every call is answered by an envelope that
reports failure with the given message and exception texts. -/
def failureClient (message exception : String) : RestClient where
  CallGenericMapAPI := fun _ _ => .ok { Success := false, Result := [], Message := message,
                                        Exception := exception }
  CallStringAPI := fun _ _ => .ok { Success := false, Result := "", Message := message,
                                    Exception := exception }
  CallBoolAPI := fun _ _ => .ok { Success := false, Result := false, Message := message,
                                  Exception := exception }

/-! ## `encoding/json` and `jsoniter` on the structs of the package

`json.Marshal`, `json.Unmarshal` and the `jsoniter` configuration of
`GenerateSchemaMap` work from the list of the fields of a struct type, each with
its `json` tag and its `schema` tag.  The list is written out below for
`Connector` and `Secret` from their declarations; the fields of the embedded
`vaultObject`, whose declaration is outside the files at hand, are a parameter.

A string is a text of Unicode characters here, which `json.Marshal` writes and
`json.Unmarshal` reads back as it is; a Go string with bytes that are not valid
UTF-8, which `json.Marshal` would replace by U+FFFD, is not represented. -/

/-- The kind of a JSON value as `encoding/json` names it in a type error. -/
def Value.kind : Value → String
  | .null => "null"
  | .bool _ => "bool"
  | .number _ => "number"
  | .str _ => "string"
  | .array _ => "array"
  | .object _ => "object"

/-- Text of the `UnmarshalTypeError` of `encoding/json` for a value that does
not fit the field. -/
def typeError (v : Value) (field goType : String) : String :=
  "json: cannot unmarshal " ++ v.kind ++ " into Go struct field " ++ field ++ " of type "
    ++ goType

/-- One field of a struct type as the two libraries see it: the key of its `json`
tag (`none` for the tag "-"), the key of its `schema` tag (`none` without such a
tag), the value written under each key (`none` when the field is left out, being
empty and tagged `omitempty`), and `json.Unmarshal` of a value into the field,
which gives the struct afterwards and the type error if the value does not fit. -/
structure Field (α : Type) where
  json : Option String
  schema : Option String
  encodeJSON : α → Option Value
  encodeSchema : α → Option Value
  decode : α → Value → α × Option String

/-- A tag `key` or `key,omitempty`, as the key and whether `omitempty` is set. -/
abbrev Tag := Option (String × Bool)

/-- A field of type `string`. -/
def stringField {α : Type} (structName : String) (json schema : Tag)
    (get : α → String) (set : α → String → α) : Field α where
  json := json.map Prod.fst
  schema := schema.map Prod.fst
  encodeJSON := fun a =>
    match json with
    | none => none
    | some t => if t.2 = true ∧ get a = "" then none else some (Value.str (get a))
  encodeSchema := fun a =>
    match schema with
    | none => none
    | some t => if t.2 = true ∧ get a = "" then none else some (Value.str (get a))
  decode := fun a v =>
    match v with
    | Value.str s => (set a s, none)
    | Value.null => (a, none)
    | _ => (a, some (typeError v (structName ++ "." ++ (json.map Prod.fst).getD "") "string"))

/-- A field of type `bool`. -/
def boolField {α : Type} (structName : String) (json schema : Tag)
    (get : α → Bool) (set : α → Bool → α) : Field α where
  json := json.map Prod.fst
  schema := schema.map Prod.fst
  encodeJSON := fun a =>
    match json with
    | none => none
    | some t => if t.2 = true ∧ get a = false then none else some (Value.bool (get a))
  encodeSchema := fun a =>
    match schema with
    | none => none
    | some t => if t.2 = true ∧ get a = false then none else some (Value.bool (get a))
  decode := fun a v =>
    match v with
    | Value.bool b => (set a b, none)
    | Value.null => (a, none)
    | _ => (a, some (typeError v (structName ++ "." ++ (json.map Prod.fst).getD "") "bool"))

/-- Decoding of a JSON array into a `[]string` that holds `old`: element by
element into the slice at hand.  A string is stored; a null or a value of
another type leaves the element as it stood, which is the old element where the
slice had one and the empty string beyond its length. -/
def decodeStrings : List Value → List String → List String
  | [], _ => []
  | i :: rest, old =>
    (match i with
      | Value.str s => s
      | _ => old.head?.getD "") :: decodeStrings rest old.tail

/-- A field of type `[]string`: an array is decoded element by element into the
slice that the field holds, the length of the array becoming its length; an
element that is neither string nor null is reported. -/
def stringsField {α : Type} (structName : String) (json schema : Tag)
    (get : α → List String) (set : α → List String → α) : Field α where
  json := json.map Prod.fst
  schema := schema.map Prod.fst
  encodeJSON := fun a =>
    match json with
    | none => none
    | some t =>
      if t.2 = true ∧ get a = [] then none else some (Value.array ((get a).map Value.str))
  encodeSchema := fun a =>
    match schema with
    | none => none
    | some t =>
      if t.2 = true ∧ get a = [] then none else some (Value.array ((get a).map Value.str))
  decode := fun a v =>
    match v with
    | Value.array items =>
      (set a (decodeStrings items (get a)),
       (items.findSome? (fun i => match i with
          | Value.str _ => none
          | Value.null => none
          | other =>
            some (typeError other (structName ++ "." ++ (json.map Prod.fst).getD "") "string"))))
    | Value.null => (set a [], none)
    | _ => (a, some (typeError v (structName ++ "." ++ (json.map Prod.fst).getD "") "[]string"))

/-- A field of an embedded struct as a field of the struct that embeds it.  A
key that a field of the outer struct carries hides the one of the embedded
struct. -/
def Field.promote {α β : Type} (get : α → β) (set : α → β → α) (ownJSON ownSchema : List String)
    (f : Field β) : Field α where
  json :=
    match f.json with
    | none => none
    | some k => if k ∈ ownJSON then none else some k
  schema :=
    match f.schema with
    | none => none
    | some k => if k ∈ ownSchema then none else some k
  encodeJSON := fun a => f.encodeJSON (get a)
  encodeSchema := fun a => f.encodeSchema (get a)
  decode := fun a v => ((set a (f.decode (get a) v).1), (f.decode (get a) v).2)

/-- The mapping that `json.Marshal` followed by `json.Unmarshal` into a map gives
for a struct: one entry for every field with a `json` key that is not left out. -/
def jsonMarshal {α : Type} (fields : List (Field α)) (a : α) : List (String × Value) :=
  fields.filterMap (fun f =>
    match f.json, f.encodeJSON a with
    | some k, some v => some (k, v)
    | _, _ => none)

/-- The mapping that the `jsoniter` configuration with `TagKey: "schema"` and
`OnlyTaggedField: true` gives for a struct: one entry for every field with a
`schema` key that is not left out. -/
def schemaMarshal {α : Type} (fields : List (Field α)) (a : α) : List (String × Value) :=
  fields.filterMap (fun f =>
    match f.schema, f.encodeSchema a with
    | some k, some v => some (k, v)
    | _, _ => none)

/-- Simple case folding of a rune as far as ASCII is concerned: the letters, the
Kelvin sign (U+212A, folded with `k`) and the long s (U+017F, folded with `s`).
Other runes are kept, so two names are compared exactly as `encoding/json`
does whenever the name of the field is ASCII, as every name at hand is. -/
def foldRune (c : Char) : Char :=
  if c = Char.ofNat 0x212A then 'k'
  else if c = Char.ofNat 0x17F then 's'
  else c.toLower

/-- Case-insensitive match of a key with the name of a field. -/
def equalFold (name key : String) : Bool :=
  name.data.map foldRune == key.data.map foldRune

/-- The field that `json.Unmarshal` fills from the value under `key`: the field
with exactly that `json` key if there is one, the first one whose key matches
without regard to case otherwise. -/
def findField {α : Type} (fields : List (Field α)) (key : String) : Option (Field α) :=
  match fields.find? (fun f => f.json == some key) with
  | some f => some f
  | none =>
    fields.find? (fun f =>
      match f.json with
      | some name => equalFold name key
      | none => false)

/-- One step of `json.Unmarshal` into a struct: the value under one key.  A key
that matches no field is skipped; a type error is kept if it is the first. -/
def jsonUnmarshal.step {α : Type} (fields : List (Field α)) (acc : α × Option String)
    (e : String × Value) : α × Option String :=
  match findField fields e.1 with
  | none => acc
  | some f =>
    ((f.decode acc.1 e.2).1,
     match acc.2 with
     | some err => some err
     | none => (f.decode acc.1 e.2).2)

/-- Go `json.Unmarshal` of the JSON text of a mapping into a struct: the struct
afterwards and the first type error.  The entries are decoded in the order of
the list; the JSON text of a Go map lists them by sorted key. -/
def jsonUnmarshal {α : Type} (fields : List (Field α)) (a : α) (m : List (String × Value)) :
    α × Option String :=
  m.foldl (jsonUnmarshal.step fields) (a, none)

/-- Function `GenerateSchemaMap` converts an object into a map according to its
`schema` tags; `fields` is the list of the fields of its type. -/
def GenerateSchemaMap {α : Type} (fields : List (Field α)) (i : α) :
    Except String (List (String × Value)) :=
  .ok (schemaMarshal fields i)

/-! ### The fields of `Connector` -/

/-- The fields that the declaration of `Connector` lists, with their tags;
`Status` is tagged `json:"-"` and has no `schema` tag. -/
def Connector.ownFields : List (Field Connector) :=
  [stringField "Connector" (some ("MachineName", true)) (some ("machine_name", true))
     (fun c => c.MachineName) (fun c v => { c with MachineName := v }),
   stringField "Connector" (some ("SSHService", true)) (some ("ssh_service", true))
     (fun c => c.SSHService) (fun c v => { c with SSHService := v }),
   stringField "Connector" (some ("RDPService", true)) (some ("rdp_service", true))
     (fun c => c.RDPService) (fun c v => { c with RDPService := v }),
   stringField "Connector" (some ("ADProxy", true)) (some ("ad_proxy", true))
     (fun c => c.ADProxy) (fun c v => { c with ADProxy := v }),
   stringField "Connector" (some ("AppGateway", true)) (some ("app_gateway", true))
     (fun c => c.AppGateway) (fun c v => { c with AppGateway := v }),
   stringField "Connector" (some ("HttpAPIService", true)) (some ("http_api_service", true))
     (fun c => c.HttpAPIService) (fun c v => { c with HttpAPIService := v }),
   stringField "Connector" (some ("LDAPProxy", true)) (some ("ldap_proxy", true))
     (fun c => c.LDAPProxy) (fun c v => { c with LDAPProxy := v }),
   stringField "Connector" (some ("RadiusService", true)) (some ("radius_service", true))
     (fun c => c.RadiusService) (fun c v => { c with RadiusService := v }),
   stringField "Connector" (some ("RadiusExternalService", true)) (some ("radius_external_service", true))
     (fun c => c.RadiusExternalService) (fun c v => { c with RadiusExternalService := v }),
   boolField "Connector" (some ("Online", true)) (some ("online", true))
     (fun c => c.Online) (fun c v => { c with Online := v }),
   stringField "Connector" (some ("Version", true)) (some ("version", true))
     (fun c => c.Version) (fun c v => { c with Version := v }),
   stringField "Connector" (some ("VpcIdentifier", true)) (some ("vpc_identifier", true))
     (fun c => c.VpcIdentifier) (fun c v => { c with VpcIdentifier := v }),
   stringField "Connector" (some ("VmIdentifier", true)) (some ("vm_identifier", true))
     (fun c => c.VmIdentifier) (fun c v => { c with VmIdentifier := v }),
   stringField "Connector" none none (fun c => c.Status) (fun c v => { c with Status := v })]

/-- The `json` keys of the fields that `Connector` declares. -/
def Connector.ownJSON : List String :=
  ["MachineName", "SSHService", "RDPService", "ADProxy", "AppGateway", "HttpAPIService",
   "LDAPProxy", "RadiusService", "RadiusExternalService", "Online", "Version", "VpcIdentifier",
   "VmIdentifier"]

/-- The `schema` keys of the fields that `Connector` declares. -/
def Connector.ownSchema : List String :=
  ["machine_name", "ssh_service", "rdp_service", "ad_proxy", "app_gateway", "http_api_service",
   "ldap_proxy", "radius_service", "radius_external_service", "online", "version",
   "vpc_identifier", "vm_identifier"]

/-- The list of the fields of `Connector`: those of the embedded `vaultObject`,
given by `embedded`, then its own. -/
def Connector.fields (embedded : List (Field vaultObject)) : List (Field Connector) :=
  embedded.map (Field.promote (fun c => c.tovaultObject)
    (fun c v => { c with tovaultObject := v }) Connector.ownJSON Connector.ownSchema)
  ++ Connector.ownFields

/-- The value of the field of a Connector that carries the given `json` key, as
it stands in JSON; `none` when `Connector` declares no field with that key. -/
def Connector.getJSON (c : Connector) (key : String) : Option Value :=
  if key = "MachineName" then some (Value.str c.MachineName)
  else if key = "SSHService" then some (Value.str c.SSHService)
  else if key = "RDPService" then some (Value.str c.RDPService)
  else if key = "ADProxy" then some (Value.str c.ADProxy)
  else if key = "AppGateway" then some (Value.str c.AppGateway)
  else if key = "HttpAPIService" then some (Value.str c.HttpAPIService)
  else if key = "LDAPProxy" then some (Value.str c.LDAPProxy)
  else if key = "RadiusService" then some (Value.str c.RadiusService)
  else if key = "RadiusExternalService" then some (Value.str c.RadiusExternalService)
  else if key = "Online" then some (Value.bool c.Online)
  else if key = "Version" then some (Value.str c.Version)
  else if key = "VpcIdentifier" then some (Value.str c.VpcIdentifier)
  else if key = "VmIdentifier" then some (Value.str c.VmIdentifier)
  else none

/-- The zero value of `vaultObject` bound to a client. -/
def vaultObject.zero (c : RestClient) : vaultObject where
  client := c
  apiRead := ""
  apiCreate := ""
  apiDelete := ""
  apiUpdate := ""
  apiPermissions := ""
  ID := ""
  Name := ""
  Description := ""
  ValidPermissions := []
  SetType := ""
  Permissions := []

/-- Function `NewConnector` is a Connector constructor. -/
def NewConnector (c : RestClient) : Connector where
  tovaultObject := vaultObject.zero c
  MachineName := ""
  SSHService := ""
  RDPService := ""
  ADProxy := ""
  AppGateway := ""
  HttpAPIService := ""
  LDAPProxy := ""
  RadiusService := ""
  RadiusExternalService := ""
  Online := false
  Version := ""
  VpcIdentifier := ""
  VmIdentifier := ""
  Status := ""

/-! ### The fields of `Secret` -/

/-- What the declarations outside the files at hand fix about the marshalling of
the structs, taken as parameters: the fields of the embedded `vaultObject`
with their tags, and for the type `ChallengeRules` its form under the `schema`
tags, its decoding from a mapping, and its zero value. -/
structure Declarations where
  vaultObject : List (Field vaultObject)
  rulesSchema : ChallengeRules → Value
  unmarshalRules : ChallengeRules → List (String × Value) → ChallengeRules × Option String
  zeroRules : ChallengeRules

/-- The field `ChallengeRules` of `Secret`, a pointer to a struct: a nil pointer is
left out, null sets the pointer to nil, an object is decoded into the struct
pointed to, a fresh one if the pointer was nil.  A value of another type is
reported after the pointer has been allocated, so that a nil pointer points to a
fresh struct afterwards. -/
def Secret.rulesField (d : Declarations) : Field Secret where
  json := some "DataVaultRules"
  schema := some "challenge_rule"
  encodeJSON := fun o => o.ChallengeRules.map (fun r => r.wire)
  encodeSchema := fun o => o.ChallengeRules.map d.rulesSchema
  decode := fun o v =>
    match v with
    | Value.null => ({ o with ChallengeRules := none }, none)
    | Value.object m =>
      let r := d.unmarshalRules (o.ChallengeRules.getD d.zeroRules) m
      ({ o with ChallengeRules := some r.1 }, r.2)
    | _ =>
      ({ o with ChallengeRules := some (o.ChallengeRules.getD d.zeroRules) },
       some (typeError v "Secret.DataVaultRules" "platform.ChallengeRules"))

/-- The fields that the declaration of `Secret` lists, with their tags;
`NewParentPath` is tagged `json:"-"` and has no `schema` tag, the unexported
fields take no part. -/
def Secret.ownFields (d : Declarations) : List (Field Secret) :=
  [stringField "Secret" (some ("SecretName", true)) (some ("secret_name", true))
     (fun o => o.SecretName) (fun o v => { o with SecretName := v }),
   stringField "Secret" (some ("SecretText", true)) (some ("secret_text", true))
     (fun o => o.SecretText) (fun o v => { o with SecretText := v }),
   stringField "Secret" (some ("Type", true)) (some ("type", true))
     (fun o => o.Type_) (fun o v => { o with Type_ := v }),
   stringField "Secret" (some ("FolderId", true)) (some ("folder_id", true))
     (fun o => o.FolderID) (fun o v => { o with FolderID := v }),
   stringField "Secret" (some ("ParentPath", true)) (some ("parent_path", true))
     (fun o => o.ParentPath) (fun o v => { o with ParentPath := v }),
   stringField "Secret" (some ("DataVaultDefaultProfile", false))
     (some ("default_profile_id", false))
     (fun o => o.DataVaultDefaultProfile) (fun o v => { o with DataVaultDefaultProfile := v }),
   Secret.rulesField d,
   stringsField "Secret" (some ("Sets", true)) (some ("sets", true))
     (fun o => o.Sets) (fun o v => { o with Sets := v }),
   stringField "Secret" none none
     (fun o => o.NewParentPath) (fun o v => { o with NewParentPath := v })]

/-- The `json` keys of the fields that `Secret` declares. -/
def Secret.ownJSON : List String :=
  ["SecretName", "SecretText", "Type", "FolderId", "ParentPath", "DataVaultDefaultProfile",
   "DataVaultRules", "Sets"]

/-- The `schema` keys of the fields that `Secret` declares. -/
def Secret.ownSchema : List String :=
  ["secret_name", "secret_text", "type", "folder_id", "parent_path", "default_profile_id",
   "challenge_rule", "sets"]

/-- The list of the fields of `Secret`: those of the embedded `vaultObject`, then
its own. -/
def Secret.fields (d : Declarations) : List (Field Secret) :=
  d.vaultObject.map (Field.promote (fun o => o.tovaultObject)
    (fun o v => { o with tovaultObject := v }) Secret.ownJSON Secret.ownSchema)
  ++ Secret.ownFields d

/-- The environment of a Secret that the declarations give: `json.Unmarshal`
into a Secret goes by the list of its fields, and the embedded `vaultObject`
adds to the wire map those of its fields that the Secret does not hide. -/
def Declarations.env (d : Declarations)
    (folderGetIDByName : String → String → List Call → (String × Option String) × List Call) :
    SecretEnv where
  unmarshalSecret := jsonUnmarshal (Secret.fields d)
  unmarshalRules := d.unmarshalRules
  zeroRules := d.zeroRules
  marshalVaultObject := jsonMarshal
    (d.vaultObject.map (Field.promote (fun v => v) (fun _ v => v) Secret.ownJSON Secret.ownSchema))
  folderGetIDByName := folderGetIDByName

/-- Declarations for the examples: the embedded `vaultObject` has the string
fields `ID`, `Name` and `Description` under the keys of the same names, and
challenge rules are exchanged as they are.  `structName` is the name of the
struct that embeds the `vaultObject` ("Secret", "Connector"): a type error of
`encoding/json` names the struct that is decoded, not the embedded one. -/
def exampleDeclarations (structName : String) : Declarations where
  vaultObject :=
    [stringField structName (some ("ID", true)) (some ("id", true))
       (fun v => v.ID) (fun v s => { v with ID := s }),
     stringField structName (some ("Name", true)) (some ("name", true))
       (fun v => v.Name) (fun v s => { v with Name := s }),
     stringField structName (some ("Description", true)) (some ("description", true))
       (fun v => v.Description) (fun v s => { v with Description := s })]
  rulesSchema := fun r => r.wire
  unmarshalRules := fun _ m => (⟨Value.object m⟩, none)
  zeroRules := ⟨Value.object []⟩

/-- A transport for the examples: a call of "/ServerManage/GetSecret" is answered
by a success envelope with the given result, every other call of the map kind by
a success envelope with an empty result. -/
def readClient (result : List (String × Value)) : RestClient where
  CallGenericMapAPI := fun _ call =>
    .ok { Success := true,
          Result := if call.method = "/ServerManage/GetSecret" then result else [],
          Message := "", Exception := "" }
  CallStringAPI := fun _ _ => .error "no such method"
  CallBoolAPI := fun _ _ => .error "no such method"

/-! ### `queryError` -/

/-- Function `noFoundError` gives the message for a query without result. -/
def noFoundError : String :=
  "Query returns 0 object"

/-- Function `foundTooManyError` gives the message for a query with `no` results. -/
def foundTooManyError (no : Int) : String :=
  "Query returns too many objects (found " ++ toString no ++ ", expected 1)"

/-- Function `queryError`: the error for a query that returned `no` results, `none`
for nil. -/
def queryError (no : Int) : Option String :=
  if no = 0 then some (Errorf noFoundError)
  else if no > 1 then some (Errorf (foundTooManyError no))
  else none

/-! ### `flattenNestedMap`, `flattenSettings` -/

mutual
/-- Function `flattenNestedMap` converts nested map to flat map.  The flat map is
written in place by the Go function; here it is given back with the error
returned (`none` for nil). -/
def flattenNestedMap (flatMap : List (String × Value)) (nestedMap : Value) :
    List (String × Value) × Option String :=
  match nestedMap with
  | .object m => (flattenNestedMap.range flatMap m, none)
  | _ => (flatMap, some (Errorf "Not a valid input, must be a map"))
termination_by (sizeOf nestedMap, 1)

/-- The closure `assign` of `flattenNestedMap`: a value that is a mapping is
flattened into the flat map, any other value is stored under `newKey`. -/
def flattenNestedMap.assign (flatMap : List (String × Value)) (newKey : String) (v : Value) :
    List (String × Value) × Option String :=
  match v with
  | .object m =>
    match flattenNestedMap flatMap (.object m) with
    | (flatMap1, some err) => (flatMap1, some err)
    | (flatMap1, none) => (flatMap1, none)
  | _ => (Value.assign flatMap newKey v, none)
termination_by (sizeOf v, 2)

/-- The loop of `flattenNestedMap` over the entries of the mapping, in the order
in which `range` visits them; what `assign` returns is dropped. -/
def flattenNestedMap.range (flatMap : List (String × Value))
    (entries : List (String × Value)) : List (String × Value) :=
  match entries with
  | [] => flatMap
  | (k, v) :: rest => flattenNestedMap.range (flattenNestedMap.assign flatMap k v).1 rest
termination_by (sizeOf entries, 0)
end

/-- The inner loop of `flattenSettings`, over the entries of a second-level
mapping. -/
def flattenSettings.inner (flatten : List (String × Value)) :
    List (String × Value) → List (String × Value)
  | [] => flatten
  | (k2, v2) :: rest => flattenSettings.inner (Value.assign flatten k2 v2) rest

/-- The outer loop of `flattenSettings`, over the entries of the first level. -/
def flattenSettings.outer (flatten : List (String × Value)) :
    List (String × Value) → List (String × Value)
  | [] => flatten
  | (k1, v1) :: rest =>
    match v1 with
    | .object sub => flattenSettings.outer (flattenSettings.inner flatten sub) rest
    | _ => flattenSettings.outer (Value.assign flatten k1 v1) rest

/-- Function `flattenSettings`: the flat map afterwards; the error returned is
always nil, and a value that is neither nil nor a mapping makes the type
assertion panic. -/
def flattenSettings (flatten : List (String × Value)) (nestedMap : Value) :
    Ret (List (String × Value)) :=
  match nestedMap with
  | .null => .ok flatten
  | .object m => .ok (flattenSettings.outer flatten m)
  | _ => .panic

/-- The leaves of a nested mapping, as the claim about `flattenNestedMap` has
them: the pairs of a key and a value that is no mapping, at any depth, in the
order of the entries. -/
def leafPairs (entries : List (String × Value)) : List (String × Value) :=
  match entries with
  | [] => []
  | (_, .object sub) :: rest => leafPairs sub ++ leafPairs rest
  | (k, v) :: rest => (k, v) :: leafPairs rest
termination_by sizeOf entries

/-- Two nested mappings that hold the same entries, listed in different orders
at any depth: the orders in which `range` may visit one mapping. -/
inductive Reordered : List (String × Value) → List (String × Value) → Prop where
  | nil : Reordered [] []
  | cons (e : String × Value) {l1 l2 : List (String × Value)} :
      Reordered l1 l2 → Reordered (e :: l1) (e :: l2)
  | sub (k : String) {s1 s2 l1 l2 : List (String × Value)} :
      Reordered s1 s2 → Reordered l1 l2 →
      Reordered ((k, Value.object s1) :: l1) ((k, Value.object s2) :: l2)
  | swap (e1 e2 : String × Value) (l : List (String × Value)) :
      Reordered (e1 :: e2 :: l) (e2 :: e1 :: l)
  | trans {l1 l2 l3 : List (String × Value)} :
      Reordered l1 l2 → Reordered l2 l3 → Reordered l1 l3

/-- The pairs that `flattenSettings` assigns for a mapping, in order: the entries
of a second-level mapping as they are, and a first-level entry that is no
mapping. -/
def settingPairs : List (String × Value) → List (String × Value)
  | [] => []
  | (k1, v1) :: rest =>
    match v1 with
    | .object sub => sub ++ settingPairs rest
    | _ => (k1, v1) :: settingPairs rest

/-- The value of the field of a Secret that carries the given `json` key, as it
stands in JSON; `none` when `Secret` declares no field with that key. -/
def Secret.getJSON (o : Secret) (key : String) : Option Value :=
  if key = "SecretName" then some (Value.str o.SecretName)
  else if key = "SecretText" then some (Value.str o.SecretText)
  else if key = "Type" then some (Value.str o.Type_)
  else if key = "FolderId" then some (Value.str o.FolderID)
  else if key = "ParentPath" then some (Value.str o.ParentPath)
  else if key = "DataVaultDefaultProfile" then some (Value.str o.DataVaultDefaultProfile)
  else if key = "DataVaultRules" then
    some (match o.ChallengeRules with
      | none => Value.null
      | some r => r.wire)
  else if key = "Sets" then some (Value.array (o.Sets.map Value.str))
  else none

/-! ## Properties -/

/-- Without a `%` in the format, `fmt` copies the text: more fuel than characters. -/
theorem doPrintf_plain (l : List Char) (h : '%' ∉ l) (fuel : Nat) (hf : l.length ≤ fuel) :
    doPrintf fuel l = l := by
  induction l generalizing fuel with
  | nil => cases fuel <;> rfl
  | cons c cs ih =>
    cases fuel with
    | zero => simp at hf
    | succ fuel =>
      have hc : c ≠ '%' := fun e => h (by simp [e])
      have hcs : '%' ∉ cs := fun e => h (by simp [e])
      simp only [doPrintf, hc, if_false]
      rw [ih hcs fuel (by simpa using hf)]

theorem parsenum_length (l : List Char) (num : Nat) (isnum : Bool) :
    (parsenum l num isnum).2.length ≤ l.length := by
  induction l generalizing num isnum with
  | nil => simp [parsenum]
  | cons c cs ih =>
    simp only [parsenum]
    split
    · split
      · simp
      · exact Nat.le_succ_of_le (ih _ _)
    · simp

theorem argNumber_length (l : List Char) (good : Bool) :
    (argNumber l good).1.length ≤ l.length := by
  unfold argNumber
  split
  · simp
  · simp

theorem directiveWidth_length (l : List Char) (a g : Bool) :
    (directiveWidth l a g).2.1.length ≤ l.length := by
  unfold directiveWidth
  split
  · simp
  · exact parsenum_length _ _ _

theorem directivePrecision_length (l : List Char) (a g : Bool) :
    (directivePrecision l a g).2.1.length ≤ l.length := by
  unfold directivePrecision
  split
  · rename_i c rest
    have h1 := argNumber_length (c :: rest) (if a then false else g)
    generalize argNumber (c :: rest) (if a then false else g) = r at h1 ⊢
    obtain ⟨r1, r2, r3⟩ := r
    have h2 := parsenum_length r1 0 false
    simp only at h1 h2 ⊢
    cases r1 with
    | nil =>
      simp only [List.length_cons, List.length_nil] at h1 h2 ⊢
      omega
    | cons c2 t2 =>
      by_cases hc : c2 = '*'
      · subst hc
        simp only [List.length_cons] at h1 ⊢
        omega
      · simp only [List.length_cons] at h1 h2 ⊢
        split
        · rename_i heq
          simp only [List.cons.injEq] at heq
          exact absurd heq.1 hc
        · simp only
          omega
  · simp

theorem directiveVerb_length (l : List Char) (g : Bool) :
    (directiveVerb l g).2.length ≤ l.length := by
  unfold directiveVerb
  split
  · simp
  · split
    · simp
    · split <;> simp

/-- A directive leaves no more text than it was given. -/
theorem directive_length (l : List Char) : (directive l).2.length ≤ l.length := by
  unfold directive
  simp only []
  have h0 : (l.dropWhile isFlag).length ≤ l.length := (List.dropWhile_sublist _).length_le
  have h1 := argNumber_length (l.dropWhile isFlag) true
  generalize argNumber (l.dropWhile isFlag) true = a1 at h1 ⊢
  have h2 := directiveWidth_length a1.1 a1.2.1 a1.2.2
  generalize directiveWidth a1.1 a1.2.1 a1.2.2 = w at h2 ⊢
  have h3 := directivePrecision_length w.2.1 w.2.2.1 w.2.2.2
  generalize directivePrecision w.2.1 w.2.2.1 w.2.2.2 = p at h3 ⊢
  have h4 : (if p.2.2.1 then p.2 else argNumber p.2.1 p.2.2.2).1.length ≤ p.2.1.length := by
    split
    · exact le_refl _
    · exact argNumber_length _ _
  generalize (if p.2.2.1 then p.2 else argNumber p.2.1 p.2.2.2) = a3 at h4 ⊢
  have h5 := directiveVerb_length a3.1 a3.2.2
  omega

/-- The fuel given by `Sprintf`, the length of the format, is enough: more fuel
gives the same text. -/
theorem doPrintf_fuel (n : Nat) : ∀ (l : List Char) (f1 f2 : Nat), l.length ≤ n →
    l.length ≤ f1 → l.length ≤ f2 → doPrintf f1 l = doPrintf f2 l := by
  induction n with
  | zero =>
    intro l f1 f2 hn _ _
    have hl : l = [] := List.length_eq_zero.mp (Nat.le_zero.mp hn)
    subst hl
    cases f1 <;> cases f2 <;> rfl
  | succ n ih =>
    intro l f1 f2 hn h1 h2
    cases l with
    | nil => cases f1 <;> cases f2 <;> rfl
    | cons c cs =>
      cases f1 with
      | zero => simp at h1
      | succ f1 =>
        cases f2 with
        | zero => simp at h2
        | succ f2 =>
          simp only [List.length_cons, Nat.add_le_add_iff_right] at hn h1 h2
          simp only [doPrintf]
          split
          · have hd := directive_length cs
            rw [ih (directive cs).2 f1 f2 (by omega) (by omega) (by omega)]
          · rw [ih cs f1 f2 hn h1 h2]

/-- A message without `%` passes through `fmt.Errorf` unchanged. -/
theorem Errorf_plain (s : String) (h : '%' ∉ s.data) : Errorf s = s := by
  unfold Errorf Sprintf
  rw [doPrintf_plain s.data h s.length (le_refl _)]

theorem ConvertToValidList_loop_ok (validMap : List (String × String)) (input converted : List String)
    (h : ∀ k ∈ input, mapIndex validMap k ≠ "") :
    ConvertToValidList.loop validMap input converted
      = .ok (converted ++ input.map (mapIndex validMap)) := by
  induction input generalizing converted with
  | nil => simp [ConvertToValidList.loop]
  | cons k rest ih =>
    have hk : mapIndex validMap k ≠ "" := h k (by simp)
    simp only [ConvertToValidList.loop, ne_eq, hk, not_false_eq_true, if_true]
    rw [ih _ (fun k2 h2 => h k2 (by simp [h2]))]
    simp

theorem mapIndex_of_lookup (m : List (String × String)) (k v : String)
    (h : m.lookup k = some v) : mapIndex m k = v := by
  simp [mapIndex, h]

/-- C1. When every listed name has a non-empty entry in the table,
`ConvertToValidList` succeeds and returns the table's values of the names, one
per input name, in input order. -/
theorem ConvertToValidList_ok (input : List String) (validMap : List (String × String))
    (h : ∀ k ∈ input, ∃ v, validMap.lookup k = some v ∧ v ≠ "") :
    ConvertToValidList input validMap = .ok (input.map (mapIndex validMap))
    ∧ (input.map (mapIndex validMap)).length = input.length
    ∧ ∀ (i : Nat) (hi : i < input.length),
        (input.map (mapIndex validMap))[i]? = validMap.lookup input[i] := by
  have h2 : ∀ k ∈ input, mapIndex validMap k ≠ "" := by
    intro k hk
    obtain ⟨v, hv, hne⟩ := h k hk
    rw [mapIndex_of_lookup _ _ _ hv]
    exact hne
  refine ⟨?_, by simp, ?_⟩
  · unfold ConvertToValidList
    rw [ConvertToValidList_loop_ok _ _ _ h2]
    simp
  · intro i hi
    obtain ⟨v, hv, _⟩ := h input[i] (List.getElem_mem _)
    simp [hi, mapIndex_of_lookup _ _ _ hv, hv]

/-- C1, at the rights of the specification's example. -/
theorem ConvertToValidList_ok_witness :
    (∀ k ∈ ["View", "Edit"], ∃ v, [("View", "View"), ("Edit", "Manage")].lookup k = some v ∧ v ≠ "")
    ∧ ConvertToValidList ["View", "Edit"] [("View", "View"), ("Edit", "Manage")]
        = .ok ["View", "Manage"] := by
  have h : ∀ k ∈ ["View", "Edit"],
      ∃ v, [("View", "View"), ("Edit", "Manage")].lookup k = some v ∧ v ≠ "" := by
    decide
  exact ⟨h, (ConvertToValidList_ok ["View", "Edit"] [("View", "View"), ("Edit", "Manage")] h).1⟩

theorem ConvertToValidList_loop_error (validMap : List (String × String))
    (input converted : List String) (k : String)
    (h : input.find? (fun n => decide (mapIndex validMap n = "")) = some k) :
    ConvertToValidList.loop validMap input converted = .error (Errorf ("Invalid right " ++ k)) := by
  induction input generalizing converted with
  | nil => simp at h
  | cons n rest ih =>
    by_cases hn : mapIndex validMap n = ""
    · have hk : n = k := by simpa [List.find?, hn] using h
      subst hk
      simp [ConvertToValidList.loop, hn]
    · have hr : rest.find? (fun n => decide (mapIndex validMap n = "")) = some k := by
        simpa [List.find?, hn] using h
      simp only [ConvertToValidList.loop, ne_eq, hn, not_false_eq_true, if_true]
      exact ih _ hr

/-- C2 as stated fails. With the table {"A": ""} and the rights ["A", "B"], the
first name absent from the table is "B", yet the error names "A", whose entry is
empty; and a name holding a `%` is not repeated as it is in the message. -/
theorem ConvertToValidList_absent_counterexample :
    (["A", "B"].find? (fun n => ([("A", "")].lookup n).isNone) = some "B"
      ∧ ConvertToValidList ["A", "B"] [("A", "")] = .error "Invalid right A"
      ∧ ConvertToValidList ["A", "B"] [("A", "")] ≠ .error ("Invalid right " ++ "B"))
    ∧ (["%d"].find? (fun n => ([("View", "View")].lookup n).isNone) = some "%d"
      ∧ ConvertToValidList ["%d"] [("View", "View")] = .error "Invalid right %!d(MISSING)"
      ∧ ConvertToValidList ["%d"] [("View", "View")] ≠ .error ("Invalid right " ++ "%d")) := by
  decide

/-- C2, amended. If some listed name is absent from the table or has an empty
entry, `ConvertToValidList` returns no list but an error, and when the first such
name holds no `%` the message is "Invalid right " followed by that name. -/
theorem ConvertToValidList_error (input : List String) (validMap : List (String × String))
    (k : String)
    (h : input.find? (fun n => decide (validMap.lookup n = none ∨ validMap.lookup n = some ""))
          = some k) :
    (∃ msg, ConvertToValidList input validMap = .error msg)
    ∧ ('%' ∉ k.data → ConvertToValidList input validMap = .error ("Invalid right " ++ k)) := by
  have hfun : (fun n => decide (validMap.lookup n = none ∨ validMap.lookup n = some ""))
      = (fun n => decide (mapIndex validMap n = "")) := by
    funext n
    unfold mapIndex
    cases hl : validMap.lookup n <;> simp
  rw [hfun] at h
  have he := ConvertToValidList_loop_error validMap input [] k h
  refine ⟨⟨_, he⟩, ?_⟩
  intro hk
  have hp : '%' ∉ ("Invalid right " ++ k).data := by
    simp only [String.data_append, List.mem_append, not_or]
    exact ⟨by decide, hk⟩
  rw [Errorf_plain _ hp] at he
  exact he

/-- C2, amended, at the specification's example: "Delete" is not in the table. -/
theorem ConvertToValidList_error_witness :
    ["Delete"].find? (fun n => decide ([("View", "View"), ("Edit", "Manage")].lookup n = none
        ∨ [("View", "View"), ("Edit", "Manage")].lookup n = some "")) = some "Delete"
    ∧ '%' ∉ "Delete".data
    ∧ ConvertToValidList ["Delete"] [("View", "View"), ("Edit", "Manage")]
        = .error "Invalid right Delete" :=
  ⟨by decide, by decide,
    (ConvertToValidList_error ["Delete"] [("View", "View"), ("Edit", "Manage")] "Delete"
      (by decide)).2 (by decide)⟩

theorem FlattenSliceToString_loop_shift (n : Nat) (l : List String) (i : Nat) (pre s : String) :
    FlattenSliceToString.loop (n + 1) (i + 1) l (pre ++ s)
      = pre ++ FlattenSliceToString.loop n i l s := by
  induction l generalizing i s with
  | nil => simp [FlattenSliceToString.loop]
  | cons v rest ih =>
    simp only [FlattenSliceToString.loop, Nat.add_sub_cancel]
    by_cases hlt : i < n - 1
    · have hlt2 : i + 1 < n := by omega
      simp only [hlt, hlt2, if_true]
      rw [← ih]
      simp [String.append_assoc]
    · have hlt2 : ¬ (i + 1 < n) := by omega
      simp only [hlt, hlt2, if_false]
      rw [← ih]
      simp [String.append_assoc]

theorem intercalate_go_shift (sep : String) (l : List String) (pre acc : String) :
    String.intercalate.go (pre ++ acc) sep l = pre ++ String.intercalate.go acc sep l := by
  induction l generalizing acc with
  | nil => simp [String.intercalate.go]
  | cons a rest ih =>
    simp only [String.intercalate.go]
    rw [← ih]
    simp [String.append_assoc]

theorem FlattenSliceToString_cons_cons (a b : String) (rest : List String) :
    FlattenSliceToString (a :: b :: rest) = a ++ "," ++ FlattenSliceToString (b :: rest) := by
  have h := FlattenSliceToString_loop_shift (rest.length + 1) (b :: rest) 0 (a ++ ",") ""
  simp only [FlattenSliceToString, FlattenSliceToString.loop, List.length_cons] at h ⊢
  simpa [String.append_assoc] using h

theorem FlattenSliceToString_singleton (a : String) : FlattenSliceToString [a] = a := by
  simp [FlattenSliceToString, FlattenSliceToString.loop]

theorem FlattenSliceToString_eq_intercalate (input : List String) :
    FlattenSliceToString input = ",".intercalate input := by
  induction input with
  | nil => rfl
  | cons a rest ih =>
    cases rest with
    | nil => simp [FlattenSliceToString_singleton, String.intercalate, String.intercalate.go]
    | cons b rest =>
      rw [FlattenSliceToString_cons_cons, ih]
      simp only [String.intercalate, String.intercalate.go]
      rw [String.append_assoc a "," b, intercalate_go_shift, intercalate_go_shift]
      simp [String.append_assoc]

/-- C3. `FlattenSliceToString` joins the elements in order with exactly one ","
between consecutive elements and none before the first or after the last; it is
the library join with separator ",". -/
theorem FlattenSliceToString_spec :
    FlattenSliceToString [] = ""
    ∧ (∀ a : String, FlattenSliceToString [a] = a)
    ∧ (∀ (a b : String) (rest : List String),
        FlattenSliceToString (a :: b :: rest) = a ++ "," ++ FlattenSliceToString (b :: rest))
    ∧ (∀ input : List String, FlattenSliceToString input = ",".intercalate input)
    ∧ FlattenSliceToString ["value1", "value2"] = "value1,value2" :=
  ⟨rfl, FlattenSliceToString_singleton, FlattenSliceToString_cons_cons,
    FlattenSliceToString_eq_intercalate, by decide⟩

/-! ### Splitting and joining -/

theorem splitAux_plain (sep : Char) (l cur : List Char) (h : sep ∉ l) :
    splitAux sep l cur = [String.mk (cur ++ l)] := by
  induction l generalizing cur with
  | nil => simp [splitAux]
  | cons c cs ih =>
    have hc : c ≠ sep := fun e => h (by simp [e])
    have hcs : sep ∉ cs := fun e => h (by simp [e])
    simp only [splitAux, hc, if_false]
    rw [ih _ hcs]
    simp

theorem splitAux_append_sep (sep : Char) (l rest cur : List Char) (h : sep ∉ l) :
    splitAux sep (l ++ sep :: rest) cur = String.mk (cur ++ l) :: splitAux sep rest [] := by
  induction l generalizing cur with
  | nil => simp [splitAux]
  | cons c cs ih =>
    have hc : c ≠ sep := fun e => h (by simp [e])
    have hcs : sep ∉ cs := fun e => h (by simp [e])
    rw [List.cons_append]
    simp only [splitAux, hc, if_false]
    rw [ih _ hcs]
    simp

theorem splitAux_ne_nil (sep : Char) (l cur : List Char) : splitAux sep l cur ≠ [] := by
  induction l generalizing cur with
  | nil => simp [splitAux]
  | cons c cs ih =>
    simp only [splitAux]
    split
    · simp
    · exact ih _

/-- Splitting a joined list on "," gives the list back when the list is not empty
and none of its elements holds a comma. -/
theorem Split_FlattenSliceToString (l : List String) (hne : l ≠ [])
    (h : ∀ a ∈ l, ',' ∉ a.data) : Split (FlattenSliceToString l) ',' = l := by
  induction l with
  | nil => exact absurd rfl hne
  | cons a rest ih =>
    cases rest with
    | nil =>
      rw [FlattenSliceToString_singleton]
      unfold Split
      rw [splitAux_plain _ _ _ (h a (by simp))]
      simp
    | cons b rest =>
      rw [FlattenSliceToString_cons_cons]
      have hr := ih (by simp) (fun x hx => h x (by simp [hx]))
      unfold Split at hr ⊢
      have hd : (a ++ "," ++ FlattenSliceToString (b :: rest)).data
          = a.data ++ ',' :: (FlattenSliceToString (b :: rest)).data := by
        simp [String.data_append]
      rw [hd, splitAux_append_sep _ _ _ _ (h a (by simp)), hr]
      simp

theorem lookup_mem_values (m : List (String × String)) (k v : String)
    (h : m.lookup k = some v) : v ∈ m.map Prod.snd := by
  induction m with
  | nil => simp at h
  | cons e rest ih =>
    obtain ⟨k2, v2⟩ := e
    by_cases hk : k = k2
    · subst hk
      simp [List.lookup] at h
      simp [h]
    · have hb : (k == k2) = false := by simpa using hk
      simp only [List.lookup, hb] at h
      simp [ih h]

theorem mapIndex_mem_values (m : List (String × String)) (k : String)
    (h : mapIndex m k ≠ "") : mapIndex m k ∈ m.map Prod.snd := by
  unfold mapIndex at h ⊢
  cases hl : m.lookup k with
  | none => simp [hl] at h
  | some v =>
    simp only [Option.getD_some]
    exact lookup_mem_values m k v hl

theorem ConvertToValidList_loop_inv (validMap : List (String × String))
    (input converted conv : List String)
    (h : ConvertToValidList.loop validMap input converted = .ok conv) :
    conv = converted ++ input.map (mapIndex validMap)
    ∧ ∀ k ∈ input, mapIndex validMap k ≠ "" := by
  induction input generalizing converted with
  | nil =>
    simp only [ConvertToValidList.loop, Except.ok.injEq] at h
    simp [h]
  | cons k rest ih =>
    by_cases hk : mapIndex validMap k = ""
    · simp [ConvertToValidList.loop, hk] at h
    · simp only [ConvertToValidList.loop, ne_eq, hk, not_false_eq_true, if_true] at h
      obtain ⟨h1, h2⟩ := ih _ h
      refine ⟨by simp [h1], ?_⟩
      intro k2 hk2
      rcases List.mem_cons.mp hk2 with e | e
      · rw [e]; exact hk
      · exact h2 k2 e

/-- A successful conversion returns, name by name, non-empty values of the table. -/
theorem ConvertToValidList_inv (validMap : List (String × String)) (input conv : List String)
    (h : ConvertToValidList input validMap = .ok conv) :
    conv = input.map (mapIndex validMap)
    ∧ ∀ v ∈ conv, v ∈ validMap.map Prod.snd ∧ v ≠ "" := by
  obtain ⟨h1, h2⟩ := ConvertToValidList_loop_inv validMap input [] conv h
  simp only [List.nil_append] at h1
  refine ⟨h1, ?_⟩
  intro v hv
  rw [h1] at hv
  obtain ⟨k, hk, rfl⟩ := List.mem_map.mp hv
  exact ⟨mapIndex_mem_values validMap k (h2 k hk), h2 k hk⟩

/-! ### `ResolvePermissions` -/

section Resolve

variable {σ : Type}

theorem ResolvePermissions_cons_none (c : PrincipalLookup σ) (validPerms : List (String × String))
    (p q : Permission) (rest : List Permission) (w w1 : σ)
    (h : ResolvePermissions.body c validPerms p w = (none, q, w1)) :
    ResolvePermissions c validPerms (p :: rest) w
      = ((ResolvePermissions c validPerms rest w1).1,
         q :: (ResolvePermissions c validPerms rest w1).2.1,
         (ResolvePermissions c validPerms rest w1).2.2) := by
  simp [ResolvePermissions, h]

theorem ResolvePermissions_cons_some (c : PrincipalLookup σ) (validPerms : List (String × String))
    (p q : Permission) (rest : List Permission) (w w1 : σ) (err : String)
    (h : ResolvePermissions.body c validPerms p w = (some err, q, w1)) :
    ResolvePermissions c validPerms (p :: rest) w = (some err, q :: rest, w1) := by
  simp [ResolvePermissions, h]

/-- The rights that the loop body converts: the `Rights` string split on ","
when it is not empty, the `RightList` otherwise. -/
theorem ResolvePermissions_convert_eq (validPerms : List (String × String)) (p q : Permission) :
    ResolvePermissions.convert validPerms p q
      = match ConvertToValidList (if p.Rights ≠ "" then Split p.Rights ',' else p.RightList)
            validPerms with
        | .error err => (some err, q)
        | .ok rights => (none, { q with Rights := FlattenSliceToString rights }) := by
  unfold ResolvePermissions.convert
  by_cases h1 : p.Rights = ""
  · by_cases h2 : p.RightList = []
    · simp [h1, h2, ConvertToValidList, ConvertToValidList.loop]
    · simp [h1, h2]
  · simp [h1]

theorem ResolvePermissions_convert_none (validPerms : List (String × String))
    (p q q1 : Permission) (h : ResolvePermissions.convert validPerms p q = (none, q1)) :
    ∃ conv, ConvertToValidList (if p.Rights ≠ "" then Split p.Rights ',' else p.RightList)
        validPerms = .ok conv ∧ q1 = { q with Rights := FlattenSliceToString conv } := by
  rw [ResolvePermissions_convert_eq] at h
  generalize ConvertToValidList (if p.Rights ≠ "" then Split p.Rights ',' else p.RightList)
      validPerms = r at h ⊢
  cases r with
  | error err => simp at h
  | ok conv =>
    refine ⟨conv, rfl, ?_⟩
    simp only [Prod.mk.injEq, true_and] at h
    exact h.symm

/-- What a successful pass of the loop body leaves in `perms[i]`: the identifier
given by the lookup and the converted rights, the other fields as they were. -/
theorem ResolvePermissions_body_none (c : PrincipalLookup σ) (validPerms : List (String × String))
    (p q : Permission) (w w1 : σ) (h : ResolvePermissions.body c validPerms p w = (none, q, w1)) :
    ∃ conv id, ConvertToValidList (if p.Rights ≠ "" then Split p.Rights ',' else p.RightList)
        validPerms = .ok conv
      ∧ q = { p with PrincipalID := id, Rights := FlattenSliceToString conv } := by
  unfold ResolvePermissions.body at h
  by_cases hu : ToLower p.PrincipalType = "user"
  · rw [if_pos hu] at h
    cases he : (c.userGetIDByName p.PrincipalName w).1.2 with
    | some err => simp [he] at h
    | none =>
      simp only [he, Prod.mk.injEq] at h
      obtain ⟨h1, h2, _⟩ := h
      obtain ⟨conv, hc, hq⟩ := ResolvePermissions_convert_none validPerms p _ q
        (Prod.ext h1 h2)
      exact ⟨conv, _, hc, hq⟩
  · by_cases hr : ToLower p.PrincipalType = "role"
    · rw [if_neg hu, if_pos hr] at h
      cases he : (c.roleGetIDByName p.PrincipalName w).1.2 with
      | some err => simp [he] at h
      | none =>
        simp only [he, Prod.mk.injEq] at h
        obtain ⟨h1, h2, _⟩ := h
        obtain ⟨conv, hc, hq⟩ := ResolvePermissions_convert_none validPerms p _ q
          (Prod.ext h1 h2)
        exact ⟨conv, _, hc, hq⟩
    · simp [hu, hr] at h

/-- What a successful call leaves in each entry, entry by entry: the identifier
given by the lookup and the joined conversion of the raw rights, the other
fields as they were. -/
theorem ResolvePermissions_entries (c : PrincipalLookup σ) (validPerms : List (String × String))
    (perms : List Permission) (w : σ)
    (h : (ResolvePermissions c validPerms perms w).1 = none) :
    List.Forall₂
      (fun p q => ∃ conv id,
        ConvertToValidList (if p.Rights ≠ "" then Split p.Rights ',' else p.RightList)
          validPerms = .ok conv
        ∧ q = { p with PrincipalID := id, Rights := FlattenSliceToString conv })
      perms (ResolvePermissions c validPerms perms w).2.1 := by
  induction perms generalizing w with
  | nil => simp [ResolvePermissions]
  | cons p rest ih =>
    rcases hb : ResolvePermissions.body c validPerms p w with ⟨e, q, w1⟩
    cases e with
    | some err =>
      rw [ResolvePermissions_cons_some c validPerms p q rest w w1 err hb] at h
      simp at h
    | none =>
      rw [ResolvePermissions_cons_none c validPerms p q rest w w1 hb] at h ⊢
      exact List.Forall₂.cons (ResolvePermissions_body_none c validPerms p q w w1 hb) (ih w1 h)

/-- C4. When `ResolvePermissions` succeeds, every entry's `Rights` afterwards is
the comma-joined conversion, through the table and in input order, of its raw
rights: the input `Rights` split on "," when that string is not empty (the
`RightList` is then ignored), the `RightList` otherwise. -/
theorem ResolvePermissions_rights (c : PrincipalLookup σ) (validPerms : List (String × String))
    (perms : List Permission) (w : σ)
    (h : (ResolvePermissions c validPerms perms w).1 = none) :
    List.Forall₂
      (fun p q => ∃ conv,
        ConvertToValidList (if p.Rights ≠ "" then Split p.Rights ',' else p.RightList)
          validPerms = .ok conv
        ∧ q.Rights = FlattenSliceToString conv)
      perms (ResolvePermissions c validPerms perms w).2.1 := by
  refine List.Forall₂.imp ?_ (ResolvePermissions_entries c validPerms perms w h)
  intro p q hpq
  obtain ⟨conv, id, hc, hq⟩ := hpq
  exact ⟨conv, hc, by rw [hq]⟩

theorem ResolvePermissions_append_none (c : PrincipalLookup σ)
    (validPerms : List (String × String)) (pre l : List Permission) (w : σ)
    (h : (ResolvePermissions c validPerms pre w).1 = none) :
    ResolvePermissions c validPerms (pre ++ l) w
      = ((ResolvePermissions c validPerms l (ResolvePermissions c validPerms pre w).2.2).1,
         (ResolvePermissions c validPerms pre w).2.1
           ++ (ResolvePermissions c validPerms l (ResolvePermissions c validPerms pre w).2.2).2.1,
         (ResolvePermissions c validPerms l (ResolvePermissions c validPerms pre w).2.2).2.2) := by
  induction pre generalizing w with
  | nil => simp [ResolvePermissions]
  | cons p rest ih =>
    rcases hb : ResolvePermissions.body c validPerms p w with ⟨e, q, w1⟩
    cases e with
    | some err =>
      rw [ResolvePermissions_cons_some c validPerms p q rest w w1 err hb] at h
      simp at h
    | none =>
      rw [ResolvePermissions_cons_none c validPerms p q rest w w1 hb] at h
      rw [List.cons_append, ResolvePermissions_cons_none c validPerms p q (rest ++ l) w w1 hb,
        ResolvePermissions_cons_none c validPerms p q rest w w1 hb, ih w1 h]
      simp

theorem ResolvePermissions_append_some (c : PrincipalLookup σ)
    (validPerms : List (String × String)) (pre l : List Permission) (w : σ) (err : String)
    (h : (ResolvePermissions c validPerms pre w).1 = some err) :
    ResolvePermissions c validPerms (pre ++ l) w
      = (some err, (ResolvePermissions c validPerms pre w).2.1 ++ l,
         (ResolvePermissions c validPerms pre w).2.2) := by
  induction pre generalizing w with
  | nil => simp [ResolvePermissions] at h
  | cons p rest ih =>
    rcases hb : ResolvePermissions.body c validPerms p w with ⟨e, q, w1⟩
    cases e with
    | some err2 =>
      rw [ResolvePermissions_cons_some c validPerms p q rest w w1 err2 hb] at h
      rw [List.cons_append, ResolvePermissions_cons_some c validPerms p q (rest ++ l) w w1 err2 hb,
        ResolvePermissions_cons_some c validPerms p q rest w w1 err2 hb]
      simp only [Option.some.injEq] at h
      simp [h]
    | none =>
      rw [ResolvePermissions_cons_none c validPerms p q rest w w1 hb] at h
      rw [List.cons_append, ResolvePermissions_cons_none c validPerms p q (rest ++ l) w w1 hb,
        ResolvePermissions_cons_none c validPerms p q rest w w1 hb, ih w1 h]
      simp

/-- The loop body looks at the principal type only through `strings.ToLower`:
with another casing of the type the body makes the same lookup, fails or
succeeds alike, and leaves the same entry up to the type written in it. -/
theorem ResolvePermissions_body_casing (c : PrincipalLookup σ)
    (validPerms : List (String × String)) (p : Permission) (t : String) (w : σ)
    (h : ToLower t = ToLower p.PrincipalType) :
    (ResolvePermissions.body c validPerms { p with PrincipalType := t } w).1.isSome
        = (ResolvePermissions.body c validPerms p w).1.isSome
    ∧ (ResolvePermissions.body c validPerms { p with PrincipalType := t } w).2.1
        = { (ResolvePermissions.body c validPerms p w).2.1 with PrincipalType := t }
    ∧ (ResolvePermissions.body c validPerms { p with PrincipalType := t } w).2.2
        = (ResolvePermissions.body c validPerms p w).2.2 := by
  unfold ResolvePermissions.body
  simp only [h]
  by_cases hu : ToLower p.PrincipalType = "user"
  · rw [if_pos hu, if_pos hu]
    cases he : (c.userGetIDByName p.PrincipalName w).1.2 with
    | some err => simp
    | none =>
      simp only [ResolvePermissions_convert_eq]
      cases ConvertToValidList (if p.Rights ≠ "" then Split p.Rights ',' else p.RightList)
        validPerms <;> simp
  · by_cases hr : ToLower p.PrincipalType = "role"
    · rw [if_neg hu, if_pos hr, if_neg hu, if_pos hr]
      cases he : (c.roleGetIDByName p.PrincipalName w).1.2 with
      | some err => simp
      | none =>
        simp only [ResolvePermissions_convert_eq]
        cases ConvertToValidList (if p.Rights ≠ "" then Split p.Rights ',' else p.RightList)
          validPerms <;> simp
    · rw [if_neg hu, if_neg hr, if_neg hu, if_neg hr]
      simp

/-- C5. `ResolvePermissions` dispatches on the principal type without regard to
letter case: writing the type of one entry in another casing (one with the same
`strings.ToLower`) leaves the error status, the lookups made, and the resolved
`PrincipalID` and `Rights` of every entry as they were. -/
theorem ResolvePermissions_casing (c : PrincipalLookup σ) (validPerms : List (String × String))
    (pre post : List Permission) (p : Permission) (t : String) (w : σ)
    (h : ToLower t = ToLower p.PrincipalType) :
    (ResolvePermissions c validPerms (pre ++ { p with PrincipalType := t } :: post) w).1.isSome
        = (ResolvePermissions c validPerms (pre ++ p :: post) w).1.isSome
    ∧ (ResolvePermissions c validPerms (pre ++ { p with PrincipalType := t } :: post) w).2.1.map
          (fun q => (q.PrincipalID, q.Rights))
        = (ResolvePermissions c validPerms (pre ++ p :: post) w).2.1.map
          (fun q => (q.PrincipalID, q.Rights))
    ∧ (ResolvePermissions c validPerms (pre ++ { p with PrincipalType := t } :: post) w).2.2
        = (ResolvePermissions c validPerms (pre ++ p :: post) w).2.2 := by
  cases hpre : (ResolvePermissions c validPerms pre w).1 with
  | some err =>
    rw [ResolvePermissions_append_some c validPerms pre _ w err hpre,
      ResolvePermissions_append_some c validPerms pre _ w err hpre]
    simp
  | none =>
    rw [ResolvePermissions_append_none c validPerms pre _ w hpre,
      ResolvePermissions_append_none c validPerms pre _ w hpre]
    generalize (ResolvePermissions c validPerms pre w).2.2 = w1
    obtain ⟨h1, h2, h3⟩ := ResolvePermissions_body_casing c validPerms p t w1 h
    rcases hb : ResolvePermissions.body c validPerms p w1 with ⟨e, q, w2⟩
    rcases hb2 : ResolvePermissions.body c validPerms { p with PrincipalType := t } w1
      with ⟨e2, q2, w3⟩
    rw [hb, hb2] at h1 h2 h3
    simp only at h1 h2 h3
    subst h2 h3
    cases e with
    | some err =>
      cases e2 with
      | none => simp at h1
      | some err2 =>
        rw [ResolvePermissions_cons_some c validPerms _ _ post w1 _ err hb,
          ResolvePermissions_cons_some c validPerms _ _ post w1 _ err2 hb2]
        simp
    | none =>
      cases e2 with
      | some err2 => simp at h1
      | none =>
        rw [ResolvePermissions_cons_none c validPerms _ _ post w1 _ hb,
          ResolvePermissions_cons_none c validPerms _ _ post w1 _ hb2]
        simp

/-- The loop stops at the first entry whose body returns an error: the entries
after it are neither looked up nor converted nor written, whatever they are;
the entries before it stay as resolved, and the failing entry is left as its
body left it. -/
theorem ResolvePermissions_abort (c : PrincipalLookup σ) (validPerms : List (String × String))
    (pre post : List Permission) (p q : Permission) (w w2 : σ) (err : String)
    (hpre : (ResolvePermissions c validPerms pre w).1 = none)
    (hb : ResolvePermissions.body c validPerms p (ResolvePermissions c validPerms pre w).2.2
            = (some err, q, w2)) :
    ResolvePermissions c validPerms (pre ++ p :: post) w
      = (some err, (ResolvePermissions c validPerms pre w).2.1 ++ q :: post, w2) := by
  rw [ResolvePermissions_append_none c validPerms pre _ w hpre,
    ResolvePermissions_cons_some c validPerms p q post _ w2 err hb]

theorem ResolvePermissions_body_invalid (c : PrincipalLookup σ)
    (validPerms : List (String × String)) (p : Permission) (w : σ)
    (hu : ToLower p.PrincipalType ≠ "user") (hr : ToLower p.PrincipalType ≠ "role") :
    ResolvePermissions.body c validPerms p w
      = (some (Errorf ("Invalid PrincipalType " ++ p.PrincipalType)), p, w) := by
  unfold ResolvePermissions.body
  rw [if_neg hu, if_neg hr]

/-- C7, amended. When `ResolvePermissions` aborts at an entry with an unrecognised
principal type, that entry and all later ones are left as found and no further
lookup is made, but the entries before it stay resolved: the list holds for
them what a successful call on those entries alone leaves, and the state is the
one after their lookups. -/
theorem ResolvePermissions_invalid_type (c : PrincipalLookup σ)
    (validPerms : List (String × String)) (pre post : List Permission) (p : Permission) (w : σ)
    (hpre : (ResolvePermissions c validPerms pre w).1 = none)
    (hu : ToLower p.PrincipalType ≠ "user") (hr : ToLower p.PrincipalType ≠ "role") :
    ResolvePermissions c validPerms (pre ++ p :: post) w
      = (some (Errorf ("Invalid PrincipalType " ++ p.PrincipalType)),
         (ResolvePermissions c validPerms pre w).2.1 ++ p :: post,
         (ResolvePermissions c validPerms pre w).2.2) :=
  ResolvePermissions_abort c validPerms pre post p p w _ _ hpre
    (ResolvePermissions_body_invalid c validPerms p _ hu hr)

/-- C8, amended. After `ResolvePermissions` returns without error, the `Rights`
of every entry is the comma-join of the table's values of its raw rights, one
per raw right and in order, each of them a non-empty value of the table; and
when the entry had at least one raw right and no value of the table holds a
comma, every comma-separated element of `Rights` is a value of the table. The
raw rights are the input `Rights` split on "," when that string is not empty,
the `RightList` otherwise. -/
theorem ResolvePermissions_rights_values (c : PrincipalLookup σ)
    (validPerms : List (String × String)) (perms : List Permission) (w : σ)
    (h : (ResolvePermissions c validPerms perms w).1 = none) :
    List.Forall₂
      (fun p q =>
        q.Rights
          = FlattenSliceToString
              ((if p.Rights ≠ "" then Split p.Rights ',' else p.RightList).map
                (mapIndex validPerms))
        ∧ (∀ k ∈ (if p.Rights ≠ "" then Split p.Rights ',' else p.RightList),
            mapIndex validPerms k ∈ validPerms.map Prod.snd ∧ mapIndex validPerms k ≠ "")
        ∧ ((p.Rights ≠ "" ∨ p.RightList ≠ []) →
            (∀ v ∈ validPerms.map Prod.snd, ',' ∉ v.data) →
            ∀ e ∈ Split q.Rights ',', e ∈ validPerms.map Prod.snd))
      perms (ResolvePermissions c validPerms perms w).2.1 := by
  refine List.Forall₂.imp ?_ (ResolvePermissions_entries c validPerms perms w h)
  intro p q hpq
  obtain ⟨conv, id, hc, hq0⟩ := hpq
  have hq : q.Rights = FlattenSliceToString conv := by rw [hq0]
  obtain ⟨hmap, hval⟩ := ConvertToValidList_inv validPerms _ conv hc
  refine ⟨by rw [hq, hmap], ?_, ?_⟩
  · intro k hk
    exact hval _ (by rw [hmap]; exact List.mem_map_of_mem _ hk)
  intro hraw hcomma e he
  have hne : conv ≠ [] := by
    rw [hmap]
    intro hnil
    have hnil2 := List.map_eq_nil_iff.mp hnil
    by_cases hR : p.Rights = ""
    · rcases hraw with h1 | h1
      · exact h1 hR
      · simp [hR] at hnil2
        exact h1 hnil2
    · simp only [ne_eq, hR, not_false_eq_true, if_true] at hnil2
      exact splitAux_ne_nil _ _ _ hnil2
  rw [hq, Split_FlattenSliceToString conv hne (fun a ha => hcomma a (hval a ha).1)] at he
  exact (hval e he).1

end Resolve

/-- C4, at the permissions of the secret example: the `RightList`
[Grant, View, RetrieveSecret, Edit, Delete] becomes "Grant,View,Retrieve,Edit,Delete". -/
theorem ResolvePermissions_rights_witness :
    (ResolvePermissions loggingLookup ValidPermissionMap.Secret secretExamplePermissions []).1
      = none
    ∧ List.Forall₂
      (fun p q => ∃ conv,
        ConvertToValidList (if p.Rights ≠ "" then Split p.Rights ',' else p.RightList)
          ValidPermissionMap.Secret = .ok conv
        ∧ q.Rights = FlattenSliceToString conv)
      secretExamplePermissions
      (ResolvePermissions loggingLookup ValidPermissionMap.Secret secretExamplePermissions []).2.1
    ∧ (ResolvePermissions loggingLookup ValidPermissionMap.Secret
        secretExamplePermissions []).2.1.map (fun q => q.Rights)
        = ["Grant,View,Retrieve,Edit,Delete"] :=
  ⟨by decide,
   ResolvePermissions_rights loggingLookup ValidPermissionMap.Secret secretExamplePermissions []
     (by decide),
   by decide⟩

/-- C5, with "role" written for "Role" in the secret example. -/
theorem ResolvePermissions_casing_witness :
    ToLower "role" = ToLower "Role"
    ∧ (ResolvePermissions loggingLookup ValidPermissionMap.Secret
        ([] ++ { PrincipalName := "System Administrator", PrincipalType := "role",
                 PrincipalID := "", Rights := "",
                 RightList := ["Grant", "View", "RetrieveSecret", "Edit", "Delete"] } :: [])
        []).2.1.map (fun q => (q.PrincipalID, q.Rights))
      = (ResolvePermissions loggingLookup ValidPermissionMap.Secret
        ([] ++ { PrincipalName := "System Administrator", PrincipalType := "Role",
                 PrincipalID := "", Rights := "",
                 RightList := ["Grant", "View", "RetrieveSecret", "Edit", "Delete"] } :: [])
        []).2.1.map (fun q => (q.PrincipalID, q.Rights)) :=
  ⟨by decide,
   (ResolvePermissions_casing loggingLookup ValidPermissionMap.Secret [] []
      { PrincipalName := "System Administrator", PrincipalType := "Role",
        PrincipalID := "", Rights := "",
        RightList := ["Grant", "View", "RetrieveSecret", "Edit", "Delete"] } "role" []
      (by decide)).2.1⟩

/-- C6, at the input where the code departs from it: an entry whose principal
type is "%d". The call does stop there (one lookup, for the first entry; the
last entry untouched), but the message is not "Invalid PrincipalType %d": the
text built for it goes through `fmt.Errorf` as a format. -/
theorem ResolvePermissions_percent_type :
    ResolvePermissions loggingLookup ValidPermissionMap.Account
        [⟨"alice", "User", "", "Edit", []⟩, ⟨"ops", "%d", "", "View", []⟩,
         ⟨"bob", "User", "", "View", []⟩] []
      = (some "Invalid PrincipalType %!d(MISSING)",
         [⟨"alice", "User", "U-alice", "Manage", []⟩, ⟨"ops", "%d", "", "View", []⟩,
          ⟨"bob", "User", "", "View", []⟩],
         ["user alice"])
    ∧ "Invalid PrincipalType %!d(MISSING)" ≠ "Invalid PrincipalType " ++ "%d" := by
  decide

/-- C7 as stated fails. The second entry has the type "Group" and the call
aborts on it, yet the first entry comes back with the `PrincipalID` and the
`Rights` written by the call, not with those it had. -/
theorem ResolvePermissions_invalid_type_counterexample :
    ResolvePermissions loggingLookup ValidPermissionMap.Account
        [⟨"alice", "User", "", "Edit", []⟩, ⟨"ops", "Group", "", "View", []⟩] []
      = (some "Invalid PrincipalType Group",
         [⟨"alice", "User", "U-alice", "Manage", []⟩, ⟨"ops", "Group", "", "View", []⟩],
         ["user alice"])
    ∧ (⟨"alice", "User", "U-alice", "Manage", []⟩ : Permission).PrincipalID
        ≠ (⟨"alice", "User", "", "Edit", []⟩ : Permission).PrincipalID
    ∧ (⟨"alice", "User", "U-alice", "Manage", []⟩ : Permission).Rights
        ≠ (⟨"alice", "User", "", "Edit", []⟩ : Permission).Rights := by
  decide

/-- C7, amended, at the same list: the entry before "Group" stays resolved. -/
theorem ResolvePermissions_invalid_type_witness :
    (ResolvePermissions loggingLookup ValidPermissionMap.Account
        [⟨"alice", "User", "", "Edit", []⟩] []).1 = none
    ∧ ToLower "Group" ≠ "user" ∧ ToLower "Group" ≠ "role"
    ∧ ResolvePermissions loggingLookup ValidPermissionMap.Account
        ([⟨"alice", "User", "", "Edit", []⟩] ++ ⟨"ops", "Group", "", "View", []⟩ :: []) []
      = (some (Errorf ("Invalid PrincipalType " ++ "Group")),
         (ResolvePermissions loggingLookup ValidPermissionMap.Account
            [⟨"alice", "User", "", "Edit", []⟩] []).2.1 ++ ⟨"ops", "Group", "", "View", []⟩ :: [],
         (ResolvePermissions loggingLookup ValidPermissionMap.Account
            [⟨"alice", "User", "", "Edit", []⟩] []).2.2) :=
  ⟨by decide, by decide, by decide,
   ResolvePermissions_invalid_type loggingLookup ValidPermissionMap.Account
     [⟨"alice", "User", "", "Edit", []⟩] [] ⟨"ops", "Group", "", "View", []⟩ []
     (by decide) (by decide) (by decide)⟩

/-- C8 as stated fails. With a table one of whose values holds a comma the
converted `Rights` "x,y" splits into "x" and "y", neither a value of the table;
and an entry given no rights at all ends with the empty `Rights`, whose only
comma-separated element "" is no value of the Secret table. -/
theorem ResolvePermissions_rights_values_counterexample :
    ((ResolvePermissions loggingLookup [("A", "x,y")] [⟨"alice", "User", "", "A", []⟩] []).1
        = none
      ∧ (ResolvePermissions loggingLookup [("A", "x,y")]
          [⟨"alice", "User", "", "A", []⟩] []).2.1.map (fun q => Split q.Rights ',')
        = [["x", "y"]]
      ∧ "x" ∉ [("A", "x,y")].map Prod.snd)
    ∧ ((ResolvePermissions loggingLookup ValidPermissionMap.Secret
          [⟨"alice", "User", "", "", []⟩] []).1 = none
      ∧ (ResolvePermissions loggingLookup ValidPermissionMap.Secret
          [⟨"alice", "User", "", "", []⟩] []).2.1.map (fun q => Split q.Rights ',')
        = [[""]]
      ∧ "" ∉ ValidPermissionMap.Secret.map Prod.snd) := by
  decide

/-- C8, amended, at the permissions of the secret example. -/
theorem ResolvePermissions_rights_values_witness :
    (ResolvePermissions loggingLookup ValidPermissionMap.Secret secretExamplePermissions []).1
      = none
    ∧ List.Forall₂
      (fun p q =>
        q.Rights
          = FlattenSliceToString
              ((if p.Rights ≠ "" then Split p.Rights ',' else p.RightList).map
                (mapIndex ValidPermissionMap.Secret))
        ∧ (∀ k ∈ (if p.Rights ≠ "" then Split p.Rights ',' else p.RightList),
            mapIndex ValidPermissionMap.Secret k ∈ ValidPermissionMap.Secret.map Prod.snd
              ∧ mapIndex ValidPermissionMap.Secret k ≠ "")
        ∧ ((p.Rights ≠ "" ∨ p.RightList ≠ []) →
            (∀ v ∈ ValidPermissionMap.Secret.map Prod.snd, ',' ∉ v.data) →
            ∀ e ∈ Split q.Rights ',', e ∈ ValidPermissionMap.Secret.map Prod.snd))
      secretExamplePermissions
      (ResolvePermissions loggingLookup ValidPermissionMap.Secret secretExamplePermissions
        []).2.1
    ∧ (ResolvePermissions loggingLookup ValidPermissionMap.Secret
        secretExamplePermissions []).2.1.map (fun q => Split q.Rights ',')
      = [["Grant", "View", "Retrieve", "Edit", "Delete"]] :=
  ⟨by decide,
   ResolvePermissions_rights_values loggingLookup ValidPermissionMap.Secret
     secretExamplePermissions [] (by decide),
   by decide⟩

/-! ### `queryVaultObject` -/

theorem digitChar_ne_percent (d : Nat) : Nat.digitChar d ≠ '%' := by
  by_cases h : d < 16
  · interval_cases d <;> decide
  · unfold Nat.digitChar
    repeat rw [if_neg (by omega)]
    decide

theorem toDigitsCore_plain (fuel n : Nat) (ds : List Char) (h : '%' ∉ ds) :
    '%' ∉ Nat.toDigitsCore 10 fuel n ds := by
  induction fuel generalizing n ds with
  | zero => simpa [Nat.toDigitsCore] using h
  | succ fuel ih =>
    have hd : '%' ∉ Nat.digitChar (n % 10) :: ds := by
      intro hm
      rcases List.mem_cons.mp hm with e | e
      · exact digitChar_ne_percent _ e.symm
      · exact h e
    simp only [Nat.toDigitsCore]
    split
    · exact hd
    · exact ih _ _ hd

/-- The decimal text of a number holds no `%`. -/
theorem toString_plain (n : Nat) : '%' ∉ (toString n).data := by
  show '%' ∉ (Nat.repr n).data
  unfold Nat.repr Nat.toDigits
  simpa using toDigitsCore_plain (n + 1) n [] (by simp)

theorem tooMany_plain (n : Nat) :
    Errorf ("Query returns too many objects (found " ++ toString n ++ ", expected 1)")
      = "Query returns too many objects (found " ++ toString n ++ ", expected 1)" := by
  apply Errorf_plain
  simp only [String.data_append, List.mem_append, not_or]
  exact ⟨⟨by decide, toString_plain n⟩, by decide⟩

theorem queryVaultObject_of_results (client : RestClient) (query : String)
    (log log1 : List Call) (results : List Value)
    (h : RedRockQuery client query none log = (.ok results, log1)) :
    queryVaultObject client query log = (queryVaultObject.single results, log1) := by
  simp [queryVaultObject, h]

/-- C9 as stated fails. A query call that succeeds with exactly one result which
is not a mapping (here a number), or is a mapping without a "Row" mapping, makes
`queryVaultObject` panic on its type assertion: it does not succeed. -/
theorem queryVaultObject_counterexample :
    (RedRockQuery (resultsClient [Value.number "1"]) "SELECT 1" none []).1
        = .ok [Value.number "1"]
    ∧ [Value.number "1"].length = 1
    ∧ (queryVaultObject (resultsClient [Value.number "1"]) "SELECT 1" []).1 = .panic
    ∧ (RedRockQuery (resultsClient [Value.object [("ID", Value.str "x")]]) "SELECT 1" none []).1
        = .ok [Value.object [("ID", Value.str "x")]]
    ∧ (queryVaultObject (resultsClient [Value.object [("ID", Value.str "x")]]) "SELECT 1" []).1
        = .panic :=
  ⟨rfl, rfl, rfl, rfl, rfl⟩

/-- C9, amended. For every result list returned by a successful query call:
with no element `queryVaultObject` fails with "Query returns 0 object"; with
n > 1 elements it fails with "Query returns too many objects (found n, expected
1)"; with exactly one element that is a mapping holding a mapping under "Row" it
succeeds and returns that "Row" mapping; and it succeeds in no other case. -/
theorem queryVaultObject_cardinality (client : RestClient) (query : String)
    (log log1 : List Call) (results : List Value)
    (h : RedRockQuery client query none log = (.ok results, log1)) :
    (results.length = 0 →
      queryVaultObject client query log = (.error "Query returns 0 object", log1))
    ∧ (1 < results.length →
      queryVaultObject client query log
        = (.error ("Query returns too many objects (found " ++ toString results.length
            ++ ", expected 1)"), log1))
    ∧ (∀ result row, results = [Value.object result] →
        Value.index result "Row" = Value.object row →
        queryVaultObject client query log = (.ok row, log1))
    ∧ (∀ row, queryVaultObject client query log = (.ok row, log1) →
        ∃ result, results = [Value.object result]
          ∧ Value.index result "Row" = Value.object row) := by
  rw [queryVaultObject_of_results client query log log1 results h]
  refine ⟨?_, ?_, ?_, ?_⟩
  · intro h0
    have he : Errorf "Query returns 0 object" = "Query returns 0 object" := by decide
    simp [queryVaultObject.single, h0, he]
  · intro h1
    have h0 : results.length ≠ 0 := by omega
    simp [queryVaultObject.single, h0, h1, tooMany_plain]
  · intro result row hres hrow
    subst hres
    simp [queryVaultObject.single, hrow]
  · intro row hok
    simp only [Prod.mk.injEq, and_true] at hok
    unfold queryVaultObject.single at hok
    split at hok
    · simp at hok
    · split at hok
      · simp at hok
      · rename_i h0 h1
        match results, h0, h1, hok with
        | [Value.object result], _, _, hok =>
          refine ⟨result, rfl, ?_⟩
          simp only at hok
          split at hok
          · rename_i row2 hrow
            simp only [Ret.ok.injEq] at hok
            rw [hrow, hok]
          · simp at hok
        | [], h0, _, _ => simp at h0
        | _ :: _ :: _, _, h1, _ => simp at h1
        | [Value.null], _, _, hok => simp at hok
        | [Value.bool _], _, _, hok => simp at hok
        | [Value.number _], _, _, hok => simp at hok
        | [Value.str _], _, _, hok => simp at hok
        | [Value.array _], _, _, hok => simp at hok

/-- C9, amended, at a query that returns one row. -/
theorem queryVaultObject_cardinality_witness :
    RedRockQuery (resultsClient [Value.object [("Row", Value.object [("ID", Value.str "x")])]])
        "SELECT 1" none []
      = (.ok [Value.object [("Row", Value.object [("ID", Value.str "x")])]],
         [⟨"/RedRock/query", [("Script", Value.str "SELECT 1"), ("Args", Value.object subArgs)]⟩])
    ∧ queryVaultObject
        (resultsClient [Value.object [("Row", Value.object [("ID", Value.str "x")])]])
        "SELECT 1" []
      = (.ok [("ID", Value.str "x")],
         [⟨"/RedRock/query", [("Script", Value.str "SELECT 1"), ("Args", Value.object subArgs)]⟩]) :=
  ⟨rfl,
   (queryVaultObject_cardinality
      (resultsClient [Value.object [("Row", Value.object [("ID", Value.str "x")])]])
      "SELECT 1" [] _ _ rfl).2.2.1 _ _ rfl rfl⟩

/-! ### Operations on an object without `ID` -/

theorem missingID_text : Errorf ("Missing ID for " ++ GetVarType "int") = "Missing ID for int" := by
  decide

/-- C10, at an input where the code departs from it: a Connector named
"connector1" with an empty `ID`. `Read` and `Update` do not fail with the
missing-identifier error: they return no error (`Update` with a nil response)
and issue no transport call, their bodies being `return nil` and
`return nil, nil`. -/
theorem Connector_Read_Update_empty_ID :
    (exampleConnector (resultsClient []) "").ID = ""
    ∧ (exampleConnector (resultsClient []) "").Name = "connector1"
    ∧ Connector.Read (exampleConnector (resultsClient []) "") []
        = (.ok (), exampleConnector (resultsClient []) "", [])
    ∧ Connector.Update (exampleConnector (resultsClient []) "") []
        = (.ok none, exampleConnector (resultsClient []) "", []) :=
  ⟨rfl, rfl, rfl, rfl⟩

/-- The half of C10 that the code meets: for every Secret with an empty `ID`,
`Read` and `Update` check the `ID` first, fail with the missing-identifier error
(its text, "Missing ID for int", names the type of the `0` handed to
`GetVarType`), issue no transport call and leave the object as it is. `Read` and
`Update` of a Connector have no such check, with or without `ID`. -/
theorem Secret_missing_ID (env : SecretEnv) (o : Secret) (log : List Call) (h : o.ID = "") :
    Secret.Read env o log = (.error "Missing ID for int", o, log)
    ∧ Secret.Update env o log = (.error "Missing ID for int", o, log)
    ∧ ∀ c : Connector,
        Connector.Read c log = (.ok (), c, log) ∧ Connector.Update c log = (.ok none, c, log) := by
  refine ⟨?_, ?_, fun c => ⟨rfl, rfl⟩⟩
  · unfold Secret.Read
    rw [if_pos h, missingID_text]
  · unfold Secret.Update
    rw [if_pos h, missingID_text]

/-- The secret of the example before it has an `ID`: `Read` and `Update` fail
with the missing-identifier error. -/
theorem Secret_missing_ID_witness :
    (exampleSecret (resultsClient []) "").ID = ""
    ∧ Secret.Read exampleEnv (exampleSecret (resultsClient []) "") []
        = (.error "Missing ID for int", exampleSecret (resultsClient []) "", [])
    ∧ Secret.Update exampleEnv (exampleSecret (resultsClient []) "") []
        = (.error "Missing ID for int", exampleSecret (resultsClient []) "", []) :=
  ⟨rfl, (Secret_missing_ID exampleEnv (exampleSecret (resultsClient []) "") [] rfl).1,
   (Secret_missing_ID exampleEnv (exampleSecret (resultsClient []) "") [] rfl).2.1⟩

/-! ### Queries -/

/-- What `queryVaultObject` hands to the transport: one call to "/RedRock/query"
whose `Script` is the query text and whose `Args` are the default ones. -/
theorem queryVaultObject_log (client : RestClient) (query : String) (log : List Call) :
    (queryVaultObject client query log).2
      = log ++ [⟨"/RedRock/query",
          [("Script", Value.str query), ("Args", Value.object subArgs)]⟩] := by
  unfold queryVaultObject RedRockQuery
  simp only []
  cases client.CallGenericMapAPI log
      ⟨"/RedRock/query", [("Script", Value.str query), ("Args", Value.object subArgs)]⟩ with
  | error err => rfl
  | ok resp =>
    simp only []
    cases hs : resp.Success
    · simp
    · simp only [Bool.not_true, Bool.false_eq_true, if_false]
      cases Value.index resp.Result "Results" <;> rfl

/-- C11, at the inputs where the code departs from it. A Connector whose
`VmIdentifier` is set but whose `VpcIdentifier` is empty gets no `VmIdentifier`
clause; one whose `VpcIdentifier` is set but whose `VmIdentifier` is empty gets the
clause " AND VmIdentifier=''". The clause is guarded by `VpcIdentifier`. -/
theorem Connector_queryString_VmIdentifier :
    Connector.queryString { exampleConnector (resultsClient []) "" with VmIdentifier := "vm-1" }
      = "SELECT * FROM Proxy WHERE 1=1 AND Name='connector1'"
    ∧ Connector.queryString
        { exampleConnector (resultsClient []) "" with VpcIdentifier := "vpc-1" }
      = "SELECT * FROM Proxy WHERE 1=1 AND Name='connector1' AND VpcIdentifier='vpc-1'"
          ++ " AND VmIdentifier=''" := by
  decide

/-- The query text of a Connector, clause by clause: the clauses for `Name`,
`Status`, `Version` and `VpcIdentifier` are there exactly when the field is not
empty; the one for `VmIdentifier` exactly when `VpcIdentifier` is not empty. -/
theorem Connector_queryString_eq (o : Connector) :
    Connector.queryString o
      = "SELECT * FROM Proxy WHERE 1=1"
        ++ (if o.Name ≠ "" then " AND Name='" ++ o.Name ++ "'" else "")
        ++ (if o.Status ≠ "" then
              (if o.Status = "Active" then " AND Online=true" else " AND Online=false")
            else "")
        ++ (if o.Version ≠ "" then " AND Version='" ++ o.Version ++ "'" else "")
        ++ (if o.VpcIdentifier ≠ "" then " AND VpcIdentifier='" ++ o.VpcIdentifier ++ "'" else "")
        ++ (if o.VpcIdentifier ≠ "" then " AND VmIdentifier='" ++ o.VmIdentifier ++ "'" else "") := by
  unfold Connector.queryString
  by_cases h1 : o.Name = "" <;> by_cases h2 : o.Status = "" <;> by_cases h3 : o.Version = ""
    <;> by_cases h4 : o.VpcIdentifier = "" <;> by_cases h5 : o.Status = "Active"
    <;> simp [h1, h2, h3, h4, h5, String.append_assoc]

/-- C12. The query text of a Secret is "SELECT * FROM DataVault WHERE 1=1", then
the `SecretName` clause exactly when `SecretName` is not empty, then always the
`ParentPath` clause, and nothing else; `Secret.Query` hands that text, as the
`Script` of one query call, to the transport. -/
theorem Secret_queryString_eq (o : Secret) (log : List Call) :
    Secret.queryString o
      = "SELECT * FROM DataVault WHERE 1=1"
        ++ (if o.SecretName ≠ "" then " AND SecretName='" ++ o.SecretName ++ "'" else "")
        ++ " AND ParentPath='" ++ o.ParentPath ++ "'"
    ∧ (Secret.Query o log).2
        = log ++ [⟨"/RedRock/query",
            [("Script", Value.str (Secret.queryString o)), ("Args", Value.object subArgs)]⟩] := by
  refine ⟨?_, queryVaultObject_log _ _ _⟩
  unfold Secret.queryString
  by_cases h : o.SecretName = "" <;>
    simp only [h, ne_eq, not_true_eq_false, not_false_eq_true, if_true, if_false,
      String.append_assoc, String.append_empty, String.empty_append]

/-! ### Folder resolution -/

/-- The last piece of a split and what stands before it: either there is one
piece, the whole text, or the text ends with the separator followed by the last
piece. -/
theorem splitAux_last (sep : Char) (l cur : List Char) :
    ∃ name : List Char, (splitAux sep l cur).getLast? = some (String.mk name)
      ∧ (((splitAux sep l cur).length = 1 ∧ cur ++ l = name)
          ∨ (1 < (splitAux sep l cur).length ∧ ∃ pre, l = pre ++ sep :: name)) := by
  induction l generalizing cur with
  | nil => exact ⟨cur, by simp [splitAux], Or.inl ⟨by simp [splitAux], by simp⟩⟩
  | cons c cs ih =>
    by_cases hc : c = sep
    · obtain ⟨name, hlast, hcase⟩ := ih []
      refine ⟨name, ?_, Or.inr ⟨?_, ?_⟩⟩
      · simp only [splitAux, hc, if_true]
        rw [List.getLast?_cons, hlast]
        rfl
      · simp only [splitAux, hc, if_true, List.length_cons]
        have := List.length_pos.mpr (splitAux_ne_nil sep cs [])
        omega
      · rcases hcase with ⟨_, h1⟩ | ⟨_, pre, h2⟩
        · exact ⟨[], by simp [hc, ← h1]⟩
        · exact ⟨c :: pre, by simp [h2]⟩
    · obtain ⟨name, hlast, hcase⟩ := ih (cur ++ [c])
      refine ⟨name, ?_, ?_⟩
      · simp only [splitAux, hc, if_false]
        exact hlast
      · simp only [splitAux, hc, if_false]
        rcases hcase with ⟨h0, h1⟩ | ⟨h0, pre, h2⟩
        · exact Or.inl ⟨h0, by simpa using h1⟩
        · exact Or.inr ⟨h0, c :: pre, by simp [h2]⟩

theorem TrimSuffix_append (pre suf : List Char) :
    TrimSuffix (String.mk (pre ++ suf)) (String.mk suf) = String.mk pre := by
  unfold TrimSuffix
  have hs : suf.isSuffixOf (pre ++ suf) = true := by
    rw [List.isSuffixOf_iff_suffix]
    exact List.suffix_append pre suf
  simp only [hs, if_true, List.length_append, Nat.add_sub_cancel]
  rw [List.take_left']
  rfl

/-- The name and the parent path that the folder lookup is given for a path:
the name is the last piece of the path split on the separator; with more than
one piece the parent path followed by the separator and the name is the path,
with one piece the parent path is empty. -/
theorem Split_last_parent (path : String) (sep : Char) :
    (Split path sep).getLast? = some ((Split path sep).getLast?.getD "")
    ∧ (1 < (Split path sep).length →
        TrimSuffix path (String.singleton sep ++ (Split path sep).getLast?.getD "")
          ++ String.singleton sep ++ (Split path sep).getLast?.getD "" = path) := by
  obtain ⟨name, hlast, hcase⟩ := splitAux_last sep path.data []
  unfold Split
  rw [hlast]
  refine ⟨rfl, ?_⟩
  intro hlen
  rcases hcase with ⟨h1, _⟩ | ⟨_, pre, hpre⟩
  · omega
  · have hp : path = String.mk (pre ++ sep :: name) := by
      rw [← hpre]
    have hs : String.singleton sep ++ String.mk name = String.mk (sep :: name) := rfl
    simp only [Option.getD_some, hs]
    rw [hp, TrimSuffix_append]
    apply String.ext
    simp [String.data_append, String.singleton]

/-- When a path is to be resolved, `resolveFolderdID` makes exactly one folder
lookup, for the last piece of the path under the path trimmed of it, writes the
identifier it returns into `FolderID` and returns its error. The path is
`NewParentPath` when that is set, `ParentPath` otherwise. -/
theorem resolveFolderdID_lookup (env : SecretEnv) (o : Secret) (log : List Call)
    (h : o.NewParentPath ≠ "" ∨ (o.FolderID = "" ∧ o.ParentPath ≠ "")) :
    Secret.resolveFolderdID env o log
      = ((env.folderGetIDByName
            ((Split (if o.NewParentPath ≠ "" then o.NewParentPath else o.ParentPath)
              '\\').getLast?.getD "")
            (if 1 < (Split (if o.NewParentPath ≠ "" then o.NewParentPath else o.ParentPath)
                '\\').length
             then TrimSuffix (if o.NewParentPath ≠ "" then o.NewParentPath else o.ParentPath)
               ("\\" ++ (Split (if o.NewParentPath ≠ "" then o.NewParentPath else o.ParentPath)
                 '\\').getLast?.getD "")
             else "") log).1.2,
         { o with
           ParentPath := if o.NewParentPath ≠ "" then o.NewParentPath else o.ParentPath,
           FolderID := (env.folderGetIDByName
            ((Split (if o.NewParentPath ≠ "" then o.NewParentPath else o.ParentPath)
              '\\').getLast?.getD "")
            (if 1 < (Split (if o.NewParentPath ≠ "" then o.NewParentPath else o.ParentPath)
                '\\').length
             then TrimSuffix (if o.NewParentPath ≠ "" then o.NewParentPath else o.ParentPath)
               ("\\" ++ (Split (if o.NewParentPath ≠ "" then o.NewParentPath else o.ParentPath)
                 '\\').getLast?.getD "")
             else "") log).1.1 },
         (env.folderGetIDByName
            ((Split (if o.NewParentPath ≠ "" then o.NewParentPath else o.ParentPath)
              '\\').getLast?.getD "")
            (if 1 < (Split (if o.NewParentPath ≠ "" then o.NewParentPath else o.ParentPath)
                '\\').length
             then TrimSuffix (if o.NewParentPath ≠ "" then o.NewParentPath else o.ParentPath)
               ("\\" ++ (Split (if o.NewParentPath ≠ "" then o.NewParentPath else o.ParentPath)
                 '\\').getLast?.getD "")
             else "") log).2) := by
  unfold Secret.resolveFolderdID
  by_cases hN : o.NewParentPath = ""
  · rcases h with h | ⟨hF, hP⟩
    · exact absurd hN h
    · simp only [hN, ne_eq, not_true_eq_false, if_false, hF, hP, not_false_eq_true, and_self,
        if_true, gt_iff_lt]
      split <;> simp [*]
  · simp only [ne_eq, hN, not_false_eq_true, if_true, and_self, gt_iff_lt]
    split <;> simp [*]

theorem resolveFolderdID_skip (env : SecretEnv) (o : Secret) (log : List Call)
    (hN : o.NewParentPath = "") (hc : ¬ (o.FolderID = "" ∧ o.ParentPath ≠ "")) :
    Secret.resolveFolderdID env o log = (none, o, log) := by
  unfold Secret.resolveFolderdID
  simp only [hN, ne_eq, not_true_eq_false, if_false, hc]

/-- C14. Folder resolution is lazy: with an empty `NewParentPath`, when
`FolderID` is already set or `ParentPath` is empty, `resolveFolderdID` returns no
error, makes no lookup and leaves the object, all fields, as it is. -/
theorem resolveFolderdID_lazy (env : SecretEnv) (o : Secret) (log : List Call)
    (hN : o.NewParentPath = "") (h : o.FolderID ≠ "" ∨ o.ParentPath = "") :
    Secret.resolveFolderdID env o log = (none, o, log) := by
  apply resolveFolderdID_skip env o log hN
  rintro ⟨h1, h2⟩
  rcases h with h | h
  · exact h h1
  · exact h2 h

/-- C14, at a secret that already has its `FolderID`, and at one without path. -/
theorem resolveFolderdID_lazy_witness :
    Secret.resolveFolderdID exampleEnv
        { exampleSecret (resultsClient []) "id1" with FolderID := "F-1" } []
      = (none, { exampleSecret (resultsClient []) "id1" with FolderID := "F-1" }, [])
    ∧ Secret.resolveFolderdID exampleEnv
        { exampleSecret (resultsClient []) "id1" with ParentPath := "" } []
      = (none, { exampleSecret (resultsClient []) "id1" with ParentPath := "" }, []) :=
  ⟨resolveFolderdID_lazy exampleEnv _ [] rfl (Or.inl (by decide)),
   resolveFolderdID_lazy exampleEnv _ [] rfl (Or.inr rfl)⟩

/-- C13. When the folder path of a Secret is resolved (`FolderID` empty and
`ParentPath` not empty, or a `NewParentPath` that takes its place), the folder
looked up has as `Name` the last backslash-separated piece of the path; with
more than one piece its `ParentPath` followed by "\" and the name is the path,
with a single piece its `ParentPath` is empty. -/
theorem resolveFolderdID_segments (env : SecretEnv) (o : Secret) (log : List Call)
    (h : o.NewParentPath ≠ "" ∨ (o.FolderID = "" ∧ o.ParentPath ≠ "")) :
    ∃ name parent : String,
      (Split (if o.NewParentPath ≠ "" then o.NewParentPath else o.ParentPath) '\\').getLast?
        = some name
      ∧ (1 < (Split (if o.NewParentPath ≠ "" then o.NewParentPath else o.ParentPath)
              '\\').length →
          parent ++ "\\" ++ name
            = (if o.NewParentPath ≠ "" then o.NewParentPath else o.ParentPath))
      ∧ ((Split (if o.NewParentPath ≠ "" then o.NewParentPath else o.ParentPath) '\\').length = 1
          → parent = "")
      ∧ Secret.resolveFolderdID env o log
          = ((env.folderGetIDByName name parent log).1.2,
             { o with
               ParentPath := if o.NewParentPath ≠ "" then o.NewParentPath else o.ParentPath,
               FolderID := (env.folderGetIDByName name parent log).1.1 },
             (env.folderGetIDByName name parent log).2) := by
  have hl := resolveFolderdID_lookup env o log h
  generalize (if o.NewParentPath ≠ "" then o.NewParentPath else o.ParentPath) = path at hl ⊢
  obtain ⟨h1, h2⟩ := Split_last_parent path '\\'
  refine ⟨(Split path '\\').getLast?.getD "",
    if 1 < (Split path '\\').length
      then TrimSuffix path ("\\" ++ (Split path '\\').getLast?.getD "") else "",
    h1, ?_, ?_, hl⟩
  · intro hlen
    rw [if_pos hlen]
    exact h2 hlen
  · intro hlen
    rw [if_neg (by omega)]

/-- C13, at the path "folder1\folder2\folder3": the lookup is for "folder3"
under the parent "folder1\folder2". -/
theorem resolveFolderdID_segments_witness :
    (({ exampleSecret (resultsClient []) "" with ParentPath := "folder1\\folder2\\folder3" }
        : Secret).NewParentPath ≠ ""
      ∨ (({ exampleSecret (resultsClient []) "" with ParentPath := "folder1\\folder2\\folder3" }
          : Secret).FolderID = ""
        ∧ ({ exampleSecret (resultsClient []) "" with ParentPath := "folder1\\folder2\\folder3" }
          : Secret).ParentPath ≠ ""))
    ∧ (∃ name parent : String,
        (Split "folder1\\folder2\\folder3" '\\').getLast? = some name
        ∧ (1 < (Split "folder1\\folder2\\folder3" '\\').length →
            parent ++ "\\" ++ name = "folder1\\folder2\\folder3")
        ∧ ((Split "folder1\\folder2\\folder3" '\\').length = 1 → parent = "")
        ∧ Secret.resolveFolderdID exampleEnv
            { exampleSecret (resultsClient []) "" with ParentPath := "folder1\\folder2\\folder3" }
            []
          = ((exampleEnv.folderGetIDByName name parent []).1.2,
             { exampleSecret (resultsClient []) "" with
               ParentPath := "folder1\\folder2\\folder3",
               FolderID := (exampleEnv.folderGetIDByName name parent []).1.1 },
             (exampleEnv.folderGetIDByName name parent []).2))
    ∧ (Secret.resolveFolderdID exampleEnv
        { exampleSecret (resultsClient []) "" with ParentPath := "folder1\\folder2\\folder3" }
        []).2.2.map (fun c => c.args.map (fun e => match e.2 with
          | Value.str s => (e.1, s)
          | _ => (e.1, "")))
      = [[("Name", "folder3"), ("ParentPath", "folder1\\folder2")]] :=
  ⟨Or.inr ⟨rfl, by decide⟩,
   resolveFolderdID_segments exampleEnv
     { exampleSecret (resultsClient []) "" with ParentPath := "folder1\\folder2\\folder3" } []
     (Or.inr ⟨rfl, by decide⟩),
   by decide⟩

/-- C15. A redirect path takes precedence and drops the cached identifier: with
a `NewParentPath` that is not empty, whatever `FolderID` and `ParentPath` held,
a lookup is made for `NewParentPath`, and `resolveFolderdID` ends, when it
succeeds and also when the lookup fails, with `ParentPath` equal to
`NewParentPath` and `FolderID` equal to the identifier that this lookup
returned; it succeeds exactly when the lookup does. -/
theorem resolveFolderdID_redirect (env : SecretEnv) (o : Secret) (log : List Call)
    (hN : o.NewParentPath ≠ "") :
    (Secret.resolveFolderdID env o log).1
        = (env.folderGetIDByName ((Split o.NewParentPath '\\').getLast?.getD "")
            (if 1 < (Split o.NewParentPath '\\').length
             then TrimSuffix o.NewParentPath
               ("\\" ++ (Split o.NewParentPath '\\').getLast?.getD "")
             else "") log).1.2
    ∧ (Secret.resolveFolderdID env o log).2.1.ParentPath = o.NewParentPath
    ∧ (Secret.resolveFolderdID env o log).2.1.FolderID
        = (env.folderGetIDByName ((Split o.NewParentPath '\\').getLast?.getD "")
            (if 1 < (Split o.NewParentPath '\\').length
             then TrimSuffix o.NewParentPath
               ("\\" ++ (Split o.NewParentPath '\\').getLast?.getD "")
             else "") log).1.1
    ∧ (Secret.resolveFolderdID env o log).2.2
        = (env.folderGetIDByName ((Split o.NewParentPath '\\').getLast?.getD "")
            (if 1 < (Split o.NewParentPath '\\').length
             then TrimSuffix o.NewParentPath
               ("\\" ++ (Split o.NewParentPath '\\').getLast?.getD "")
             else "") log).2 := by
  have hl := resolveFolderdID_lookup env o log (Or.inl hN)
  simp only [ne_eq, hN, not_false_eq_true, if_true] at hl
  rw [hl]
  exact ⟨rfl, rfl, rfl, rfl⟩

/-- C15, at a secret moved to "folder1" that held the identifier of another
folder. -/
theorem resolveFolderdID_redirect_witness :
    ({ exampleSecret (resultsClient []) "id1" with
        FolderID := "F-old", NewParentPath := "folder1" } : Secret).NewParentPath ≠ ""
    ∧ (Secret.resolveFolderdID exampleEnv
        { exampleSecret (resultsClient []) "id1" with
          FolderID := "F-old", NewParentPath := "folder1" } []).1 = none
    ∧ (Secret.resolveFolderdID exampleEnv
        { exampleSecret (resultsClient []) "id1" with
          FolderID := "F-old", NewParentPath := "folder1" } []).2.1.ParentPath = "folder1"
    ∧ (Secret.resolveFolderdID exampleEnv
        { exampleSecret (resultsClient []) "id1" with
          FolderID := "F-old", NewParentPath := "folder1" } []).2.1.FolderID = "F-folder1" :=
  ⟨by decide, by decide,
   (resolveFolderdID_redirect exampleEnv
      { exampleSecret (resultsClient []) "id1" with
        FolderID := "F-old", NewParentPath := "folder1" } [] (by decide)).2.1,
   (resolveFolderdID_redirect exampleEnv
      { exampleSecret (resultsClient []) "id1" with
        FolderID := "F-old", NewParentPath := "folder1" } [] (by decide)).2.2.1⟩

/-! ### `Secret.Create` and the failure envelope -/

theorem lookup_filter_ne (m : List (String × Value)) (key k : String) (h : k ≠ key) :
    (m.filter (fun e => e.1 ≠ key)).lookup k = m.lookup k := by
  induction m with
  | nil => rfl
  | cons e rest ih =>
    obtain ⟨k2, v2⟩ := e
    by_cases hk2 : k2 = key
    · have hne : (k == key) = false := by simpa using h
      subst hk2
      simp only [List.filter, ne_eq, not_true_eq_false, decide_False, List.lookup, hne]
      simpa using ih
    · by_cases hkk : k = k2
      · simp [List.filter, hk2, List.lookup, hkk]
      · have hne : (k == k2) = false := by simpa using hkk
        simp only [List.filter, ne_eq, hk2, not_false_eq_true, decide_True, List.lookup, hne]
        simpa using ih

/-- Reading a mapping after `m[key] = value`: the value under `key`, the mapping
as it was under every other key. -/
theorem assign_lookup (m : List (String × Value)) (key : String) (value : Value) (k : String) :
    (Value.assign m key value).lookup k = if k = key then some value else m.lookup k := by
  unfold Value.assign
  by_cases h : k = key
  · simp [List.lookup, h]
  · have hne : (k == key) = false := by simpa using h
    simp only [List.lookup, hne, h, if_false]
    exact lookup_filter_ne m key k h

/-- C16. When the folder resolution of a Secret succeeds and the create call
returns a success envelope, `Create` writes the result of the envelope into the
`ID` of the object and returns that envelope; the one request it sent, to the
create path, is the wire map of the object (as the folder resolution left it)
with "updateChallenges" set to false. -/
theorem Secret_Create_ok (env : SecretEnv) (o o1 : Secret) (log log1 : List Call)
    (resp : StringResponse)
    (hres : Secret.resolveFolderdID env o log = (none, o1, log1))
    (hcall : o1.client.CallStringAPI log1
        ⟨o1.apiCreate, Value.assign (Secret.marshal env o1) "updateChallenges" (Value.bool false)⟩
      = .ok resp)
    (hsucc : resp.Success = true) :
    Secret.Create env o log
      = (.ok resp, { o1 with ID := resp.Result },
         log1 ++ [⟨o1.apiCreate,
           Value.assign (Secret.marshal env o1) "updateChallenges" (Value.bool false)⟩])
    ∧ (Secret.Create env o log).2.1.ID = resp.Result
    ∧ ∀ k, (Value.assign (Secret.marshal env o1) "updateChallenges" (Value.bool false)).lookup k
        = if k = "updateChallenges" then some (Value.bool false)
          else (Secret.marshal env o1).lookup k := by
  have h : Secret.Create env o log
      = (.ok resp, { o1 with ID := resp.Result },
         log1 ++ [⟨o1.apiCreate,
           Value.assign (Secret.marshal env o1) "updateChallenges" (Value.bool false)⟩]) := by
    unfold Secret.Create
    simp only [hres, generateRequestMap, hcall, hsucc, Bool.not_true, Bool.false_eq_true,
      if_false]
  refine ⟨h, ?_, fun k => assign_lookup _ _ _ k⟩
  rw [h]

/-- C16, at the secret of the example: created under "folder1\folder2" by a
transport that answers with the identifier "new-id". -/
theorem Secret_Create_ok_witness :
    Secret.resolveFolderdID exampleEnv (exampleSecret (successClient "new-id") "") []
      = (none, { exampleSecret (successClient "new-id") "" with FolderID := "F-folder2" },
         [⟨"folder", [("Name", Value.str "folder2"), ("ParentPath", Value.str "folder1")]⟩])
    ∧ (Secret.Create exampleEnv (exampleSecret (successClient "new-id") "") []).2.1.ID = "new-id"
    ∧ (Secret.Create exampleEnv (exampleSecret (successClient "new-id") "") []).2.2.map
          (fun c => (c.method, c.args.map (fun e => e.1)))
        = [("folder", ["Name", "ParentPath"]),
           ("/ServerManage/AddSecret",
            ["updateChallenges", "SecretName", "SecretText", "Type", "FolderId", "ParentPath",
             "DataVaultDefaultProfile"])] :=
  ⟨by rfl,
   (Secret_Create_ok exampleEnv (exampleSecret (successClient "new-id") "")
      { exampleSecret (successClient "new-id") "" with FolderID := "F-folder2" } []
      [⟨"folder", [("Name", Value.str "folder2"), ("ParentPath", Value.str "folder1")]⟩]
      { Success := true, Result := "new-id", Message := "", Exception := "" }
      (by rfl) rfl rfl).2.1,
   by decide⟩

theorem resolveFolderdID_ID (env : SecretEnv) (o : Secret) (log : List Call) :
    (Secret.resolveFolderdID env o log).2.1.ID = o.ID := by
  by_cases h : o.NewParentPath ≠ "" ∨ (o.FolderID = "" ∧ o.ParentPath ≠ "")
  · rw [resolveFolderdID_lookup env o log h]
  · rw [resolveFolderdID_skip env o log (by
      by_contra hN
      exact h (Or.inl hN)) (fun hc => h (Or.inr hc))]

/-- What `Read`, `Create`, `Update` and `MoveSecret` of a Secret return when the
transport answers with an envelope whose success indicator is false: the error
made by `fmt.Errorf` from the message text, a space and the exception text taken
as a format, which is that very text when it holds no `%`; the object is left
as it stood before the call, so `Create` leaves the `ID` unchanged. -/
theorem Secret_failure_envelope (env : SecretEnv) (o o1 : Secret) (log log1 : List Call) :
    (∀ resp : GenericMapResponse, o.ID ≠ "" →
      o.client.CallGenericMapAPI log ⟨o.apiRead, [("ID", Value.str o.ID)]⟩ = .ok resp →
      resp.Success = false →
      Secret.Read env o log
        = (.error (Errorf (resp.Message ++ " " ++ resp.Exception)), o,
           log ++ [⟨o.apiRead, [("ID", Value.str o.ID)]⟩]))
    ∧ (∀ resp : StringResponse, Secret.resolveFolderdID env o log = (none, o1, log1) →
      o1.client.CallStringAPI log1
        ⟨o1.apiCreate, Value.assign (Secret.marshal env o1) "updateChallenges" (Value.bool false)⟩
        = .ok resp →
      resp.Success = false →
      Secret.Create env o log
        = (.error (Errorf (resp.Message ++ " " ++ resp.Exception)), o1,
           log1 ++ [⟨o1.apiCreate,
             Value.assign (Secret.marshal env o1) "updateChallenges" (Value.bool false)⟩])
      ∧ o1.ID = o.ID)
    ∧ (∀ resp : GenericMapResponse, o.ID ≠ "" →
      Secret.resolveFolderdID env o log = (none, o1, log1) →
      o1.client.CallGenericMapAPI log1
        ⟨o1.apiUpdate, Value.assign (Secret.marshal env o1) "updateChallenges" (Value.bool true)⟩
        = .ok resp →
      resp.Success = false →
      Secret.Update env o log
        = (.error (Errorf (resp.Message ++ " " ++ resp.Exception)), o1,
           log1 ++ [⟨o1.apiUpdate,
             Value.assign (Secret.marshal env o1) "updateChallenges" (Value.bool true)⟩]))
    ∧ (∀ resp : BoolResponse, o.ID ≠ "" →
      o.client.CallBoolAPI log
        ⟨o.apiMoveSecret, [("ID", Value.str o.ID), ("targetFolderId", Value.str o.FolderID)]⟩
        = .ok resp →
      resp.Success = false →
      Secret.MoveSecret o log
        = (.error (Errorf (resp.Message ++ " " ++ resp.Exception)), o,
           log ++ [⟨o.apiMoveSecret,
             [("ID", Value.str o.ID), ("targetFolderId", Value.str o.FolderID)]⟩]))
    ∧ (∀ message exception : String, '%' ∉ message.data → '%' ∉ exception.data →
      Errorf (message ++ " " ++ exception) = message ++ " " ++ exception) := by
  refine ⟨?_, ?_, ?_, ?_, ?_⟩
  · intro resp hID hcall hs
    unfold Secret.Read
    simp only [hID, if_false, hcall, hs, Bool.not_false, if_true]
  · intro resp hres hcall hs
    refine ⟨?_, ?_⟩
    · unfold Secret.Create
      simp only [hres, generateRequestMap, hcall, hs, Bool.not_false, if_true]
    · have h := resolveFolderdID_ID env o log
      rw [hres] at h
      exact h
  · intro resp hID hres hcall hs
    unfold Secret.Update
    unfold Value.assign at hcall
    simp only [hID, if_false, hres, generateRequestMap, hcall, hs, Bool.not_false, if_true,
      Value.assign]
  · intro resp hID hcall hs
    unfold Secret.MoveSecret
    simp only [hID, if_false, hcall, hs, Bool.not_false, if_true]
  · intro message exception hm he
    apply Errorf_plain
    simp only [String.data_append, List.mem_append, not_or]
    exact ⟨⟨hm, by decide⟩, he⟩

/-- C17, at an input where the code departs from it: the transport answers
every call with the failure envelope whose message is "Quota 100% used" and
whose exception is "E1". `Read`, `Create`, `Update` and `MoveSecret` return an
error, and `Create` leaves the `ID` as it was, but the text of the error is not
"Quota 100% used E1": it went through `fmt.Errorf` as a format. -/
theorem Secret_failure_percent :
    (Secret.Read exampleEnv (exampleSecret (failureClient "Quota 100% used" "E1") "id1") []).1
      = .error "Quota 100%!u(MISSING)sed E1"
    ∧ (Secret.Create exampleEnv (exampleSecret (failureClient "Quota 100% used" "E1") "") []).1
      = .error "Quota 100%!u(MISSING)sed E1"
    ∧ (Secret.Create exampleEnv
        (exampleSecret (failureClient "Quota 100% used" "E1") "") []).2.1.ID = ""
    ∧ (Secret.Update exampleEnv (exampleSecret (failureClient "Quota 100% used" "E1") "id1") []).1
      = .error "Quota 100%!u(MISSING)sed E1"
    ∧ (Secret.MoveSecret (exampleSecret (failureClient "Quota 100% used" "E1") "id1") []).1
      = .error "Quota 100%!u(MISSING)sed E1"
    ∧ "Quota 100%!u(MISSING)sed E1" ≠ "Quota 100% used" ++ " " ++ "E1" :=
  ⟨rfl, rfl, rfl, rfl, rfl, by decide⟩

/-! ### Marshalling by the tags -/

section Marshal

variable {α : Type}

/-- Every key of the configuration map is the `schema` key of a field. -/
theorem schemaMarshal_mem (fields : List (Field α)) (a : α) (e : String × Value)
    (h : e ∈ schemaMarshal fields a) :
    ∃ f ∈ fields, f.schema = some e.1 ∧ f.encodeSchema a = some e.2 := by
  unfold schemaMarshal at h
  obtain ⟨f, hf, hfe⟩ := List.mem_filterMap.mp h
  refine ⟨f, hf, ?_⟩
  cases hs : f.schema with
  | none => simp [hs] at hfe
  | some k =>
    cases hv : f.encodeSchema a with
    | none => simp [hs, hv] at hfe
    | some v =>
      simp only [hs, hv, Option.some.injEq] at hfe
      rw [← hfe]
      exact ⟨rfl, rfl⟩

/-- Every entry of the wire map is the `json` key of a field with the value
that the field writes. -/
theorem jsonMarshal_mem (fields : List (Field α)) (a : α) (e : String × Value)
    (h : e ∈ jsonMarshal fields a) :
    ∃ f ∈ fields, f.json = some e.1 ∧ f.encodeJSON a = some e.2 := by
  unfold jsonMarshal at h
  obtain ⟨f, hf, hfe⟩ := List.mem_filterMap.mp h
  refine ⟨f, hf, ?_⟩
  cases hs : f.json with
  | none => simp [hs] at hfe
  | some k =>
    cases hv : f.encodeJSON a with
    | none => simp [hs, hv] at hfe
    | some v =>
      simp only [hs, hv, Option.some.injEq] at hfe
      rw [← hfe]
      exact ⟨rfl, rfl⟩

theorem jsonMarshal_of_mem (fields : List (Field α)) (a : α) (f : Field α) (k : String)
    (v : Value) (hf : f ∈ fields) (hk : f.json = some k) (hv : f.encodeJSON a = some v) :
    (k, v) ∈ jsonMarshal fields a := by
  unfold jsonMarshal
  exact List.mem_filterMap.mpr ⟨f, hf, by simp [hk, hv]⟩

/-- Two structs on which every field writes the same under its `schema` key have
the same configuration map. -/
theorem schemaMarshal_congr (fields : List (Field α)) (a b : α)
    (h : ∀ f ∈ fields, f.schema ≠ none → f.encodeSchema a = f.encodeSchema b) :
    schemaMarshal fields a = schemaMarshal fields b := by
  unfold schemaMarshal
  apply List.filterMap_congr
  intro f hf
  cases hs : f.schema with
  | none => rfl
  | some k => rw [h f hf (by simp [hs])]

end Marshal

/-- What the fields declared by `Connector` write under their `schema` keys does
not depend on `Status`. -/
theorem Connector_ownFields_Status (c : Connector) (s : String) :
    ∀ f ∈ Connector.ownFields, f.encodeSchema { c with Status := s } = f.encodeSchema c := by
  intro f hf
  simp only [Connector.ownFields, List.mem_cons, List.mem_singleton, List.not_mem_nil,
    or_false] at hf
  rcases hf with rfl | rfl | rfl | rfl | rfl | rfl | rfl | rfl | rfl | rfl | rfl | rfl | rfl | rfl
  all_goals rfl

/-- What the fields declared by `Secret` write under their `schema` keys does not
depend on `NewParentPath`. -/
theorem Secret_ownFields_NewParentPath (d : Declarations) (o : Secret) (s : String) :
    ∀ f ∈ Secret.ownFields d,
      f.encodeSchema { o with NewParentPath := s } = f.encodeSchema o := by
  intro f hf
  simp only [Secret.ownFields, List.mem_cons, List.mem_singleton, List.not_mem_nil,
    or_false] at hf
  rcases hf with rfl | rfl | rfl | rfl | rfl | rfl | rfl | rfl | rfl
  all_goals rfl

/-- C18. `GenerateSchemaMap` is a strict allow-list. Every key of its output is
the `schema` key of a field of the struct, and its output does not depend on a
field without `schema` tag: two Connectors that differ only in `Status`, and two
Secrets that differ only in `NewParentPath`, give the same configuration map,
whatever those fields hold. -/
theorem GenerateSchemaMap_allow_list (d : Declarations) :
    (∀ (c : Connector) (m : List (String × Value)),
        GenerateSchemaMap (Connector.fields d.vaultObject) c = .ok m →
        ∀ e ∈ m, ∃ f ∈ Connector.fields d.vaultObject, f.schema = some e.1)
    ∧ (∀ (o : Secret) (m : List (String × Value)),
        GenerateSchemaMap (Secret.fields d) o = .ok m →
        ∀ e ∈ m, ∃ f ∈ Secret.fields d, f.schema = some e.1)
    ∧ (∀ (c : Connector) (s : String),
        GenerateSchemaMap (Connector.fields d.vaultObject) { c with Status := s }
          = GenerateSchemaMap (Connector.fields d.vaultObject) c)
    ∧ (∀ (o : Secret) (s : String),
        GenerateSchemaMap (Secret.fields d) { o with NewParentPath := s }
          = GenerateSchemaMap (Secret.fields d) o)
    ∧ (∀ c : Connector, ∀ e ∈ schemaMarshal Connector.ownFields c, e.1 ∈ Connector.ownSchema)
    ∧ (∀ o : Secret, ∀ e ∈ schemaMarshal (Secret.ownFields d) o, e.1 ∈ Secret.ownSchema) := by
  refine ⟨?_, ?_, ?_, ?_, ?_, ?_⟩
  · intro c m hm e he
    simp only [GenerateSchemaMap, Except.ok.injEq] at hm
    rw [← hm] at he
    obtain ⟨f, hf, hs, _⟩ := schemaMarshal_mem _ _ _ he
    exact ⟨f, hf, hs⟩
  · intro o m hm e he
    simp only [GenerateSchemaMap, Except.ok.injEq] at hm
    rw [← hm] at he
    obtain ⟨f, hf, hs, _⟩ := schemaMarshal_mem _ _ _ he
    exact ⟨f, hf, hs⟩
  · intro c s
    unfold GenerateSchemaMap
    rw [schemaMarshal_congr]
    intro f hf hs
    rcases List.mem_append.mp hf with h | h
    · obtain ⟨g, _, rfl⟩ := List.mem_map.mp h
      rfl
    · exact Connector_ownFields_Status c s f h
  · intro o s
    unfold GenerateSchemaMap
    rw [schemaMarshal_congr]
    intro f hf hs
    rcases List.mem_append.mp hf with h | h
    · obtain ⟨g, _, rfl⟩ := List.mem_map.mp h
      rfl
    · exact Secret_ownFields_NewParentPath d o s f h
  · intro c e he
    obtain ⟨f, hf, hs, _⟩ := schemaMarshal_mem _ _ _ he
    simp only [Connector.ownFields, List.mem_cons, List.mem_singleton, List.not_mem_nil,
      or_false] at hf
    rcases hf with rfl | rfl | rfl | rfl | rfl | rfl | rfl | rfl | rfl | rfl | rfl | rfl | rfl
      | rfl
    all_goals simp [stringField, boolField, Connector.ownSchema] at hs ⊢
    all_goals simp [← hs]
  · intro o e he
    obtain ⟨f, hf, hs, _⟩ := schemaMarshal_mem _ _ _ he
    simp only [Secret.ownFields, List.mem_cons, List.mem_singleton, List.not_mem_nil,
      or_false] at hf
    rcases hf with rfl | rfl | rfl | rfl | rfl | rfl | rfl | rfl | rfl
    all_goals simp [stringField, stringsField, Secret.rulesField, Secret.ownSchema] at hs ⊢
    all_goals simp [← hs]

/-- Witness for C18: a Connector with `Status` set to "Active" gives the
configuration map of the same Connector with empty `Status`, which holds the
keys "id" and "name" and no other. -/
theorem GenerateSchemaMap_allow_list_witness :
    GenerateSchemaMap (Connector.fields (exampleDeclarations "Connector").vaultObject)
        { exampleConnector (successClient "x") "c1" with Status := "Active" }
      = GenerateSchemaMap (Connector.fields (exampleDeclarations "Connector").vaultObject)
          (exampleConnector (successClient "x") "c1")
    ∧ GenerateSchemaMap (Connector.fields (exampleDeclarations "Connector").vaultObject)
        (exampleConnector (successClient "x") "c1")
      = .ok [("id", Value.str "c1"), ("name", Value.str "connector1")] :=
  ⟨(GenerateSchemaMap_allow_list (exampleDeclarations "Connector")).2.2.1
    (exampleConnector (successClient "x") "c1") "Active", rfl⟩

/-! ### Decoding by the tags -/

section Unmarshal

variable {α β : Type}

/-- A key that is exactly the `json` key of a field is decoded into the first
field with that key. -/
theorem findField_exact (fields : List (Field α)) (k : String) (f : Field α)
    (hf : f ∈ fields) (hk : f.json = some k) :
    ∃ g ∈ fields, g.json = some k ∧ findField fields k = some g := by
  unfold findField
  cases hfind : fields.find? (fun f => f.json == some k) with
  | none =>
    have hnone := List.find?_eq_none.mp hfind f hf
    simp [hk] at hnone
  | some g =>
    have hg := List.find?_some hfind
    have hmem := List.mem_of_find?_eq_some hfind
    exact ⟨g, hmem, by simpa using hg, rfl⟩

theorem step_of_findField (fields : List (Field α)) (s : α × Option String)
    (e : String × Value) (g : Field α) (h : findField fields e.1 = some g) :
    jsonUnmarshal.step fields s e
      = ((g.decode s.1 e.2).1,
         match s.2 with
         | some err => some err
         | none => (g.decode s.1 e.2).2) := by
  unfold jsonUnmarshal.step
  rw [h]

/-- An observation of the struct that every entry under the key `K` sets to the
target, and that the entries under other keys leave alone, ends at the target
if it starts there or if some entry stands under `K`. -/
theorem foldl_step_obs (fields : List (Field α)) (obs : α → β) (target : β) (K : String)
    (L : List (String × Value)) (s0 : α × Option String)
    (hset : ∀ s e, e ∈ L → e.1 = K → obs (jsonUnmarshal.step fields s e).1 = target)
    (hkeep : ∀ s e, e ∈ L → e.1 ≠ K → obs (jsonUnmarshal.step fields s e).1 = obs s.1)
    (h0 : obs s0.1 = target ∨ ∃ e ∈ L, e.1 = K) :
    obs (L.foldl (jsonUnmarshal.step fields) s0).1 = target := by
  induction L generalizing s0 with
  | nil =>
    rcases h0 with h | ⟨e, he, _⟩
    · exact h
    · simp at he
  | cons e rest ih =>
    rw [List.foldl_cons]
    apply ih
    · intro s e2 he2 hk
      exact hset s e2 (List.mem_cons_of_mem _ he2) hk
    · intro s e2 he2 hk
      exact hkeep s e2 (List.mem_cons_of_mem _ he2) hk
    · by_cases hk : e.1 = K
      · exact Or.inl (hset s0 e (List.mem_cons_self _ _) hk)
      · rcases h0 with h | ⟨e2, he2, hk2⟩
        · left
          rw [hkeep s0 e (List.mem_cons_self _ _) hk]
          exact h
        · right
          rcases List.mem_cons.mp he2 with h | h
          · rw [h] at hk2
            exact absurd hk2 hk
          · exact ⟨e2, h, hk2⟩

/-- The error that `json.Unmarshal` returns is the first that a step reports: if
every step, taken without an earlier error, reports none or one with the
property `Q`, the error returned is none or has the property `Q`. -/
theorem foldl_step_error (fields : List (Field α)) (Q : Option String → Prop)
    (L : List (String × Value)) (s0 : α × Option String)
    (hstep : ∀ s e, e ∈ L → s.2 = none →
      (jsonUnmarshal.step fields s e).2 = none ∨ Q (jsonUnmarshal.step fields s e).2)
    (h0 : s0.2 = none ∨ Q s0.2) :
    (L.foldl (jsonUnmarshal.step fields) s0).2 = none
      ∨ Q (L.foldl (jsonUnmarshal.step fields) s0).2 := by
  induction L generalizing s0 with
  | nil => exact h0
  | cons e rest ih =>
    rw [List.foldl_cons]
    apply ih
    · intro s e2 he2 hs
      exact hstep s e2 (List.mem_cons_of_mem _ he2) hs
    · cases hs : s0.2 with
      | none => exact hstep s0 e (List.mem_cons_self _ _) hs
      | some err =>
        have hkeep : (jsonUnmarshal.step fields s0 e).2 = s0.2 := by
          unfold jsonUnmarshal.step
          cases findField fields e.1 with
          | none => rfl
          | some g => simp [hs]
        rw [hkeep]
        rcases h0 with h | h
        · rw [hs] at h
          simp at h
        · exact Or.inr h

/-- A type mismatch is reported: when some entry of the mapping goes to a field
whose decoding of the value gives a type error whatever the struct holds,
`json.Unmarshal` returns an error. -/
theorem jsonUnmarshal_error (fields : List (Field α)) (a : α) (m : List (String × Value))
    (e : String × Value) (g : Field α) (he : e ∈ m) (hg : findField fields e.1 = some g)
    (hbad : ∀ x, (g.decode x e.2).2 ≠ none) :
    (jsonUnmarshal fields a m).2 ≠ none := by
  unfold jsonUnmarshal
  generalize (a, (none : Option String)) = s0
  induction m generalizing s0 with
  | nil => simp at he
  | cons e2 rest ih =>
    rw [List.foldl_cons]
    rcases List.mem_cons.mp he with h | h
    · subst h
      have h1 : (jsonUnmarshal.step fields s0 e).2 ≠ none := by
        rw [step_of_findField fields s0 e g hg]
        cases hs : s0.2 with
        | none => exact hbad s0.1
        | some err => simp
      have hq := foldl_step_error fields (fun x => x ≠ none) rest
        (jsonUnmarshal.step fields s0 e) (fun s e3 _ hs => by
          by_cases hx : (jsonUnmarshal.step fields s e3).2 = none
          · exact Or.inl hx
          · exact Or.inr hx) (Or.inr h1)
      rcases hq with hq | hq
      · exfalso
        have hstick : ∀ (L : List (String × Value)) (s : α × Option String), s.2 ≠ none →
            (L.foldl (jsonUnmarshal.step fields) s).2 ≠ none := by
          intro L
          induction L with
          | nil => intro s hs; exact hs
          | cons e3 rest3 ih3 =>
            intro s hs
            rw [List.foldl_cons]
            apply ih3
            unfold jsonUnmarshal.step
            cases findField fields e3.1 with
            | none => exact hs
            | some g3 =>
              cases hs2 : s.2 with
              | none => exact absurd hs2 hs
              | some err => simp
        exact hstick rest _ h1 hq
      · exact hq
    · exact ih h _

end Unmarshal

/-! ### The wire mapping of a Connector, there and back -/

/-- A promoted field carries a `json` key only if the embedded field carries it
and `Connector` declares no field with that key. -/
theorem Connector_promote_json (g : Field vaultObject) (k : String)
    (h : (Field.promote (fun (c : Connector) => c.tovaultObject)
      (fun c v => { c with tovaultObject := v }) Connector.ownJSON Connector.ownSchema g).json
        = some k) :
    g.json = some k ∧ k ∉ Connector.ownJSON := by
  unfold Field.promote at h
  cases hg : g.json with
  | none => simp [hg] at h
  | some k2 =>
    simp only [hg] at h
    by_cases hk : k2 ∈ Connector.ownJSON
    · simp [hk] at h
    · simp only [hk, if_false] at h
      cases h
      exact ⟨rfl, hk⟩

/-- The `json` keys of the fields declared by `Connector` are those of the list
`Connector.ownJSON`. -/
theorem Connector_ownFields_json (F : Field Connector) (k : String)
    (hF : F ∈ Connector.ownFields) (hk : F.json = some k) : k ∈ Connector.ownJSON := by
  simp only [Connector.ownFields, List.mem_cons, List.mem_singleton, List.not_mem_nil,
    or_false] at hF
  rcases hF with rfl | rfl | rfl | rfl | rfl | rfl | rfl | rfl | rfl | rfl | rfl | rfl | rfl
    | rfl
  all_goals simp [stringField, boolField, Connector.ownJSON] at hk ⊢
  all_goals simp [← hk]

/-- A field of a Connector with a key of `Connector.ownJSON` is one that
`Connector` declares. -/
theorem Connector_fields_own (emb : List (Field vaultObject)) (F : Field Connector)
    (k : String) (hF : F ∈ Connector.fields emb) (hk : F.json = some k)
    (hown : k ∈ Connector.ownJSON) : F ∈ Connector.ownFields := by
  rcases List.mem_append.mp hF with h | h
  · obtain ⟨g, _, rfl⟩ := List.mem_map.mp h
    exact absurd hown (Connector_promote_json g k hk).2
  · exact h

/-- What a field declared by `Connector` writes under its `json` key is the
value of the field as `Connector.getJSON` gives it. -/
theorem Connector_ownFields_encode (F : Field Connector) (k : String) (c : Connector)
    (v : Value) (hF : F ∈ Connector.ownFields) (hk : F.json = some k)
    (hv : F.encodeJSON c = some v) : Connector.getJSON c k = some v := by
  simp only [Connector.ownFields, List.mem_cons, List.mem_singleton, List.not_mem_nil,
    or_false] at hF
  rcases hF with rfl | rfl | rfl | rfl | rfl | rfl | rfl | rfl | rfl | rfl | rfl | rfl | rfl
    | rfl
  all_goals simp [stringField, boolField] at hk hv
  all_goals subst hk
  all_goals simp [Connector.getJSON, hv.2]

/-- A field declared by `Connector` that is left out of the wire mapping holds
the value that a fresh Connector holds. -/
theorem Connector_ownFields_omitted (F : Field Connector) (k : String) (c : Connector)
    (client : RestClient) (hF : F ∈ Connector.ownFields) (hk : F.json = some k)
    (hv : F.encodeJSON c = none) :
    Connector.getJSON (NewConnector client) k = Connector.getJSON c k := by
  simp only [Connector.ownFields, List.mem_cons, List.mem_singleton, List.not_mem_nil,
    or_false] at hF
  rcases hF with rfl | rfl | rfl | rfl | rfl | rfl | rfl | rfl | rfl | rfl | rfl | rfl | rfl
    | rfl
  all_goals simp [stringField, boolField] at hk hv
  all_goals subst hk
  all_goals simp [Connector.getJSON, NewConnector, hv]

/-- A field declared by `Connector` takes the value that stands under its key
in the wire mapping of a Connector, without error. -/
theorem Connector_ownFields_decode (F : Field Connector) (k : String) (c a : Connector)
    (v : Value) (hF : F ∈ Connector.ownFields) (hk : F.json = some k)
    (hv : Connector.getJSON c k = some v) :
    Connector.getJSON (F.decode a v).1 k = some v ∧ (F.decode a v).2 = none := by
  simp only [Connector.ownFields, List.mem_cons, List.mem_singleton, List.not_mem_nil,
    or_false] at hF
  rcases hF with rfl | rfl | rfl | rfl | rfl | rfl | rfl | rfl | rfl | rfl | rfl | rfl | rfl
    | rfl
  all_goals simp [stringField, boolField] at hk
  all_goals subst hk
  all_goals simp [Connector.getJSON] at hv
  all_goals subst hv
  all_goals simp [Connector.getJSON, stringField, boolField]

/-- Decoding into a field of a Connector leaves alone the fields that
`Connector` declares under other keys. -/
theorem Connector_fields_keep (emb : List (Field vaultObject)) (G : Field Connector)
    (k : String) (a : Connector) (v : Value) (hG : G ∈ Connector.fields emb)
    (hk : G.json ≠ some k) :
    Connector.getJSON (G.decode a v).1 k = Connector.getJSON a k := by
  rcases List.mem_append.mp hG with h | h
  · obtain ⟨g, _, rfl⟩ := List.mem_map.mp h
    rfl
  · simp only [Connector.ownFields, List.mem_cons, List.mem_singleton, List.not_mem_nil,
      or_false] at h
    rcases h with rfl | rfl | rfl | rfl | rfl | rfl | rfl | rfl | rfl | rfl | rfl | rfl | rfl
      | rfl
    case inr.inr.inr.inr.inr.inr.inr.inr.inr.inr.inr.inr.inr.inr =>
      cases v <;> rfl
    all_goals simp [stringField, boolField] at hk
    all_goals have hk2 := Ne.symm hk
    all_goals cases v <;> simp [Connector.getJSON, stringField, boolField, hk2]

theorem mapToStruct_fst {α : Type}
    (unmarshal : α → List (String × Value) → α × Option String) (i : α)
    (m : List (String × Value)) : (mapToStruct unmarshal i m).1 = (unmarshal i m).1 := by
  unfold mapToStruct
  cases h : (unmarshal i m).2 <;> simp [h]

theorem mapToStruct_snd {α : Type}
    (unmarshal : α → List (String × Value) → α × Option String) (i : α)
    (m : List (String × Value)) :
    (mapToStruct unmarshal i m).2
      = (unmarshal i m).2.map (fun err => "Failed to unmarshal map: " ++ err) := by
  unfold mapToStruct
  cases h : (unmarshal i m).2 <;> simp [h]

/-- Every key among the `json` keys of `Connector` is the key of a field that
`Connector` declares. -/
theorem Connector_ownJSON_field (k : String) (hk : k ∈ Connector.ownJSON) :
    ∃ F ∈ Connector.ownFields, F.json = some k := by
  have h : Connector.ownFields.filterMap (fun F => F.json) = Connector.ownJSON := rfl
  rw [← h] at hk
  obtain ⟨F, hF, hFk⟩ := List.mem_filterMap.mp hk
  exact ⟨F, hF, hFk⟩

/-- Decoding into a field that `Connector` declares leaves the embedded
`vaultObject` alone. -/
theorem Connector_ownFields_embedded (F : Field Connector) (a : Connector) (v : Value)
    (hF : F ∈ Connector.ownFields) : (F.decode a v).1.tovaultObject = a.tovaultObject := by
  simp only [Connector.ownFields, List.mem_cons, List.mem_singleton, List.not_mem_nil,
    or_false] at hF
  rcases hF with rfl | rfl | rfl | rfl | rfl | rfl | rfl | rfl | rfl | rfl | rfl | rfl | rfl
    | rfl
  all_goals cases v <;> rfl

/-- An entry of the wire mapping of a Connector is decoded into a field with
exactly its key. -/
theorem Connector_entry_field (emb : List (Field vaultObject)) (c : Connector)
    (e : String × Value) (he : e ∈ jsonMarshal (Connector.fields emb) c) :
    ∃ f ∈ Connector.fields emb, f.json = some e.1 ∧ f.encodeJSON c = some e.2
      ∧ ∃ g ∈ Connector.fields emb, g.json = some e.1
        ∧ findField (Connector.fields emb) e.1 = some g := by
  obtain ⟨f, hf, hfk, hfv⟩ := jsonMarshal_mem _ _ _ he
  exact ⟨f, hf, hfk, hfv, findField_exact _ _ f hf hfk⟩

/-- The fields declared by `Connector` come back from the wire mapping: decoding
the mapping, in whatever order, into a fresh Connector gives under every key of
`Connector.ownJSON` the value that the Connector holds. -/
theorem Connector_round_trip_own (emb : List (Field vaultObject)) (client : RestClient)
    (c : Connector) (L : List (String × Value))
    (hL : L.Perm (jsonMarshal (Connector.fields emb) c)) (k : String)
    (hk : k ∈ Connector.ownJSON) :
    Connector.getJSON (jsonUnmarshal (Connector.fields emb) (NewConnector client) L).1 k
      = Connector.getJSON c k := by
  unfold jsonUnmarshal
  apply foldl_step_obs (Connector.fields emb) (fun a => Connector.getJSON a k)
    (Connector.getJSON c k) k L
  · intro s e he hek
    obtain ⟨f, hf, hfk, hfv, g, hg, hgk, hfind⟩ :=
      Connector_entry_field emb c e (hL.mem_iff.mp he)
    rw [hek] at hfk hgk
    have hfo := Connector_fields_own emb f k hf hfk hk
    have hgo := Connector_fields_own emb g k hg hgk hk
    have hval := Connector_ownFields_encode f k c e.2 hfo hfk hfv
    rw [step_of_findField _ _ _ g hfind, hval]
    exact (Connector_ownFields_decode g k c s.1 e.2 hgo hgk hval).1
  · intro s e he hek
    obtain ⟨f, hf, hfk, hfv, g, hg, hgk, hfind⟩ :=
      Connector_entry_field emb c e (hL.mem_iff.mp he)
    rw [step_of_findField _ _ _ g hfind]
    apply Connector_fields_keep emb g k s.1 e.2 hg
    rw [hgk]
    intro h
    exact hek (Option.some.inj h)
  · obtain ⟨F, hF, hFk⟩ := Connector_ownJSON_field k hk
    cases hv : F.encodeJSON c with
    | none => exact Or.inl (Connector_ownFields_omitted F k c client hF hFk hv)
    | some v =>
      right
      refine ⟨(k, v), hL.mem_iff.mpr ?_, rfl⟩
      exact jsonMarshal_of_mem _ _ F k v (List.mem_append_right _ hF) hFk hv

/-- A field of a Connector whose key `Connector` does not declare is a
promoted field of the embedded `vaultObject`. -/
theorem Connector_fields_promoted (emb : List (Field vaultObject)) (G : Field Connector)
    (k : String) (hG : G ∈ Connector.fields emb) (hk : G.json = some k)
    (hown : k ∉ Connector.ownJSON) :
    ∃ g ∈ emb, g.json = some k
      ∧ (∀ (c : Connector), G.encodeJSON c = g.encodeJSON c.tovaultObject)
      ∧ (∀ (a : Connector) (v : Value),
          (G.decode a v).1.tovaultObject = (g.decode a.tovaultObject v).1
          ∧ (G.decode a v).2 = (g.decode a.tovaultObject v).2) := by
  rcases List.mem_append.mp hG with h | h
  · obtain ⟨g, hg, rfl⟩ := List.mem_map.mp h
    exact ⟨g, hg, (Connector_promote_json g k hk).1, fun _ => rfl, fun _ _ => ⟨rfl, rfl⟩⟩
  · exact absurd (Connector_ownFields_json G k h hk) hown

/-- Decoding the wire mapping of a Connector reports no error when every field
of the embedded `vaultObject` decodes without error what it writes. -/
theorem Connector_round_trip_error (emb : List (Field vaultObject)) (client : RestClient)
    (c : Connector) (L : List (String × Value))
    (hL : L.Perm (jsonMarshal (Connector.fields emb) c))
    (hemb : ∀ f ∈ emb, ∀ g ∈ emb, g.json = f.json → ∀ (a : vaultObject) (v : Value),
      f.encodeJSON c.tovaultObject = some v → (g.decode a v).2 = none) :
    (jsonUnmarshal (Connector.fields emb) (NewConnector client) L).2 = none := by
  unfold jsonUnmarshal
  have h := foldl_step_error (Connector.fields emb) (fun _ => False) L
    (NewConnector client, none) (fun s e he hs => by
      left
      obtain ⟨f, hf, hfk, hfv, g, hg, hgk, hfind⟩ :=
        Connector_entry_field emb c e (hL.mem_iff.mp he)
      rw [step_of_findField _ _ _ g hfind, hs]
      by_cases hown : e.1 ∈ Connector.ownJSON
      · have hfo := Connector_fields_own emb f e.1 hf hfk hown
        have hgo := Connector_fields_own emb g e.1 hg hgk hown
        have hval := Connector_ownFields_encode f e.1 c e.2 hfo hfk hfv
        exact (Connector_ownFields_decode g e.1 c s.1 e.2 hgo hgk hval).2
      · obtain ⟨f0, hf0, hf0k, hf0e, _⟩ := Connector_fields_promoted emb f e.1 hf hfk hown
        obtain ⟨g0, hg0, hg0k, _, hg0d⟩ := Connector_fields_promoted emb g e.1 hg hgk hown
        show (g.decode s.1 e.2).2 = none
        rw [(hg0d s.1 e.2).2]
        apply hemb f0 hf0 g0 hg0 (by rw [hg0k, hf0k])
        rw [← hf0e c]
        exact hfv) (Or.inl rfl)
  rcases h with h | h
  · exact h
  · exact absurd h id

/-- The fields of the embedded `vaultObject` come back from the wire mapping of
a Connector as far as they behave as fields: an observation `obs` of the
embedded struct is reproduced when it belongs to a key `K` that `Connector` does
not declare, in that decoding under `K` what was written under `K` sets it to
what the Connector holds, decoding under other keys leaves it alone, and it is
the same on a fresh `vaultObject` whenever nothing is written under `K`. -/
theorem Connector_round_trip_embedded (emb : List (Field vaultObject)) (client : RestClient)
    (c : Connector) (L : List (String × Value))
    (hL : L.Perm (jsonMarshal (Connector.fields emb) c))
    {β : Type} (obs : vaultObject → β) (K : String) (hK : K ∉ Connector.ownJSON)
    (hset : ∀ f ∈ emb, ∀ g ∈ emb, f.json = some K → g.json = some K →
      ∀ (a : vaultObject) (v : Value), f.encodeJSON c.tovaultObject = some v →
        obs (g.decode a v).1 = obs c.tovaultObject)
    (hkeep : ∀ g ∈ emb, g.json ≠ some K → ∀ (a : vaultObject) (v : Value),
      obs (g.decode a v).1 = obs a)
    (hzero : (∀ f ∈ emb, f.json = some K → f.encodeJSON c.tovaultObject = none) →
      obs (vaultObject.zero client) = obs c.tovaultObject) :
    obs (jsonUnmarshal (Connector.fields emb) (NewConnector client) L).1.tovaultObject
      = obs c.tovaultObject := by
  unfold jsonUnmarshal
  apply foldl_step_obs (Connector.fields emb) (fun a => obs a.tovaultObject)
    (obs c.tovaultObject) K L
  · intro s e he hek
    obtain ⟨f, hf, hfk, hfv, g, hg, hgk, hfind⟩ :=
      Connector_entry_field emb c e (hL.mem_iff.mp he)
    rw [hek] at hfk hgk
    obtain ⟨f0, hf0, hf0k, hf0e, _⟩ := Connector_fields_promoted emb f K hf hfk hK
    obtain ⟨g0, hg0, hg0k, _, hg0d⟩ := Connector_fields_promoted emb g K hg hgk hK
    rw [step_of_findField _ _ _ g hfind]
    show obs (g.decode s.1 e.2).1.tovaultObject = obs c.tovaultObject
    rw [(hg0d s.1 e.2).1]
    apply hset f0 hf0 g0 hg0 hf0k hg0k
    rw [← hf0e c]
    exact hfv
  · intro s e he hek
    obtain ⟨f, hf, hfk, hfv, g, hg, hgk, hfind⟩ :=
      Connector_entry_field emb c e (hL.mem_iff.mp he)
    rw [step_of_findField _ _ _ g hfind]
    show obs (g.decode s.1 e.2).1.tovaultObject = obs s.1.tovaultObject
    by_cases hown : e.1 ∈ Connector.ownJSON
    · rw [Connector_ownFields_embedded g s.1 e.2 (Connector_fields_own emb g e.1 hg hgk hown)]
    · obtain ⟨g0, hg0, hg0k, _, hg0d⟩ := Connector_fields_promoted emb g e.1 hg hgk hown
      rw [(hg0d s.1 e.2).1]
      apply hkeep g0 hg0
      rw [hg0k]
      intro h
      exact hek (Option.some.inj h)
  · by_cases hex : ∃ e ∈ L, e.1 = K
    · exact Or.inr hex
    · left
      apply hzero
      intro f hf hfk
      cases hv : f.encodeJSON c.tovaultObject with
      | none => rfl
      | some v =>
        exfalso
        apply hex
        refine ⟨(K, v), hL.mem_iff.mpr ?_, rfl⟩
        apply jsonMarshal_of_mem _ _
          (Field.promote (fun (c : Connector) => c.tovaultObject)
            (fun c v => { c with tovaultObject := v }) Connector.ownJSON Connector.ownSchema f)
          K v
        · exact List.mem_append_left _ (List.mem_map_of_mem _ hf)
        · simp [Field.promote, hfk, hK]
        · exact hv

/-- C19. Round trip of the wire mapping of a Connector. For every Connector,
`generateRequestMap` gives its wire mapping, and `mapToStruct` of that mapping,
decoded in whatever order, into a fresh Connector reproduces the thirteen
`json`-tagged fields that `Connector` declares, those left out of the mapping as
empty included. It reports no error when the fields of the embedded
`vaultObject` decode without error what they write, and it reproduces what those
fields hold as far as they behave as fields of their keys. -/
theorem Connector_wire_round_trip (emb : List (Field vaultObject)) (client : RestClient)
    (c : Connector) :
    generateRequestMap (jsonMarshal (Connector.fields emb)) c
      = .ok (jsonMarshal (Connector.fields emb) c)
    ∧ ∀ L : List (String × Value), L.Perm (jsonMarshal (Connector.fields emb) c) →
      ∃ (r : Connector) (err : Option String),
        mapToStruct (jsonUnmarshal (Connector.fields emb)) (NewConnector client) L = (r, err)
        ∧ (r.MachineName = c.MachineName ∧ r.SSHService = c.SSHService
          ∧ r.RDPService = c.RDPService ∧ r.ADProxy = c.ADProxy
          ∧ r.AppGateway = c.AppGateway ∧ r.HttpAPIService = c.HttpAPIService
          ∧ r.LDAPProxy = c.LDAPProxy ∧ r.RadiusService = c.RadiusService
          ∧ r.RadiusExternalService = c.RadiusExternalService ∧ r.Online = c.Online
          ∧ r.Version = c.Version ∧ r.VpcIdentifier = c.VpcIdentifier
          ∧ r.VmIdentifier = c.VmIdentifier)
        ∧ ((∀ f ∈ emb, ∀ g ∈ emb, g.json = f.json → ∀ (a : vaultObject) (v : Value),
              f.encodeJSON c.tovaultObject = some v → (g.decode a v).2 = none) →
            err = none)
        ∧ (∀ (β : Type) (obs : vaultObject → β) (K : String), K ∉ Connector.ownJSON →
            (∀ f ∈ emb, ∀ g ∈ emb, f.json = some K → g.json = some K →
              ∀ (a : vaultObject) (v : Value), f.encodeJSON c.tovaultObject = some v →
                obs (g.decode a v).1 = obs c.tovaultObject) →
            (∀ g ∈ emb, g.json ≠ some K → ∀ (a : vaultObject) (v : Value),
              obs (g.decode a v).1 = obs a) →
            ((∀ f ∈ emb, f.json = some K → f.encodeJSON c.tovaultObject = none) →
              obs (vaultObject.zero client) = obs c.tovaultObject) →
            obs r.tovaultObject = obs c.tovaultObject) := by
  refine ⟨rfl, ?_⟩
  intro L hL
  refine ⟨(mapToStruct (jsonUnmarshal (Connector.fields emb)) (NewConnector client) L).1,
    (mapToStruct (jsonUnmarshal (Connector.fields emb)) (NewConnector client) L).2, rfl,
    ?_, ?_, ?_⟩
  · rw [mapToStruct_fst]
    have h := Connector_round_trip_own emb client c L hL
    have h1 := h "MachineName" (by decide)
    have h2 := h "SSHService" (by decide)
    have h3 := h "RDPService" (by decide)
    have h4 := h "ADProxy" (by decide)
    have h5 := h "AppGateway" (by decide)
    have h6 := h "HttpAPIService" (by decide)
    have h7 := h "LDAPProxy" (by decide)
    have h8 := h "RadiusService" (by decide)
    have h9 := h "RadiusExternalService" (by decide)
    have h10 := h "Online" (by decide)
    have h11 := h "Version" (by decide)
    have h12 := h "VpcIdentifier" (by decide)
    have h13 := h "VmIdentifier" (by decide)
    simp only [Connector.getJSON, if_true, String.reduceEq, if_false, Option.some.injEq,
      Value.str.injEq, Value.bool.injEq] at h1 h2 h3 h4 h5 h6 h7 h8 h9 h10 h11 h12 h13
    exact ⟨h1, h2, h3, h4, h5, h6, h7, h8, h9, h10, h11, h12, h13⟩
  · intro hemb
    rw [mapToStruct_snd, Connector_round_trip_error emb client c L hL hemb]
    rfl
  · intro β obs K hK hset hkeep hzero
    rw [mapToStruct_fst]
    exact Connector_round_trip_embedded emb client c L hL obs K hK hset hkeep hzero

/-- Witness for C19: a Connector with `ID`, `Name`, `MachineName` and `Online`
set, the embedded fields being those of `exampleDeclarations`, comes back from
its wire mapping decoded in reverse order, without error. -/
theorem Connector_wire_round_trip_witness :
    ∃ r : Connector,
      mapToStruct (jsonUnmarshal (Connector.fields (exampleDeclarations "Connector").vaultObject))
          (NewConnector (successClient "x"))
          [("Online", Value.bool true), ("MachineName", Value.str "host1"),
           ("Name", Value.str "connector1"), ("ID", Value.str "c1")] = (r, none)
      ∧ r.MachineName = "host1" ∧ r.Online = true ∧ r.VmIdentifier = "" ∧ r.ID = "c1" := by
  obtain ⟨r, err, h, hown, herr, hobs⟩ :=
    (Connector_wire_round_trip (exampleDeclarations "Connector").vaultObject (successClient "x")
      { exampleConnector (successClient "x") "c1" with MachineName := "host1", Online := true }).2
      [("Online", Value.bool true), ("MachineName", Value.str "host1"),
       ("Name", Value.str "connector1"), ("ID", Value.str "c1")]
      (List.reverse_perm [("ID", Value.str "c1"), ("Name", Value.str "connector1"),
        ("MachineName", Value.str "host1"), ("Online", Value.bool true)])
  have he : err = none := by
    apply herr
    intro f hf g hg hk a v hv
    simp only [exampleDeclarations, List.mem_cons, List.mem_singleton, List.not_mem_nil,
      or_false] at hf hg
    rcases hf with rfl | rfl | rfl <;> rcases hg with rfl | rfl | rfl
    all_goals simp [stringField, exampleConnector, exampleVaultObject] at hk hv ⊢
    all_goals simp [← hv]
  have hid := hobs String (fun v => v.ID) "ID" (by decide)
    (by
      intro f hf g hg hfk hgk a v hv
      simp only [exampleDeclarations, List.mem_cons, List.mem_singleton, List.not_mem_nil,
        or_false] at hf hg
      rcases hf with rfl | rfl | rfl <;> rcases hg with rfl | rfl | rfl
      all_goals simp [stringField, exampleConnector, exampleVaultObject] at hfk hgk hv ⊢
      all_goals simp [← hv])
    (by
      intro g hg hgk a v
      simp only [exampleDeclarations, List.mem_cons, List.mem_singleton, List.not_mem_nil,
        or_false] at hg
      rcases hg with rfl | rfl | rfl
      all_goals simp [stringField] at hgk ⊢
      all_goals cases v <;> rfl)
    (by
      intro hnone
      have h1 := hnone (stringField "Connector" (some ("ID", true)) (some ("id", true))
        (fun v => v.ID) (fun v s => { v with ID := s })) (by simp [exampleDeclarations]) rfl
      simp [stringField, exampleConnector, exampleVaultObject] at h1)
  rw [he] at h
  exact ⟨r, h, hown.1, hown.2.2.2.2.2.2.2.2.2.1, hown.2.2.2.2.2.2.2.2.2.2.2.2, hid⟩

/-! ### Type mismatches -/

/-- A type mismatch makes `mapToStruct` return an error that starts with "Failed
to unmarshal map: ": it is enough that one entry of the mapping goes to a field
that reports a type error for its value. -/
theorem mapToStruct_reports {α : Type} (fields : List (Field α)) (a : α)
    (m : List (String × Value)) (e : String × Value) (g : Field α) (he : e ∈ m)
    (hg : findField fields e.1 = some g) (hbad : ∀ x, (g.decode x e.2).2 ≠ none) :
    ∃ err, (mapToStruct (jsonUnmarshal fields) a m).2
      = some ("Failed to unmarshal map: " ++ err) := by
  rw [mapToStruct_snd]
  cases h : (jsonUnmarshal fields a m).2 with
  | none => exact absurd h (jsonUnmarshal_error fields a m e g he hg hbad)
  | some err => exact ⟨err, rfl⟩

/-- The key "SecretName" goes to the field `SecretName` of a Secret, whatever the
embedded `vaultObject` declares. -/
theorem Secret_findField_SecretName (d : Declarations) :
    findField (Secret.fields d) "SecretName"
      = some (stringField "Secret" (some ("SecretName", true)) (some ("secret_name", true))
          (fun o => o.SecretName) (fun o v => { o with SecretName := v })) := by
  have hprom : (d.vaultObject.map (Field.promote (fun (o : Secret) => o.tovaultObject)
      (fun o v => { o with tovaultObject := v }) Secret.ownJSON Secret.ownSchema)).find?
        (fun f => f.json == some "SecretName") = none := by
    rw [List.find?_eq_none]
    intro f hf
    obtain ⟨g, _, rfl⟩ := List.mem_map.mp hf
    unfold Field.promote
    cases hg : g.json with
    | none => simp
    | some k =>
      by_cases hk : k ∈ Secret.ownJSON
      · simp [hk]
      · have hne : k ≠ "SecretName" := by
          intro h
          rw [h] at hk
          exact hk (by decide)
        simp [hk, hne]
  unfold findField Secret.fields
  rw [List.find?_append, hprom]
  rfl

/-- A number under "SecretName" is a type mismatch that `mapToStruct` reports,
for every Secret and every mapping that holds one. -/
theorem mapToStruct_SecretName_number (d : Declarations) (o : Secret)
    (m : List (String × Value)) (n : String) (h : ("SecretName", Value.number n) ∈ m) :
    ∃ err, (mapToStruct (jsonUnmarshal (Secret.fields d)) o m).2
      = some ("Failed to unmarshal map: " ++ err) :=
  mapToStruct_reports (Secret.fields d) o m ("SecretName", Value.number n) _ h
    (Secret_findField_SecretName d) (fun _ => by simp [stringField])

/-- The error of `mapToStruct` takes no part in the outcome of `Secret.Read`:
when both calls are answered by success envelopes, the second with an empty
result, `Read` returns no error, whatever the decoding of the first result
reports. -/
theorem Secret_Read_discards (env : SecretEnv) (o : Secret) (log : List Call)
    (resp resp2 : GenericMapResponse) (hID : o.ID ≠ "")
    (h1 : o.client.CallGenericMapAPI log ⟨o.apiRead, [("ID", Value.str o.ID)]⟩ = .ok resp)
    (hs1 : resp.Success = true)
    (h2 : (mapToStruct env.unmarshalSecret o resp.Result).1.client.CallGenericMapAPI
        (log ++ [⟨o.apiRead, [("ID", Value.str o.ID)]⟩])
        ⟨(mapToStruct env.unmarshalSecret o resp.Result).1.apiGetChallenge,
          [("ID", Value.str o.ID)]⟩ = .ok resp2)
    (hs2 : resp2.Success = true) (hr2 : resp2.Result = []) :
    (Secret.Read env o log).1 = .ok () := by
  unfold Secret.Read
  simp only [hID, if_false, h1, hs1, Bool.not_true, h2, hs2, hr2]
  rfl

/-- C20, at an input where the code departs from it: the read call of a Secret
is answered by a success envelope whose result holds the number 42 under
"SecretName". `mapToStruct` reports the type mismatch for that mapping, but
`Secret.Read` returns no error: it issues both calls and leaves `SecretName` as it
was. -/
theorem Secret_Read_type_mismatch :
    (mapToStruct ((exampleDeclarations "Secret").env exampleEnv.folderGetIDByName).unmarshalSecret
        (exampleSecret (readClient [("SecretName", Value.number "42")]) "id1")
        [("SecretName", Value.number "42")]).2
      = some ("Failed to unmarshal map: json: cannot unmarshal number into Go struct field "
          ++ "Secret.SecretName of type string")
    ∧ (Secret.Read ((exampleDeclarations "Secret").env exampleEnv.folderGetIDByName)
        (exampleSecret (readClient [("SecretName", Value.number "42")]) "id1") []).1 = .ok ()
    ∧ (Secret.Read ((exampleDeclarations "Secret").env exampleEnv.folderGetIDByName)
        (exampleSecret (readClient [("SecretName", Value.number "42")]) "id1") []).2.1.SecretName
      = "Test secret"
    ∧ ((Secret.Read ((exampleDeclarations "Secret").env exampleEnv.folderGetIDByName)
        (exampleSecret (readClient [("SecretName", Value.number "42")]) "id1") []).2.2.map
          (fun call => call.method))
      = ["/ServerManage/GetSecret", "/ServerManage/GetSecretRightsAndChallenges"] :=
  ⟨by decide, rfl, by decide, by decide⟩

/-! ### The tables of `ValidPermissionMap` -/

/-- C22 as stated fails. The table `MultiplexAccount` is one of the account
tables, and it maps "Grant" to "Grant", not to "Owner". -/
theorem ValidPermissionMap_Grant_counterexample :
    ValidPermissionMap.MultiplexAccount.lookup Right.Grant = some "Grant"
    ∧ mapIndex ValidPermissionMap.MultiplexAccount Right.Grant ≠ "Owner" := by
  decide

/-- C22, amended. The right "Grant" maps to "Owner" in the tables `Account`,
`DBAccount`, `DomainAccount`, `CloudAccount` and `SSHKey`; it maps to "Grant"
unchanged in `MultiplexAccount`, in `Generic` and in the other nine tables. -/
theorem ValidPermissionMap_Grant :
    mapIndex ValidPermissionMap.Account Right.Grant = "Owner"
    ∧ mapIndex ValidPermissionMap.DBAccount Right.Grant = "Owner"
    ∧ mapIndex ValidPermissionMap.DomainAccount Right.Grant = "Owner"
    ∧ mapIndex ValidPermissionMap.CloudAccount Right.Grant = "Owner"
    ∧ mapIndex ValidPermissionMap.SSHKey Right.Grant = "Owner"
    ∧ mapIndex ValidPermissionMap.MultiplexAccount Right.Grant = "Grant"
    ∧ mapIndex ValidPermissionMap.Generic Right.Grant = "Grant"
    ∧ mapIndex ValidPermissionMap.Set Right.Grant = "Grant"
    ∧ mapIndex ValidPermissionMap.WinNix Right.Grant = "Grant"
    ∧ mapIndex ValidPermissionMap.System Right.Grant = "Grant"
    ∧ mapIndex ValidPermissionMap.Database Right.Grant = "Grant"
    ∧ mapIndex ValidPermissionMap.Domain Right.Grant = "Grant"
    ∧ mapIndex ValidPermissionMap.Secret Right.Grant = "Grant"
    ∧ mapIndex ValidPermissionMap.Service Right.Grant = "Grant"
    ∧ mapIndex ValidPermissionMap.Application Right.Grant = "Grant"
    ∧ mapIndex ValidPermissionMap.Folder Right.Grant = "Grant" := by
  decide

/-! ### `queryError` -/

theorem queryError_nat (n : Nat) :
    queryError (n : Int)
      = if n = 0 then some "Query returns 0 object"
        else if 1 < n then
          some ("Query returns too many objects (found " ++ toString n ++ ", expected 1)")
        else none := by
  unfold queryError
  by_cases h0 : n = 0
  · subst h0
    decide
  · have h0i : (n : Int) ≠ 0 := by exact_mod_cast h0
    by_cases h1 : 1 < n
    · have h1i : (n : Int) > 1 := by exact_mod_cast h1
      have ht : toString (n : Int) = toString n := rfl
      simp only [h0, h0i, h1, h1i, if_true, if_false, foundTooManyError, ht, tooMany_plain]
    · have h1i : ¬ (n : Int) > 1 := by
        intro h
        exact h1 (by exact_mod_cast h)
      simp only [h0, h0i, h1, h1i, if_false]

/-- The part of `queryVaultObject` after the query returns an error exactly when
`queryError` does for the number of results, with the same message. -/
theorem queryError_single (results : List Value) (msg : String) :
    queryError (results.length : Int) = some msg ↔ queryVaultObject.single results = .error msg := by
  rw [queryError_nat]
  unfold queryVaultObject.single
  by_cases h0 : results.length = 0
  · have he : Errorf "Query returns 0 object" = "Query returns 0 object" := by decide
    simp only [h0, if_true, he, Option.some.injEq, Ret.error.injEq]
  · by_cases h1 : 1 < results.length
    · have h1g : results.length > 1 := h1
      simp only [h0, h1, h1g, if_true, if_false, tooMany_plain, Option.some.injEq,
        Ret.error.injEq]
    · have h1g : ¬ results.length > 1 := h1
      simp only [h0, h1, h1g, if_false]
      constructor
      · intro h
        cases h
      · intro h
        exfalso
        split at h
        · split at h <;> cases h
        · cases h

/-- C27 as stated fails. For a list with the single element 1 (a number, not a
mapping) `queryError` returns nil for the length 1, but `queryVaultObject` does
not succeed: its type assertion panics. -/
theorem queryError_counterexample :
    queryError ([Value.number "1"].length : Int) = none
    ∧ queryVaultObject (resultsClient [Value.number "1"]) "SELECT 1" []
      = (.panic, [⟨"/RedRock/query",
          [("Script", Value.str "SELECT 1"), ("Args", Value.object subArgs)]⟩]) :=
  ⟨by decide, rfl⟩

/-- C27, amended. For every result list returned by a successful query call,
`queryError` of its length returns an error exactly when `queryVaultObject`
returns one, with the same message: "Query returns 0 object" for no element,
"Query returns too many objects (found n, expected 1)" for n > 1 elements. For
one element `queryError` returns nil and `queryVaultObject` returns no error: it
gives the "Row" mapping of an element that is a mapping holding one, and panics
on an element of another shape. -/
theorem queryError_cardinality (client : RestClient) (query : String)
    (log log1 : List Call) (results : List Value)
    (h : RedRockQuery client query none log = (.ok results, log1)) :
    (∀ msg, queryError (results.length : Int) = some msg
        ↔ queryVaultObject client query log = (.error msg, log1))
    ∧ (results.length = 0 →
        queryError (results.length : Int) = some "Query returns 0 object")
    ∧ (1 < results.length →
        queryError (results.length : Int)
          = some ("Query returns too many objects (found " ++ toString results.length
              ++ ", expected 1)"))
    ∧ (results.length = 1 →
        queryError (results.length : Int) = none
        ∧ ((∃ result row, results = [Value.object result]
              ∧ Value.index result "Row" = Value.object row
              ∧ queryVaultObject client query log = (.ok row, log1))
          ∨ queryVaultObject client query log = (.panic, log1))) := by
  rw [queryVaultObject_of_results client query log log1 results h]
  refine ⟨?_, ?_, ?_, ?_⟩
  · intro msg
    rw [queryError_single]
    constructor
    · intro hm
      rw [hm]
    · intro hm
      exact (Prod.mk.injEq _ _ _ _ ▸ hm).1
  · intro h0
    rw [queryError_nat, if_pos h0]
  · intro h1
    rw [queryError_nat, if_neg (by omega), if_pos h1]
  · intro h1
    refine ⟨by rw [queryError_nat, if_neg (by omega), if_neg (by omega)], ?_⟩
    match results, h1 with
    | [Value.object result], _ =>
      cases hrow : Value.index result "Row" with
      | object row =>
        left
        exact ⟨result, row, rfl, hrow, by simp [queryVaultObject.single, hrow]⟩
      | null => right; simp [queryVaultObject.single, hrow]
      | bool _ => right; simp [queryVaultObject.single, hrow]
      | number _ => right; simp [queryVaultObject.single, hrow]
      | str _ => right; simp [queryVaultObject.single, hrow]
      | array _ => right; simp [queryVaultObject.single, hrow]
    | [Value.null], _ => right; simp [queryVaultObject.single]
    | [Value.bool _], _ => right; simp [queryVaultObject.single]
    | [Value.number _], _ => right; simp [queryVaultObject.single]
    | [Value.str _], _ => right; simp [queryVaultObject.single]
    | [Value.array _], _ => right; simp [queryVaultObject.single]

/-- C27, amended, at a query that returns two results. -/
theorem queryError_cardinality_witness :
    RedRockQuery (resultsClient [Value.null, Value.null]) "SELECT 1" none []
      = (.ok [Value.null, Value.null],
         [⟨"/RedRock/query", [("Script", Value.str "SELECT 1"), ("Args", Value.object subArgs)]⟩])
    ∧ queryError 2 = some "Query returns too many objects (found 2, expected 1)"
    ∧ queryVaultObject (resultsClient [Value.null, Value.null]) "SELECT 1" []
      = (.error "Query returns too many objects (found 2, expected 1)",
         [⟨"/RedRock/query",
           [("Script", Value.str "SELECT 1"), ("Args", Value.object subArgs)]⟩]) :=
  ⟨rfl,
   (queryError_cardinality (resultsClient [Value.null, Value.null]) "SELECT 1" [] _ _ rfl).2.2.1
     (by decide),
   ((queryError_cardinality (resultsClient [Value.null, Value.null]) "SELECT 1" [] _ _ rfl).1
     "Query returns too many objects (found 2, expected 1)").mp (by decide)⟩

/-! ### The tables and `ConvertToValidList` -/

theorem lookup_mem {β : Type} (m : List (String × β)) (k : String) (v : β)
    (h : m.lookup k = some v) : (k, v) ∈ m := by
  induction m with
  | nil => simp at h
  | cons e rest ih =>
    obtain ⟨k2, v2⟩ := e
    by_cases hk : k = k2
    · subst hk
      simp [List.lookup] at h
      simp [h]
    · have hb : (k == k2) = false := by simpa using hk
      simp only [List.lookup, hb] at h
      exact List.mem_cons_of_mem _ (ih h)

theorem lookup_none_iff {β : Type} (m : List (String × β)) (k : String) :
    m.lookup k = none ↔ k ∉ m.map Prod.fst := by
  induction m with
  | nil => simp
  | cons e rest ih =>
    obtain ⟨k2, v2⟩ := e
    by_cases hk : k = k2
    · subst hk
      simp [List.lookup]
    · have hb : (k == k2) = false := by simpa using hk
      simp only [List.lookup, hb, ih, List.map_cons, List.mem_cons, hk, false_or]

/-- Against a table without empty value, the empty-value test of
`ConvertToValidList` rejects the names that are no key of the table and no
other. -/
theorem mapIndex_eq_empty_iff (m : List (String × String)) (k : String)
    (hval : ∀ e ∈ m, e.2 ≠ "") : mapIndex m k = "" ↔ k ∉ m.map Prod.fst := by
  rw [← lookup_none_iff]
  unfold mapIndex
  cases hl : m.lookup k with
  | none => simp
  | some v =>
    have hv := hval (k, v) (lookup_mem m k v hl)
    simp only [Option.getD_some, reduceCtorEq, iff_false]
    exact hv

theorem ConvertToValidList_loop_fails (validMap : List (String × String))
    (input converted : List String) :
    (∃ msg, ConvertToValidList.loop validMap input converted = .error msg)
      ↔ ∃ k ∈ input, mapIndex validMap k = "" := by
  induction input generalizing converted with
  | nil => simp [ConvertToValidList.loop]
  | cons k rest ih =>
    by_cases hk : mapIndex validMap k = ""
    · simp [ConvertToValidList.loop, hk]
    · simp only [ConvertToValidList.loop, ne_eq, hk, not_false_eq_true, if_true, ih,
        List.mem_cons, exists_eq_or_imp, false_or]

/-- Against a table without empty value, `ConvertToValidList` fails exactly when
some input name is no key of the table. -/
theorem ConvertToValidList_fails_iff (validMap : List (String × String)) (input : List String)
    (hval : ∀ e ∈ validMap, e.2 ≠ "") :
    (∃ msg, ConvertToValidList input validMap = .error msg)
      ↔ ∃ k ∈ input, k ∉ validMap.map Prod.fst := by
  unfold ConvertToValidList
  rw [ConvertToValidList_loop_fails]
  constructor
  · rintro ⟨k, hk, he⟩
    exact ⟨k, hk, (mapIndex_eq_empty_iff validMap k hval).mp he⟩
  · rintro ⟨k, hk, he⟩
    exact ⟨k, hk, (mapIndex_eq_empty_iff validMap k hval).mpr he⟩

/-- Every table of `ValidPermissionMap` has non-empty values, and keys among the
rights of `Right`. -/
theorem ValidPermissionMap_tables :
    ∀ T ∈ [ValidPermissionMap.Generic, ValidPermissionMap.Set, ValidPermissionMap.WinNix,
        ValidPermissionMap.System, ValidPermissionMap.Database, ValidPermissionMap.Domain,
        ValidPermissionMap.Account, ValidPermissionMap.DBAccount,
        ValidPermissionMap.DomainAccount, ValidPermissionMap.CloudAccount,
        ValidPermissionMap.MultiplexAccount, ValidPermissionMap.Secret,
        ValidPermissionMap.SSHKey, ValidPermissionMap.Service, ValidPermissionMap.Application,
        ValidPermissionMap.Folder],
      ∀ e ∈ T, e.2 ≠ ""
        ∧ e.1 ∈ [Right.Grant, Right.View, Right.Edit, Right.Delete, Right.Add, Right.Run,
            Right.Login, Right.Checkout, Right.Retrieve, Right.ManageSession, Right.AgentAuth,
            Right.OfflineRescue, Right.AddAccount, Right.UnlockAccount, Right.RequestZoneRole,
            Right.FileTransfer, Right.UpdatePassword, Right.WorkspaceLogin,
            Right.RotatePassword, Right.RetrieveSecret, Right.ManagementAssignment] := by
  decide

/-- C24. In every table of `ValidPermissionMap` every value is a non-empty string
and every key is one of the rights of `Right`. Hence, against any of these
tables, the empty-value test of `ConvertToValidList` rejects no name that is a
key, and `ConvertToValidList` fails if and only if some input name is not a key
of the table. -/
theorem ValidPermissionMap_wellformed :
    ∀ T ∈ [ValidPermissionMap.Generic, ValidPermissionMap.Set, ValidPermissionMap.WinNix,
        ValidPermissionMap.System, ValidPermissionMap.Database, ValidPermissionMap.Domain,
        ValidPermissionMap.Account, ValidPermissionMap.DBAccount,
        ValidPermissionMap.DomainAccount, ValidPermissionMap.CloudAccount,
        ValidPermissionMap.MultiplexAccount, ValidPermissionMap.Secret,
        ValidPermissionMap.SSHKey, ValidPermissionMap.Service, ValidPermissionMap.Application,
        ValidPermissionMap.Folder],
      (∀ e ∈ T, e.2 ≠ ""
        ∧ e.1 ∈ [Right.Grant, Right.View, Right.Edit, Right.Delete, Right.Add, Right.Run,
            Right.Login, Right.Checkout, Right.Retrieve, Right.ManageSession, Right.AgentAuth,
            Right.OfflineRescue, Right.AddAccount, Right.UnlockAccount, Right.RequestZoneRole,
            Right.FileTransfer, Right.UpdatePassword, Right.WorkspaceLogin,
            Right.RotatePassword, Right.RetrieveSecret, Right.ManagementAssignment])
      ∧ (∀ k ∈ T.map Prod.fst, mapIndex T k ≠ "")
      ∧ ∀ input : List String,
          ((∃ msg, ConvertToValidList input T = .error msg)
            ↔ ∃ k ∈ input, k ∉ T.map Prod.fst) := by
  intro T hT
  have hval : ∀ e ∈ T, e.2 ≠ "" := fun e he => (ValidPermissionMap_tables T hT e he).1
  refine ⟨ValidPermissionMap_tables T hT, ?_, ?_⟩
  · intro k hk he
    exact (mapIndex_eq_empty_iff T k hval).mp he hk
  · intro input
    exact ConvertToValidList_fails_iff T input hval

/-- C24, at the table `Account`: "Manage" is a value of the table, not a key, so
the list ["Edit", "Manage"] is rejected. -/
theorem ValidPermissionMap_wellformed_witness :
    ValidPermissionMap.Account ∈ [ValidPermissionMap.Generic, ValidPermissionMap.Set,
        ValidPermissionMap.WinNix, ValidPermissionMap.System, ValidPermissionMap.Database,
        ValidPermissionMap.Domain, ValidPermissionMap.Account, ValidPermissionMap.DBAccount,
        ValidPermissionMap.DomainAccount, ValidPermissionMap.CloudAccount,
        ValidPermissionMap.MultiplexAccount, ValidPermissionMap.Secret,
        ValidPermissionMap.SSHKey, ValidPermissionMap.Service, ValidPermissionMap.Application,
        ValidPermissionMap.Folder]
    ∧ ∃ msg, ConvertToValidList ["Edit", "Manage"] ValidPermissionMap.Account = .error msg :=
  ⟨by decide,
   ((ValidPermissionMap_wellformed ValidPermissionMap.Account (by decide)).2.2
      ["Edit", "Manage"]).mpr ⟨"Manage", by decide, by decide⟩⟩

/-! ### Converting twice -/

/-- Against a table in which each name maps to itself, a successful
`ConvertToValidList` gives its input back. -/
theorem ConvertToValidList_identity (validMap : List (String × String))
    (input out : List String) (hid : ∀ e ∈ validMap, e.2 = e.1)
    (h : ConvertToValidList input validMap = .ok out) : out = input := by
  obtain ⟨h1, h2⟩ := ConvertToValidList_loop_inv validMap input [] out h
  rw [h1, List.nil_append]
  have hmap : ∀ k ∈ input, mapIndex validMap k = k := by
    intro k hk
    have hne := h2 k hk
    unfold mapIndex at hne ⊢
    cases hl : validMap.lookup k with
    | none => simp [hl] at hne
    | some v => exact hid (k, v) (lookup_mem validMap k v hl)
  calc input.map (mapIndex validMap) = input.map id := List.map_congr_left hmap
    _ = input := List.map_id _

/-- C25. Against a table in which each name maps to itself, `ConvertToValidList`
applied to its own successful output returns that output unchanged; the tables
`Generic`, `Set`, `System`, `Database`, `Domain`, `MultiplexAccount`, `Service` and
`Folder` are such tables. Against the table `Account` it is not so: ["Edit"]
converts to ["Manage"], and ["Manage"] is rejected with "Invalid right Manage";
hence `ResolvePermissions`, called again on an entry that it has resolved from
"Edit", fails with that message. -/
theorem ConvertToValidList_twice :
    (∀ (validMap : List (String × String)) (input out : List String),
      (∀ e ∈ validMap, e.2 = e.1) → ConvertToValidList input validMap = .ok out →
      ConvertToValidList out validMap = .ok out)
    ∧ (∀ T ∈ [ValidPermissionMap.Generic, ValidPermissionMap.Set, ValidPermissionMap.System,
        ValidPermissionMap.Database, ValidPermissionMap.Domain,
        ValidPermissionMap.MultiplexAccount, ValidPermissionMap.Service,
        ValidPermissionMap.Folder], ∀ e ∈ T, e.2 = e.1)
    ∧ ConvertToValidList ["Edit"] ValidPermissionMap.Account = .ok ["Manage"]
    ∧ ConvertToValidList ["Manage"] ValidPermissionMap.Account = .error "Invalid right Manage"
    ∧ ResolvePermissions loggingLookup ValidPermissionMap.Account
        [{ PrincipalName := "alice", PrincipalType := "User", PrincipalID := "",
           Rights := "Edit", RightList := [] }] []
      = (none, [{ PrincipalName := "alice", PrincipalType := "User", PrincipalID := "U-alice",
                  Rights := "Manage", RightList := [] }], ["user alice"])
    ∧ (ResolvePermissions loggingLookup ValidPermissionMap.Account
        [{ PrincipalName := "alice", PrincipalType := "User", PrincipalID := "U-alice",
           Rights := "Manage", RightList := [] }] ["user alice"]).1
      = some "Invalid right Manage" := by
  refine ⟨?_, by decide, by decide, by decide, by decide, by decide⟩
  intro validMap input out hid h
  have he := ConvertToValidList_identity validMap input out hid h
  rw [he]
  rw [he] at h
  exact h

/-- C25, at the table `Generic`. -/
theorem ConvertToValidList_twice_witness :
    (∀ e ∈ ValidPermissionMap.Generic, e.2 = e.1)
    ∧ ConvertToValidList ["View", "Edit"] ValidPermissionMap.Generic = .ok ["View", "Edit"]
    ∧ ConvertToValidList ["View", "Edit"] ValidPermissionMap.Generic = .ok ["View", "Edit"] :=
  ⟨by decide, by decide,
   ConvertToValidList_twice.1 ValidPermissionMap.Generic ["View", "Edit"] ["View", "Edit"]
     (by decide) (by decide)⟩

/-! ### Joining and splitting -/

/-- C26. Splitting a joined list on "," gives the list back when the list is not
empty and none of its elements holds a comma. For the empty list it does not:
the join is "" and splitting "" gives [""]. `ResolvePermissions` does not split
an empty `Rights`: it takes the `RightList` in its place, and an entry without
rights keeps the empty `Rights`, where splitting it would ask for the right "". -/
theorem Split_join_inverse :
    (∀ l : List String, l ≠ [] → (∀ a ∈ l, ',' ∉ a.data) →
      Split (FlattenSliceToString l) ',' = l)
    ∧ FlattenSliceToString [] = ""
    ∧ Split (FlattenSliceToString []) ',' = [""]
    ∧ (∀ (validPerms : List (String × String)) (p q : Permission) (rights : List String),
        p.Rights = "" → ConvertToValidList p.RightList validPerms = .ok rights →
        ResolvePermissions.convert validPerms p q
          = (none, { q with Rights := FlattenSliceToString rights }))
    ∧ (∀ (validPerms : List (String × String)) (p q : Permission), p.Rights = "" →
        p.RightList = [] → ResolvePermissions.convert validPerms p q = (none, { q with Rights := "" }))
    ∧ (∀ (validPerms : List (String × String)), (∀ e ∈ validPerms, e.2 ≠ "") →
        "" ∉ validPerms.map Prod.fst →
        ∃ msg, ConvertToValidList (Split "" ',') validPerms = .error msg) := by
  refine ⟨Split_FlattenSliceToString, by decide, by decide, ?_, ?_, ?_⟩
  · intro validPerms p q rights hR hok
    unfold ResolvePermissions.convert
    by_cases hL : p.RightList = []
    · rw [hL] at hok
      have hr : rights = [] := by
        simpa [ConvertToValidList, ConvertToValidList.loop] using hok.symm
      simp [hR, hL, hr]
    · simp [hR, hL, hok]
  · intro validPerms p q hR hL
    unfold ResolvePermissions.convert
    simp [hR, hL]
    decide
  · intro validPerms hval hkey
    exact (ConvertToValidList_fails_iff validPerms (Split "" ',') hval).mpr
      ⟨"", by decide, hkey⟩

/-- C26, at the rights "View" and "Edit". -/
theorem Split_join_inverse_witness :
    ["View", "Edit"] ≠ [] ∧ (∀ a ∈ ["View", "Edit"], ',' ∉ a.data)
    ∧ FlattenSliceToString ["View", "Edit"] = "View,Edit"
    ∧ Split (FlattenSliceToString ["View", "Edit"]) ',' = ["View", "Edit"] :=
  ⟨by decide, by decide, by decide,
   Split_join_inverse.1 ["View", "Edit"] (by decide) (by decide)⟩

/-! ### `flattenNestedMap`, `flattenSettings` -/

theorem range_nil (flat : List (String × Value)) : flattenNestedMap.range flat [] = flat := by
  rw [flattenNestedMap.range]

theorem range_cons_object (flat : List (String × Value)) (k : String)
    (sub rest : List (String × Value)) :
    flattenNestedMap.range flat ((k, Value.object sub) :: rest)
      = flattenNestedMap.range (flattenNestedMap.range flat sub) rest := by
  rw [flattenNestedMap.range, flattenNestedMap.assign, flattenNestedMap]

theorem range_cons_leaf (flat : List (String × Value)) (k : String) (v : Value)
    (rest : List (String × Value)) (hv : ∀ sub, v ≠ Value.object sub) :
    flattenNestedMap.range flat ((k, v) :: rest)
      = flattenNestedMap.range (Value.assign flat k v) rest := by
  rw [flattenNestedMap.range]
  cases v with
  | object sub => exact absurd rfl (hv sub)
  | _ =>
    rw [flattenNestedMap.assign]
    exact hv

theorem leafPairs_nil : leafPairs [] = [] := by
  rw [leafPairs]

theorem leafPairs_cons_object (k : String) (sub rest : List (String × Value)) :
    leafPairs ((k, Value.object sub) :: rest) = leafPairs sub ++ leafPairs rest := by
  rw [leafPairs]

theorem leafPairs_cons_leaf (k : String) (v : Value) (rest : List (String × Value))
    (hv : ∀ sub, v ≠ Value.object sub) :
    leafPairs ((k, v) :: rest) = (k, v) :: leafPairs rest := by
  cases v with
  | object sub => exact absurd rfl (hv sub)
  | _ =>
    rw [leafPairs]
    exact hv

/-- Induction over a nested mapping: the entries in order, a sub-mapping before
the entries that follow it. -/
theorem entries_induction {P : List (String × Value) → Prop} (hnil : P [])
    (hobj : ∀ k sub rest, P sub → P rest → P ((k, Value.object sub) :: rest))
    (hleaf : ∀ k v rest, (∀ sub, v ≠ Value.object sub) → P rest → P ((k, v) :: rest)) :
    ∀ l, P l
  | [] => hnil
  | (k, Value.object sub) :: rest =>
    hobj k sub rest (entries_induction hnil hobj hleaf sub)
      (entries_induction hnil hobj hleaf rest)
  | (k, Value.null) :: rest =>
    hleaf k _ rest (fun _ h => by cases h) (entries_induction hnil hobj hleaf rest)
  | (k, Value.bool _) :: rest =>
    hleaf k _ rest (fun _ h => by cases h) (entries_induction hnil hobj hleaf rest)
  | (k, Value.number _) :: rest =>
    hleaf k _ rest (fun _ h => by cases h) (entries_induction hnil hobj hleaf rest)
  | (k, Value.str _) :: rest =>
    hleaf k _ rest (fun _ h => by cases h) (entries_induction hnil hobj hleaf rest)
  | (k, Value.array _) :: rest =>
    hleaf k _ rest (fun _ h => by cases h) (entries_induction hnil hobj hleaf rest)
termination_by l => sizeOf l

/-! #### Assignments in a row -/

theorem lookup_of_mem_nodup {β : Type} (m : List (String × β)) (k : String) (v : β)
    (hn : (m.map Prod.fst).Nodup) (h : (k, v) ∈ m) : m.lookup k = some v := by
  induction m with
  | nil => simp at h
  | cons e rest ih =>
    obtain ⟨k2, v2⟩ := e
    simp only [List.map_cons, List.nodup_cons] at hn
    rcases List.mem_cons.mp h with h1 | h1
    · cases h1
      simp [List.lookup]
    · have hk : k ≠ k2 := by
        intro he
        subst he
        exact hn.1 (List.mem_map_of_mem Prod.fst h1)
      have hb : (k == k2) = false := by simpa using hk
      simp only [List.lookup, hb]
      exact ih hn.2 h1

theorem inner_append (flat A B : List (String × Value)) :
    flattenSettings.inner flat (A ++ B)
      = flattenSettings.inner (flattenSettings.inner flat A) B := by
  induction A generalizing flat with
  | nil => rfl
  | cons e rest ih =>
    obtain ⟨k, v⟩ := e
    simp only [List.cons_append, flattenSettings.inner]
    exact ih _

/-- Reading the flat map after a row of assignments: the last value assigned
under the key, the flat map as it was under a key that is not assigned. -/
theorem inner_lookup (L : List (String × Value)) (k : String) :
    ∀ flat, (flattenSettings.inner flat L).lookup k = (L.reverse ++ flat).lookup k := by
  induction L with
  | nil => intro flat; rfl
  | cons e rest ih =>
    intro flat
    obtain ⟨k2, v2⟩ := e
    simp only [flattenSettings.inner, ih, List.reverse_cons, List.append_assoc,
      List.lookup_append, assign_lookup]
    congr 1
    by_cases hk : k = k2
    · simp [hk, List.lookup]
    · have hb : (k == k2) = false := by simpa using hk
      simp [hk, List.lookup, hb]

theorem assign_mem (flat : List (String × Value)) (k : String) (v : Value)
    (e : String × Value) (h : e ∈ Value.assign flat k v) : e = (k, v) ∨ e ∈ flat := by
  unfold Value.assign at h
  rcases List.mem_cons.mp h with h1 | h1
  · exact Or.inl h1
  · exact Or.inr (List.mem_filter.mp h1).1

theorem assign_nodup (flat : List (String × Value)) (k : String) (v : Value)
    (h : (flat.map Prod.fst).Nodup) : ((Value.assign flat k v).map Prod.fst).Nodup := by
  unfold Value.assign
  simp only [List.map_cons, List.nodup_cons, List.mem_map, List.mem_filter, not_exists, not_and]
  constructor
  · intro e he hk
    simp [hk] at he
  · have hf : (flat.filter (fun e => decide (e.1 ≠ k))).map Prod.fst
        = (flat.map Prod.fst).filter (fun x => decide (x ≠ k)) := by
      rw [List.filter_map]
      rfl
    rw [hf]
    exact h.filter _

/-- Every entry of the flat map after a row of assignments is one of the pairs
assigned or an entry that was there before. -/
theorem inner_mem (L : List (String × Value)) (e : String × Value) :
    ∀ flat, e ∈ flattenSettings.inner flat L → e ∈ L ∨ e ∈ flat := by
  induction L with
  | nil => intro flat h; exact Or.inr h
  | cons e2 rest ih =>
    intro flat h
    obtain ⟨k2, v2⟩ := e2
    simp only [flattenSettings.inner] at h
    rcases ih _ h with h1 | h1
    · exact Or.inl (List.mem_cons_of_mem _ h1)
    · rcases assign_mem flat k2 v2 e h1 with h2 | h2
      · exact Or.inl (by rw [h2]; exact List.mem_cons_self _ _)
      · exact Or.inr h2

/-- The flat map stays a map, with one entry for a key. -/
theorem inner_nodup (L : List (String × Value)) :
    ∀ flat, (flat.map Prod.fst).Nodup → ((flattenSettings.inner flat L).map Prod.fst).Nodup := by
  induction L with
  | nil => intro flat h; exact h
  | cons e2 rest ih =>
    intro flat h
    obtain ⟨k2, v2⟩ := e2
    simp only [flattenSettings.inner]
    exact ih _ (assign_nodup flat k2 v2 h)

/-- When the keys assigned are distinct, the flat map afterwards holds every pair
assigned. -/
theorem inner_lookup_mem (L flat : List (String × Value)) (k : String) (v : Value)
    (hn : (L.map Prod.fst).Nodup) (h : (k, v) ∈ L) :
    (flattenSettings.inner flat L).lookup k = some v := by
  rw [inner_lookup, List.lookup_append]
  have hr : L.reverse.lookup k = some v := by
    apply lookup_of_mem_nodup
    · rw [List.map_reverse]
      exact List.nodup_reverse.mpr hn
    · exact List.mem_reverse.mpr h
  rw [hr]
  rfl

theorem inner_lookup_not_mem (L flat : List (String × Value)) (k : String)
    (h : k ∉ L.map Prod.fst) : (flattenSettings.inner flat L).lookup k = flat.lookup k := by
  rw [inner_lookup, List.lookup_append]
  have hr : L.reverse.lookup k = none := by
    rw [lookup_none_iff, List.map_reverse]
    intro hm
    exact h (List.mem_reverse.mp hm)
  rw [hr]
  rfl

/-- Distinct keys assigned in another order give the same flat map. -/
theorem inner_perm (L1 L2 flat : List (String × Value)) (hp : L1.Perm L2)
    (hn : (L1.map Prod.fst).Nodup) (k : String) :
    (flattenSettings.inner flat L1).lookup k = (flattenSettings.inner flat L2).lookup k := by
  have hn2 : (L2.map Prod.fst).Nodup := (hp.map Prod.fst).nodup_iff.mp hn
  by_cases hk : k ∈ L1.map Prod.fst
  · obtain ⟨e, he, hek⟩ := List.mem_map.mp hk
    obtain ⟨k2, v⟩ := e
    simp only at hek
    subst hek
    rw [inner_lookup_mem L1 flat k2 v hn he, inner_lookup_mem L2 flat k2 v hn2 (hp.mem_iff.mp he)]
  · have hk2 : k ∉ L2.map Prod.fst := fun h => hk ((hp.map Prod.fst).mem_iff.mpr h)
    rw [inner_lookup_not_mem L1 flat k hk, inner_lookup_not_mem L2 flat k hk2]

/-! #### The leaves of a nested mapping -/

/-- What `flattenNestedMap` does to the flat map is to assign the leaves of the
nested mapping one after the other. -/
theorem range_eq_inner (m : List (String × Value)) :
    ∀ flat, flattenNestedMap.range flat m = flattenSettings.inner flat (leafPairs m) := by
  induction m using entries_induction with
  | hnil =>
    intro flat
    rw [range_nil, leafPairs_nil]
    rfl
  | hobj k sub rest ihs ihr =>
    intro flat
    rw [range_cons_object, leafPairs_cons_object, inner_append, ihs, ihr]
  | hleaf k v rest hv ih =>
    intro flat
    rw [range_cons_leaf _ _ _ _ hv, leafPairs_cons_leaf _ _ _ hv, ih]
    rfl

/-- No leaf is a mapping. -/
theorem leafPairs_leaf (m : List (String × Value)) :
    ∀ e ∈ leafPairs m, ∀ sub, e.2 ≠ Value.object sub := by
  induction m using entries_induction with
  | hnil =>
    intro e he
    rw [leafPairs_nil] at he
    simp at he
  | hobj k sub rest ihs ihr =>
    intro e he
    rw [leafPairs_cons_object] at he
    rcases List.mem_append.mp he with h | h
    · exact ihs e h
    · exact ihr e h
  | hleaf k v rest hv ih =>
    intro e he
    rw [leafPairs_cons_leaf _ _ _ hv] at he
    rcases List.mem_cons.mp he with h | h
    · rw [h]
      exact hv
    · exact ih e h

theorem leafPairs_cons (e : String × Value) (l : List (String × Value)) :
    leafPairs (e :: l) = leafPairs [e] ++ leafPairs l := by
  obtain ⟨k, v⟩ := e
  by_cases hv : ∃ sub, v = Value.object sub
  · obtain ⟨sub, rfl⟩ := hv
    rw [leafPairs_cons_object, leafPairs_cons_object, leafPairs_nil, List.append_nil]
  · have hv2 : ∀ sub, v ≠ Value.object sub := fun sub h => hv ⟨sub, h⟩
    rw [leafPairs_cons_leaf _ _ _ hv2, leafPairs_cons_leaf _ _ _ hv2, leafPairs_nil]
    rfl

/-- Visiting the entries in another order reaches the same leaves. -/
theorem Reordered_leafPairs {m1 m2 : List (String × Value)} (h : Reordered m1 m2) :
    (leafPairs m1).Perm (leafPairs m2) := by
  induction h with
  | nil => exact List.Perm.refl _
  | @cons e l1 l2 _ ih =>
    have h1 := leafPairs_cons e l1
    have h2 := leafPairs_cons e l2
    rw [h1, h2]
    exact List.Perm.append_left _ ih
  | sub k _ _ ihs ihl =>
    rw [leafPairs_cons_object, leafPairs_cons_object]
    exact List.Perm.append ihs ihl
  | swap e1 e2 l =>
    have h1 := leafPairs_cons e1 (e2 :: l)
    have h2 := leafPairs_cons e2 (e1 :: l)
    have h3 := leafPairs_cons e1 l
    have h4 := leafPairs_cons e2 l
    rw [h1, h2, h3, h4, ← List.append_assoc, ← List.append_assoc]
    exact List.Perm.append_right _ List.perm_append_comm
  | trans _ _ ih1 ih2 => exact ih1.trans ih2

theorem Reordered_refl (m : List (String × Value)) : Reordered m m := by
  induction m with
  | nil => exact Reordered.nil
  | cons e rest ih => exact Reordered.cons e ih

/-- C21 as stated fails. In the nested mapping {"a": {"b": 1}, "c": {"a": 2}} the
leaf keys "b" and "a" are distinct, and the key "a" holds a sub-mapping at the
first level; it appears in the flat map all the same, as the key of the leaf
found under "c". -/
theorem flattenNestedMap_counterexample :
    ((leafPairs [("a", Value.object [("b", Value.number "1")]),
        ("c", Value.object [("a", Value.number "2")])]).map Prod.fst).Nodup
    ∧ flattenNestedMap []
        (Value.object [("a", Value.object [("b", Value.number "1")]),
          ("c", Value.object [("a", Value.number "2")])])
      = ([("a", Value.number "2"), ("b", Value.number "1")], none) := by
  constructor
  · simp [leafPairs]
  · simp [flattenNestedMap, flattenNestedMap.range, flattenNestedMap.assign, Value.assign]

/-- C21, amended. For every nested mapping whose leaf keys are all distinct,
`flattenNestedMap` called with an empty flat map returns no error and leaves
the flat map holding exactly the leaves of the nested mapping, each under its
own key: no value of the result is a mapping, the result has one entry for a
key, and a key appears in it exactly when it is the key of a leaf (a key that
held a sub-mapping appears only if it is a leaf key as well). The result is the
same map in whatever order the entries are visited at any depth. -/
theorem flattenNestedMap_leaves (m : List (String × Value))
    (hd : ((leafPairs m).map Prod.fst).Nodup) :
    ∃ flat, flattenNestedMap [] (Value.object m) = (flat, none)
      ∧ (∀ k v, (k, v) ∈ flat ↔ (k, v) ∈ leafPairs m)
      ∧ (∀ e ∈ flat, ∀ sub, e.2 ≠ Value.object sub)
      ∧ (flat.map Prod.fst).Nodup
      ∧ (∀ k, k ∈ flat.map Prod.fst ↔ k ∈ (leafPairs m).map Prod.fst)
      ∧ (∀ m2, Reordered m m2 →
          ∃ flat2, flattenNestedMap [] (Value.object m2) = (flat2, none)
            ∧ ∀ k, flat2.lookup k = flat.lookup k) := by
  have hmem : ∀ k v, (k, v) ∈ flattenSettings.inner [] (leafPairs m) ↔ (k, v) ∈ leafPairs m := by
    intro k v
    constructor
    · intro h
      rcases inner_mem _ _ _ h with h1 | h1
      · exact h1
      · simp at h1
    · intro h
      exact lookup_mem _ k v (inner_lookup_mem (leafPairs m) [] k v hd h)
  refine ⟨flattenSettings.inner [] (leafPairs m), ?_, hmem, ?_, ?_, ?_, ?_⟩
  · rw [flattenNestedMap, range_eq_inner]
  · intro e he
    exact leafPairs_leaf m e ((hmem e.1 e.2).mp he)
  · exact inner_nodup _ _ List.nodup_nil
  · intro k
    constructor
    · intro h
      obtain ⟨e, he, hk⟩ := List.mem_map.mp h
      exact List.mem_map.mpr ⟨e, (hmem e.1 e.2).mp he, hk⟩
    · intro h
      obtain ⟨e, he, hk⟩ := List.mem_map.mp h
      exact List.mem_map.mpr ⟨e, (hmem e.1 e.2).mpr he, hk⟩
  · intro m2 hr
    refine ⟨flattenSettings.inner [] (leafPairs m2), ?_, ?_⟩
    · rw [flattenNestedMap, range_eq_inner]
    · intro k
      exact (inner_perm _ _ [] (Reordered_leafPairs hr) hd k).symm

/-- C21, amended, at a nested mapping of three levels. -/
theorem flattenNestedMap_leaves_witness :
    ((leafPairs [("a", Value.object [("b", Value.number "1"),
          ("c", Value.object [("d", Value.str "x")])]),
        ("e", Value.bool true)]).map Prod.fst).Nodup
    ∧ flattenNestedMap []
        (Value.object [("a", Value.object [("b", Value.number "1"),
            ("c", Value.object [("d", Value.str "x")])]),
          ("e", Value.bool true)])
      = ([("e", Value.bool true), ("d", Value.str "x"), ("b", Value.number "1")], none)
    ∧ ∃ flat, flattenNestedMap []
          (Value.object [("a", Value.object [("b", Value.number "1"),
              ("c", Value.object [("d", Value.str "x")])]),
            ("e", Value.bool true)]) = (flat, none)
        ∧ ∀ k, k ∈ flat.map Prod.fst ↔ k ∈ ["b", "d", "e"] := by
  have hl : leafPairs [("a", Value.object [("b", Value.number "1"),
          ("c", Value.object [("d", Value.str "x")])]),
        ("e", Value.bool true)]
      = [("b", Value.number "1"), ("d", Value.str "x"), ("e", Value.bool true)] := by
    simp [leafPairs]
  have hd : ((leafPairs [("a", Value.object [("b", Value.number "1"),
          ("c", Value.object [("d", Value.str "x")])]),
        ("e", Value.bool true)]).map Prod.fst).Nodup := by
    rw [hl]
    decide
  refine ⟨hd, ?_, ?_⟩
  · simp [flattenNestedMap, flattenNestedMap.range, flattenNestedMap.assign, Value.assign]
  · obtain ⟨flat, h1, _, _, _, h5, _⟩ := flattenNestedMap_leaves _ hd
    refine ⟨flat, h1, ?_⟩
    intro k
    rw [h5 k, hl]
    rfl

/-! #### `flattenSettings` -/

/-- What `flattenSettings` does to the flat map is to assign the pairs of
`settingPairs` one after the other. -/
theorem outer_eq_inner (m : List (String × Value)) :
    ∀ flat, flattenSettings.outer flat m = flattenSettings.inner flat (settingPairs m) := by
  induction m with
  | nil => intro flat; rfl
  | cons e rest ih =>
    intro flat
    obtain ⟨k, v⟩ := e
    cases v with
    | object sub =>
      simp only [flattenSettings.outer, settingPairs, inner_append, ih]
    | _ =>
      simp only [flattenSettings.outer, settingPairs, flattenSettings.inner, ih]

/-- A mapping without mapping among its values is the list of its own leaves. -/
theorem leafPairs_flat (l : List (String × Value))
    (h : ∀ e ∈ l, ∀ sub, e.2 ≠ Value.object sub) : leafPairs l = l := by
  induction l with
  | nil => exact leafPairs_nil
  | cons e rest ih =>
    obtain ⟨k, v⟩ := e
    rw [leafPairs_cons_leaf k v rest (h (k, v) (List.mem_cons_self _ _)),
      ih (fun e2 he2 => h e2 (List.mem_cons_of_mem _ he2))]

/-- On a mapping of two levels `flattenSettings` assigns the leaves. -/
theorem settingPairs_twoLevel (m : List (String × Value))
    (h : ∀ e ∈ m, ∀ sub, e.2 = Value.object sub → ∀ e2 ∈ sub, ∀ s2, e2.2 ≠ Value.object s2) :
    settingPairs m = leafPairs m := by
  induction m with
  | nil => rw [leafPairs_nil]; rfl
  | cons e rest ih =>
    obtain ⟨k, v⟩ := e
    have ihr := ih (fun e2 he2 => h e2 (List.mem_cons_of_mem _ he2))
    cases v with
    | object sub =>
      rw [leafPairs_cons_object, leafPairs_flat sub (h (k, Value.object sub)
        (List.mem_cons_self _ _) sub rfl), ← ihr]
      rfl
    | _ =>
      rw [leafPairs_cons_leaf _ _ _ (fun _ hh => by cases hh), ← ihr]
      rfl

/-- Another order of a mapping without mapping among its values is a
permutation of its entries. -/
theorem Reordered_flat {l1 l2 : List (String × Value)} (h : Reordered l1 l2)
    (hf : ∀ e ∈ l1, ∀ sub, e.2 ≠ Value.object sub) : l1.Perm l2 := by
  induction h with
  | nil => exact List.Perm.refl _
  | cons e _ ih =>
    exact List.Perm.cons e (ih (fun e2 he2 => hf e2 (List.mem_cons_of_mem _ he2)))
  | sub k _ _ _ _ =>
    exact absurd rfl (hf _ (List.mem_cons_self _ _) _)
  | swap e1 e2 l => exact List.Perm.swap e2 e1 l
  | trans _ _ ih1 ih2 =>
    have p1 := ih1 hf
    exact p1.trans (ih2 (fun e he => hf e (p1.mem_iff.mpr he)))

/-- Another order of a mapping of two levels is a mapping of two levels. -/
theorem Reordered_twoLevel {m1 m2 : List (String × Value)} (h : Reordered m1 m2)
    (h2 : ∀ e ∈ m1, ∀ sub, e.2 = Value.object sub → ∀ e2 ∈ sub, ∀ s2, e2.2 ≠ Value.object s2) :
    ∀ e ∈ m2, ∀ sub, e.2 = Value.object sub → ∀ e2 ∈ sub, ∀ s2, e2.2 ≠ Value.object s2 := by
  induction h with
  | nil => exact h2
  | cons e _ ih =>
    intro e3 he3
    rcases List.mem_cons.mp he3 with h3 | h3
    · rw [h3]
      exact h2 e (List.mem_cons_self _ _)
    · exact ih (fun e4 he4 => h2 e4 (List.mem_cons_of_mem _ he4)) e3 h3
  | @sub k s1 s2 l1 l2 hs _ _ ihl =>
    intro e3 he3
    rcases List.mem_cons.mp he3 with h3 | h3
    · rw [h3]
      intro sub hsub e2 he2
      cases hsub
      have hflat := h2 (k, Value.object s1) (List.mem_cons_self _ _) s1 rfl
      exact hflat e2 ((Reordered_flat hs hflat).mem_iff.mpr he2)
    · exact ihl (fun e4 he4 => h2 e4 (List.mem_cons_of_mem _ he4)) e3 h3
  | swap e1 e2 l =>
    intro e3 he3
    apply h2 e3
    simp only [List.mem_cons] at he3 ⊢
    tauto
  | trans _ _ ih1 ih2 => exact ih2 (ih1 h2)

theorem settingPairs_mem (m : List (String × Value)) (k1 : String)
    (sub : List (String × Value)) (e2 : String × Value)
    (h1 : (k1, Value.object sub) ∈ m) (h2 : e2 ∈ sub) : e2 ∈ settingPairs m := by
  induction m with
  | nil => simp at h1
  | cons e rest ih =>
    obtain ⟨k, v⟩ := e
    rcases List.mem_cons.mp h1 with h | h
    · cases h
      simp only [settingPairs]
      exact List.mem_append_left _ h2
    · cases v with
      | object s =>
        simp only [settingPairs]
        exact List.mem_append_right _ (ih h)
      | _ =>
        simp only [settingPairs]
        exact List.mem_cons_of_mem _ (ih h)

/-- C28 as stated fails. A second-level value that is a mapping does not make
the two results differ in every case. Started from the flat map {"b": {}}, both
functions leave that flat map as it is for the nested mapping {"a": {"b": {}}};
started from the empty flat map, both give {"b": 5} for the nested mapping
{"a": {"b": {}}, "z": {"b": 5}} visited in this order. -/
theorem flattenSettings_counterexample :
    flattenSettings [("b", Value.object [])]
        (Value.object [("a", Value.object [("b", Value.object [])])])
      = .ok [("b", Value.object [])]
    ∧ flattenNestedMap [("b", Value.object [])]
        (Value.object [("a", Value.object [("b", Value.object [])])])
      = ([("b", Value.object [])], none)
    ∧ flattenSettings []
        (Value.object [("a", Value.object [("b", Value.object [])]),
          ("z", Value.object [("b", Value.number "5")])])
      = .ok [("b", Value.number "5")]
    ∧ flattenNestedMap []
        (Value.object [("a", Value.object [("b", Value.object [])]),
          ("z", Value.object [("b", Value.number "5")])])
      = ([("b", Value.number "5")], none) := by
  refine ⟨?_, ?_, ?_, ?_⟩
  · simp [flattenSettings, flattenSettings.outer, flattenSettings.inner, Value.assign]
  · simp [flattenNestedMap, flattenNestedMap.range, flattenNestedMap.assign]
  · simp [flattenSettings, flattenSettings.outer, flattenSettings.inner, Value.assign]
  · simp [flattenNestedMap, flattenNestedMap.range, flattenNestedMap.assign, Value.assign]

/-- C28, amended. For every nested mapping in which no value at the second level
is a mapping, and every flat map to start from, `flattenSettings` and
`flattenNestedMap` return no error and leave the same flat map; when the leaf
keys are distinct this is so in whatever order each of the two visits the
entries. When a second-level value is a mapping, `flattenSettings` stores that
mapping under its key where `flattenNestedMap` descends into it: the two
results differ whenever the keys that `flattenSettings` assigns are distinct and
the flat map to start from holds no mapping as a value. -/
theorem flattenSettings_twoLevel :
    (∀ (m flat : List (String × Value)),
      (∀ e ∈ m, ∀ sub, e.2 = Value.object sub → ∀ e2 ∈ sub, ∀ s2, e2.2 ≠ Value.object s2) →
      flattenSettings flat (Value.object m) = .ok (flattenNestedMap flat (Value.object m)).1
      ∧ (flattenNestedMap flat (Value.object m)).2 = none
      ∧ (((leafPairs m).map Prod.fst).Nodup → ∀ m1 m2, Reordered m m1 → Reordered m m2 →
          ∃ flat1 flat2, flattenSettings flat (Value.object m1) = .ok flat1
            ∧ flattenNestedMap flat (Value.object m2) = (flat2, none)
            ∧ ∀ k, flat1.lookup k = flat2.lookup k))
    ∧ (∀ (m flat : List (String × Value)) (k1 k2 : String) (sub s2 : List (String × Value)),
      (k1, Value.object sub) ∈ m → (k2, Value.object s2) ∈ sub →
      ((settingPairs m).map Prod.fst).Nodup → (∀ e ∈ flat, ∀ s, e.2 ≠ Value.object s) →
      ∃ flat1 flat2, flattenSettings flat (Value.object m) = .ok flat1
        ∧ flattenNestedMap flat (Value.object m) = (flat2, none)
        ∧ flat1.lookup k2 = some (Value.object s2)
        ∧ (∀ e ∈ flat2, ∀ s, e.2 ≠ Value.object s)
        ∧ flat1 ≠ flat2) := by
  constructor
  · intro m flat h2
    refine ⟨?_, ?_, ?_⟩
    · rw [flattenNestedMap, range_eq_inner]
      simp only [flattenSettings]
      rw [outer_eq_inner, settingPairs_twoLevel m h2]
    · rw [flattenNestedMap]
    · intro hd m1 m2 hr1 hr2
      refine ⟨flattenSettings.inner flat (leafPairs m1), flattenSettings.inner flat (leafPairs m2),
        ?_, ?_, ?_⟩
      · simp only [flattenSettings]
        rw [outer_eq_inner, settingPairs_twoLevel m1 (Reordered_twoLevel hr1 h2)]
      · rw [flattenNestedMap, range_eq_inner]
      · intro k
        have p1 := Reordered_leafPairs hr1
        have p2 := Reordered_leafPairs hr2
        have hd1 : ((leafPairs m1).map Prod.fst).Nodup := (p1.map Prod.fst).nodup_iff.mp hd
        exact inner_perm _ _ flat (p1.symm.trans p2) hd1 k
  · intro m flat k1 k2 sub s2 h1 h2 hn hflat
    have hF2 : ∀ e ∈ flattenSettings.inner flat (leafPairs m), ∀ s, e.2 ≠ Value.object s := by
      intro e he
      rcases inner_mem _ _ _ he with h | h
      · exact leafPairs_leaf m e h
      · exact hflat e h
    have hF1 : (flattenSettings.inner flat (settingPairs m)).lookup k2
        = some (Value.object s2) :=
      inner_lookup_mem _ flat k2 _ hn (settingPairs_mem m k1 sub _ h1 h2)
    refine ⟨flattenSettings.inner flat (settingPairs m),
      flattenSettings.inner flat (leafPairs m), ?_, ?_, hF1, hF2, ?_⟩
    · simp only [flattenSettings]
      rw [outer_eq_inner]
    · rw [flattenNestedMap, range_eq_inner]
    · intro heq
      rw [heq] at hF1
      exact hF2 _ (lookup_mem _ _ _ hF1) s2 rfl

/-- C28, amended, at a mapping of two levels and at one of three. -/
theorem flattenSettings_twoLevel_witness :
    flattenSettings [("old", Value.number "0")]
        (Value.object [("CentrifyServices", Value.object [("a", Value.number "1"),
            ("b", Value.str "x")]), ("top", Value.bool true)])
      = .ok (flattenNestedMap [("old", Value.number "0")]
        (Value.object [("CentrifyServices", Value.object [("a", Value.number "1"),
            ("b", Value.str "x")]), ("top", Value.bool true)])).1
    ∧ flattenSettings [("old", Value.number "0")]
        (Value.object [("CentrifyServices", Value.object [("a", Value.number "1"),
            ("b", Value.str "x")]), ("top", Value.bool true)])
      = .ok [("top", Value.bool true), ("b", Value.str "x"), ("a", Value.number "1"),
          ("old", Value.number "0")]
    ∧ ∃ flat1 flat2,
        flattenSettings [] (Value.object [("a", Value.object [("b", Value.object
          [("c", Value.number "1")])])]) = .ok flat1
        ∧ flattenNestedMap [] (Value.object [("a", Value.object [("b", Value.object
          [("c", Value.number "1")])])]) = (flat2, none)
        ∧ flat1 ≠ flat2 := by
  refine ⟨?_, ?_, ?_⟩
  · refine (flattenSettings_twoLevel.1 _ _ ?_).1
    intro e he sub hsub e2 he2 s2
    simp only [List.mem_cons, List.mem_singleton, List.not_mem_nil, or_false] at he
    rcases he with rfl | rfl
    · cases hsub
      simp only [List.mem_cons, List.mem_singleton, List.not_mem_nil, or_false] at he2
      rcases he2 with rfl | rfl <;> simp
    · cases hsub
  · simp [flattenSettings, flattenSettings.outer, flattenSettings.inner, Value.assign]
  · obtain ⟨flat1, flat2, h1, h2, _, _, h5⟩ := flattenSettings_twoLevel.2
      [("a", Value.object [("b", Value.object [("c", Value.number "1")])])] [] "a" "b"
      [("b", Value.object [("c", Value.number "1")])] [("c", Value.number "1")]
      (by simp) (by simp) (by simp [settingPairs]) (by simp)
    exact ⟨flat1, flat2, h1, h2, h5⟩

/-! ### Fields absent from the mapping -/

/-- The field that `json.Unmarshal` fills from a key carries that key, exactly or
without regard to case. -/
theorem findField_some {α : Type} (fields : List (Field α)) (key : String) (g : Field α)
    (h : findField fields key = some g) :
    g ∈ fields ∧ ∃ name, g.json = some name ∧ (name = key ∨ equalFold name key = true) := by
  unfold findField at h
  cases hfind : fields.find? (fun f => f.json == some key) with
  | some f =>
    rw [hfind] at h
    cases h
    have hg := List.find?_some hfind
    exact ⟨List.mem_of_find?_eq_some hfind, key, by simpa using hg, Or.inl rfl⟩
  | none =>
    rw [hfind] at h
    simp only at h
    have hg := List.find?_some h
    refine ⟨List.mem_of_find?_eq_some h, ?_⟩
    cases hj : g.json with
    | none => simp [hj] at hg
    | some name =>
      simp only [hj] at hg
      exact ⟨name, rfl, Or.inr hg⟩

/-- An observation of the struct that only the field of the key `K` can change
is left as it was by `json.Unmarshal` of a mapping in which no key is `K`,
exactly or without regard to case. -/
theorem jsonUnmarshal_keep {α β : Type} (fields : List (Field α)) (obs : α → β) (K : String)
    (a : α) (m : List (String × Value))
    (hkeep : ∀ g ∈ fields, g.json ≠ some K → ∀ x v, obs (g.decode x v).1 = obs x)
    (habs : ∀ e ∈ m, e.1 ≠ K ∧ equalFold K e.1 = false) :
    obs (jsonUnmarshal fields a m).1 = obs a := by
  unfold jsonUnmarshal
  apply foldl_step_obs fields obs (obs a) K m (a, none)
  · intro s e he hk
    exact absurd hk (habs e he).1
  · intro s e he _
    unfold jsonUnmarshal.step
    cases hfind : findField fields e.1 with
    | none => rfl
    | some g =>
      obtain ⟨hg, name, hname, hmatch⟩ := findField_some fields e.1 g hfind
      apply hkeep g hg
      rw [hname]
      intro heq
      cases heq
      rcases hmatch with h | h
      · exact (habs e he).1 h.symm
      · rw [(habs e he).2] at h
        cases h
  · exact Or.inl rfl

/-- Decoding into a field of a Secret leaves alone the fields that `Secret`
declares under other keys. -/
theorem Secret_fields_keep (d : Declarations) (G : Field Secret) (k : String) (a : Secret)
    (v : Value) (hG : G ∈ Secret.fields d) (hk : G.json ≠ some k) :
    Secret.getJSON (G.decode a v).1 k = Secret.getJSON a k := by
  rcases List.mem_append.mp hG with h | h
  · obtain ⟨g, _, rfl⟩ := List.mem_map.mp h
    rfl
  · simp only [Secret.ownFields, List.mem_cons, List.mem_singleton, List.not_mem_nil,
      or_false] at h
    rcases h with rfl | rfl | rfl | rfl | rfl | rfl | rfl | rfl | rfl
    case inr.inr.inr.inr.inr.inr.inr.inr =>
      cases v <;> rfl
    all_goals simp [stringField, stringsField, Secret.rulesField] at hk
    all_goals have hk2 := Ne.symm hk
    all_goals cases v <;> simp [Secret.getJSON, stringField, stringsField, Secret.rulesField, hk2]

/-- Decoding under another key than "DataVaultRules" leaves the challenge rules
of a Secret alone. -/
theorem Secret_fields_keep_rules (d : Declarations) (G : Field Secret) (a : Secret)
    (v : Value) (hG : G ∈ Secret.fields d) (hk : G.json ≠ some "DataVaultRules") :
    (G.decode a v).1.ChallengeRules = a.ChallengeRules := by
  rcases List.mem_append.mp hG with h | h
  · obtain ⟨g, _, rfl⟩ := List.mem_map.mp h
    rfl
  · simp only [Secret.ownFields, List.mem_cons, List.mem_singleton, List.not_mem_nil,
      or_false] at h
    rcases h with rfl | rfl | rfl | rfl | rfl | rfl | rfl | rfl | rfl
    all_goals try (cases v <;> rfl)
    simp [Secret.rulesField] at hk

/-- C23 as stated fails. A Secret that holds the name "Test secret" keeps it
through a successful `mapToStruct` of a mapping without the key "SecretName":
the field does not hold its zero value afterwards. It is the same in
`Secret.Read`, which decodes the result of the read call into the Secret at
hand. -/
theorem mapToStruct_absent_counterexample :
    (mapToStruct (jsonUnmarshal (Secret.fields (exampleDeclarations "Secret")))
        (exampleSecret (successClient "x") "id1") [("SecretText", Value.str "new")]).2 = none
    ∧ (mapToStruct (jsonUnmarshal (Secret.fields (exampleDeclarations "Secret")))
        (exampleSecret (successClient "x") "id1") [("SecretText", Value.str "new")]).1.SecretText
      = "new"
    ∧ (mapToStruct (jsonUnmarshal (Secret.fields (exampleDeclarations "Secret")))
        (exampleSecret (successClient "x") "id1") [("SecretText", Value.str "new")]).1.SecretName
      = "Test secret"
    ∧ (Secret.Read ((exampleDeclarations "Secret").env exampleEnv.folderGetIDByName)
        (exampleSecret (readClient [("SecretText", Value.str "new")]) "id1") []).1 = .ok ()
    ∧ (Secret.Read ((exampleDeclarations "Secret").env exampleEnv.folderGetIDByName)
        (exampleSecret (readClient [("SecretText", Value.str "new")]) "id1") []).2.1.SecretName
      = "Test secret" :=
  ⟨by decide, by decide, by decide, rfl, by decide⟩

/-- C23, amended. For every mapping and every key that no key of the mapping
matches, exactly or without regard to case, `mapToStruct` leaves the field of
that key as it was before the call, in a Secret and in a Connector: the field
holds its zero value afterwards only if it held it before, as in a fresh
object. -/
theorem mapToStruct_absent (d : Declarations) (k : String) (m : List (String × Value))
    (habs : ∀ e ∈ m, e.1 ≠ k ∧ equalFold k e.1 = false) :
    (∀ o : Secret,
      Secret.getJSON (mapToStruct (jsonUnmarshal (Secret.fields d)) o m).1 k
        = Secret.getJSON o k)
    ∧ (k = "DataVaultRules" → ∀ o : Secret,
      (mapToStruct (jsonUnmarshal (Secret.fields d)) o m).1.ChallengeRules = o.ChallengeRules)
    ∧ (∀ c : Connector,
      Connector.getJSON (mapToStruct (jsonUnmarshal (Connector.fields d.vaultObject)) c m).1 k
        = Connector.getJSON c k)
    ∧ (∀ client : RestClient,
      Connector.getJSON
          (mapToStruct (jsonUnmarshal (Connector.fields d.vaultObject)) (NewConnector client) m).1 k
        = Connector.getJSON (NewConnector client) k) := by
  have hc : ∀ c : Connector,
      Connector.getJSON (mapToStruct (jsonUnmarshal (Connector.fields d.vaultObject)) c m).1 k
        = Connector.getJSON c k := by
    intro c
    rw [mapToStruct_fst]
    exact jsonUnmarshal_keep _ (fun a => Connector.getJSON a k) k c m
      (fun g hg hk x v => Connector_fields_keep d.vaultObject g k x v hg hk) habs
  refine ⟨?_, ?_, hc, fun client => hc _⟩
  · intro o
    rw [mapToStruct_fst]
    exact jsonUnmarshal_keep _ (fun a => Secret.getJSON a k) k o m
      (fun g hg hk x v => Secret_fields_keep d g k x v hg hk) habs
  · intro hk o
    subst hk
    rw [mapToStruct_fst]
    exact jsonUnmarshal_keep _ (fun a => a.ChallengeRules) "DataVaultRules" o m
      (fun g hg hk x v => Secret_fields_keep_rules d g x v hg hk) habs

/-- C23, amended, at the Secret of the example and a mapping that holds
"SecretText" only: the name is kept. -/
theorem mapToStruct_absent_witness :
    (∀ e ∈ [("SecretText", Value.str "new")], e.1 ≠ "SecretName"
      ∧ equalFold "SecretName" e.1 = false)
    ∧ Secret.getJSON (mapToStruct (jsonUnmarshal (Secret.fields (exampleDeclarations "Secret")))
        (exampleSecret (successClient "x") "id1") [("SecretText", Value.str "new")]).1
        "SecretName"
      = some (Value.str "Test secret") :=
  ⟨by decide,
   (mapToStruct_absent (exampleDeclarations "Secret") "SecretName" [("SecretText", Value.str "new")]
     (by decide)).1 (exampleSecret (successClient "x") "id1")⟩

end Platform
